import Mathlib

/-!
# SwitchNode (ns-3 datacenter switch): forwarding, admission and flow control

A shallow embedding of `src/point-to-point/model/switch-node.cc`.

Conventions of the embedding.

* `uint8_t`, `uint16_t`, `uint32_t` values are natural numbers; every operation of
  the source that can leave the 32-bit range is followed by an explicit `u32`.
* The buffer manager (`SwitchMmu`), the devices and the packet tags are declared in
  files that are not part of the sources; they are taken as parameters
  (`Mmu`, `Packet`, `CustomHeader`) and every call made on them is logged as an `Event`.
* Constant operands of `+` and `*` are written on the left (`c * k` for `k *= c`,
  `c + x` for `x + c`): the value is the same and no numeral is ever unfolded in
  unary while terms are compared.
* `NS_ASSERT_MSG (m_devices[idx]->IsLinkUp ())` is a debugging aid that states a
  precondition on the routing table; the embedding covers the executions in which it
  holds (or is compiled out).
-/

namespace SwitchNode

/-! ## Machine words -/

/-- Truncation to `uint32_t`. -/
def u32 (x : Nat) : Nat := x % 4294967296

/-- Truncation to `uint16_t`. -/
def u16 (x : Nat) : Nat := x % 65536

/-- Conversion of a `uint32_t` value to `int` (two's complement, 32 bits). -/
def toInt32 (x : Nat) : Int :=
  if u32 x < 2147483648 then (u32 x : Int) else (u32 x : Int) - 4294967296

/-! ## EcmpHash (lines 196-232) -/

/-- Byte `key[pos]` of the key buffer (`uint8_t`). -/
def keyByte (key : List Nat) (pos : Nat) : Nat := key.getD pos 0 % 256

/-- The load `*key_x4` of a `uint32_t` at byte offset `pos` (little-endian host). -/
def loadU32 (key : List Nat) (pos : Nat) : Nat :=
  keyByte key pos ||| (keyByte key (pos + 1) <<< 8) ||| (keyByte key (pos + 2) <<< 16)
    ||| (keyByte key (pos + 3) <<< 24)

/-- Body of the block loop, lines 202-208, for the loaded word `k` and running hash `h`. -/
def ecmpBlockBody (k h : Nat) : Nat :=
  let k := u32 (0xcc9e2d51 * k)
  let k := u32 (k <<< 15) ||| (k >>> 17)
  let k := u32 (0x1b873593 * k)
  let h := h ^^^ k
  let h := u32 (h <<< 13) ||| (h >>> 19)
  u32 (h + u32 (0xe6546b64 + u32 (h <<< 2)))

/-- The `do ... while (--i)` loop of lines 201-209 entered with `i = n + 1`: it returns
the byte offset reached by `key_x4` and the running hash. -/
def ecmpBlockLoop (key : List Nat) : Nat → Nat → Nat → Nat × Nat
  | 0, pos, h => (pos + 4, ecmpBlockBody (loadU32 key pos) h)
  | n + 1, pos, h => ecmpBlockLoop key n (pos + 4) (ecmpBlockBody (loadU32 key pos) h)

/-- The `do ... while (--i)` loop of lines 216-219 entered with `i = n + 1` and `key`
pointing at offset `pos`; it walks downwards. -/
def ecmpTailLoop (key : List Nat) : Nat → Nat → Nat → Nat
  | 0, pos, k => u32 (k <<< 8) ||| keyByte key pos
  | n + 1, pos, k => ecmpTailLoop key n (pos - 1) (u32 (k <<< 8) ||| keyByte key pos)

/-- Lines 220-223: the trailing word `k` folded into `h`. -/
def ecmpTailMix (k h : Nat) : Nat :=
  let k := u32 (0xcc9e2d51 * k)
  let k := u32 (k <<< 15) ||| (k >>> 17)
  let k := u32 (0x1b873593 * k)
  h ^^^ k

/-- Lines 225-231: the final mixing pass. -/
def ecmpFinal (h len : Nat) : Nat :=
  let h := u32 (h ^^^ len)
  let h := h ^^^ (h >>> 16)
  let h := u32 (0x85ebca6b * h)
  let h := h ^^^ (h >>> 13)
  let h := u32 (0xc2b2ae35 * h)
  h ^^^ (h >>> 16)

/-- `SwitchNode::EcmpHash (key, len, seed)`. -/
def EcmpHash (key : List Nat) (len seed : Nat) : Nat :=
  let h := u32 seed
  let st : Nat × Nat :=
    if len > 3 then ecmpBlockLoop key ((len >>> 2) - 1) 0 h else (0, h)
  let h := st.2
  let h :=
    if len &&& 3 ≠ 0 then
      let i := len &&& 3
      ecmpTailMix (ecmpTailLoop key (i - 1) (st.1 + (i - 1)) 0) h
    else h
  ecmpFinal h len

/-! ## The hash as the specification describes it -/

/-- Rotation of a 32-bit word to the left by `r` bits. -/
def rotl32 (x r : Nat) : Nat := (x * 2 ^ r + x / 2 ^ (32 - r)) % 2 ^ 32

/-- A little-endian word: the first byte is the least significant. -/
def leWord : List Nat → Nat
  | [] => 0
  | b :: bs => b % 256 + 256 * leWord bs

/-- The key scrambling shared by blocks and tail: multiply, rotate by 15, multiply. -/
def refScramble (k : Nat) : Nat :=
  (0x1b873593 * rotl32 ((0xcc9e2d51 * k) % 2 ^ 32) 15) % 2 ^ 32

/-- One block folded into the running hash. -/
def refBlock (h k : Nat) : Nat :=
  (0xe6546b64 + 5 * rotl32 (h ^^^ refScramble k) 13) % 2 ^ 32

/-- The `j`-th 4-byte block of the key, read little-endian. -/
def refBlockWord (key : List Nat) (j : Nat) : Nat := leWord ((key.drop (4 * j)).take 4)

/-- The `floor (len / 4)` blocks folded in order into the running hash. -/
def refBlocks (key : List Nat) (h : Nat) : Nat :=
  (List.range (key.length / 4)).foldl (fun acc j => refBlock acc (refBlockWord key j)) h

/-- The 1-3 trailing bytes, when there are any, folded into the running hash. -/
def refTail (key : List Nat) (h : Nat) : Nat :=
  if key.length % 4 = 0 then h
  else h ^^^ refScramble (leWord (key.drop (4 * (key.length / 4))))

/-- The final avalanche. -/
def refFinal (h : Nat) : Nat :=
  let h := h ^^^ (h / 2 ^ 16)
  let h := (0x85ebca6b * h) % 2 ^ 32
  let h := h ^^^ (h / 2 ^ 13)
  let h := (0xc2b2ae35 * h) % 2 ^ 32
  h ^^^ (h / 2 ^ 16)

/-- The reference hash of the specification, modulo `2 ^ 32`. -/
def refHash (key : List Nat) (seed : Nat) : Nat :=
  refFinal ((refTail key (refBlocks key (seed % 2 ^ 32)) ^^^ key.length) % 2 ^ 32)


/-! ## Packets, headers, tags -/

/-- Modelled from the spec: one hop entry of the in-band telemetry record (`IntHeader`,
declared in `int-header.h`, which is not among the sources): virtual time, byte
counter, queue occupancy and link rate. -/
structure IntHop where
  time : Nat
  bytes : Nat
  qlen : Nat
  rate : Nat

/-- Modelled from the spec: the feedback-collection record (`FeedbackTag`, declared in
`feedback-tag.h`, which is not among the sources): a hop index and four per-hop tables. -/
structure FeedbackTag where
  hopCount : Nat
  telemetryQlenDeq : Nat → Nat
  telemetryTsDeq : Nat → Nat
  telemetryBw : Nat → Nat
  telemetryTxBytes : Nat → Nat

/-- Modelled from the spec: the packet abstraction of section 6, with exactly the parts
`switch-node.cc` reads or writes. `portId` is what `PeekPacketTag (InterfaceTag)`
followed by `GetPortId ()` yields; `priority` and `unsched` are the values of
`MyPriorityTag` and `UnSchedTag` when the tags are attached; `tcpSrcPort` and
`tcpDstPort` are the ports of the `TcpHeader` peeked behind the IP header; `intHops`
and `power` are the fields of the `IntHeader` inside the payload. -/
structure Packet where
  size : Nat
  src : Nat
  dst : Nat
  protocol : Nat
  ecn : Nat
  tcpSrcPort : Nat
  tcpDstPort : Nat
  priority : Option Nat
  unsched : Option Nat
  portId : Nat
  intHops : List IntHop
  power : Nat
  feedback : Option FeedbackTag

/-- Modelled from the spec: the parsed view `CustomHeader` (declared in
`custom-header.h`, which is not among the sources): the protocol and the fields of the
`udp` and `ack` views that `switch-node.cc` reads. -/
structure CustomHeader where
  l3Prot : Nat
  udpSport : Nat
  udpDport : Nat
  udpPg : Nat
  ackSport : Nat
  ackDport : Nat

/-! ## The buffer manager and the log of calls -/

/-- The buffer manager `SwitchMmu` (declared in `switch-mmu.h`, which is not among the
sources), taken as a parameter: a state `σ` and the eleven operations `switch-node.cc`
calls. Arguments are in the order of the calls: port, class, size, lossy flag,
unscheduled bytes. The five queries are predicates of the state. -/
structure Mmu (σ : Type) where
  CheckIngressAdmission : σ → Nat → Nat → Nat → Bool → Nat → Bool
  CheckEgressAdmission : σ → Nat → Nat → Nat → Bool → Nat → Bool
  UpdateIngressAdmission : σ → Nat → Nat → Nat → Bool → Nat → σ
  UpdateEgressAdmission : σ → Nat → Nat → Nat → Bool → σ
  RemoveFromIngressAdmission : σ → Nat → Nat → Nat → Bool → σ
  RemoveFromEgressAdmission : σ → Nat → Nat → Nat → Bool → σ
  CheckShouldPause : σ → Nat → Nat → Bool
  CheckShouldResume : σ → Nat → Nat → Bool
  SetPause : σ → Nat → Nat → σ
  SetResume : σ → Nat → Nat → σ
  ShouldSendCN : σ → Nat → Nat → Bool

/-- What `SendToDev` and `SwitchNotifyDequeue` do to their collaborators, in program
order: every call on the buffer manager, every `SendPfc (qIndex, type)` on the device
`dev` (type 0 pauses, type 1 resumes), every `SwitchSend (qIndex, p, ch)` on the device
`dev`, and the diagnostic printed on a route miss. -/
inductive Event where
  | checkIngress (port q size : Nat) (lossy : Bool) (unsched : Nat)
  | checkEgress (port q size : Nat) (lossy : Bool) (unsched : Nat)
  | updateIngress (port q size : Nat) (lossy : Bool) (unsched : Nat)
  | updateEgress (port q size : Nat) (lossy : Bool)
  | removeIngress (port q size : Nat) (lossy : Bool)
  | removeEgress (port q size : Nat) (lossy : Bool)
  | checkShouldPause (port q : Nat)
  | checkShouldResume (port q : Nat)
  | setPause (port q : Nat)
  | setResume (port q : Nat)
  | shouldSendCN (port q : Nat)
  | sendPfc (dev q type : Nat)
  | switchSend (dev q : Nat) (p : Packet) (ch : CustomHeader)
  | diagnostic

/-- The event is `UpdateIngressAdmission` or `UpdateEgressAdmission`. -/
def Event.isUpdate : Event → Bool
  | .updateIngress .. => true
  | .updateEgress .. => true
  | _ => false

/-- The event is `RemoveFromIngressAdmission` or `RemoveFromEgressAdmission`. -/
def Event.isRemove : Event → Bool
  | .removeIngress .. => true
  | .removeEgress .. => true
  | _ => false

/-- The event is one of the four admission updates (`Update...`, `RemoveFrom...`). -/
def Event.isAccounting (e : Event) : Bool := e.isUpdate || e.isRemove

/-- The event is a pause or resume signal. -/
def Event.isPfc : Event → Bool
  | .sendPfc .. => true
  | _ => false

/-- The event is the query `ShouldSendCN`. -/
def Event.isMarkQuery : Event → Bool
  | .shouldSendCN .. => true
  | _ => false

/-- The event hands a packet to a device. -/
def Event.isSend : Event → Bool
  | .switchSend .. => true
  | _ => false

/-! ## The switch -/

/-- The state of one `SwitchNode`: its members, its attributes, the state of its buffer
manager and the `totalBytesRcvd` counters of its devices. The groups of `m_rtTable` hold
the `int` values `GetOutDev` returns. The counters are unbounded integers: their widths
are declared in `switch-node.h`, which is not among the sources, and an underflow shows
as a negative value. `m_u`, `lying_prob` and `lying_mag` are `double`s, idealised as
rationals. -/
structure SwitchState (σ : Type) where
  m_ecmpSeed : Nat
  m_rtTable : Nat → Option (List Int)
  m_mmu : σ
  m_bytes : Nat → Nat → Nat → Int
  m_txBytes : Nat → Nat
  m_lastPktSize : Nat → Nat
  m_lastPktTs : Nat → Nat
  m_u : Nat → ℚ
  totalBytesRcvd : Nat → Nat
  m_ecnEnabled : Bool
  m_ccMode : Nat
  m_ackHighPrio : Nat
  m_maxRtt : Nat
  PowerEnabled : Bool
  lying_enabled : Bool
  lying_prob : ℚ
  lying_mag : ℚ

/-- The constructor `SwitchNode::SwitchNode ()` (lines 75-89) with the attribute defaults
of `GetTypeId` (lines 25-73): `id` is the node id, `mmu0` the state of a new `SwitchMmu`. -/
def SwitchState.fresh {σ : Type} (id : Nat) (mmu0 : σ) : SwitchState σ :=
  { m_ecmpSeed := u32 id
    m_rtTable := fun _ => none
    m_mmu := mmu0
    m_bytes := fun _ _ _ => 0
    m_txBytes := fun _ => 0
    m_lastPktSize := fun _ => 0
    m_lastPktTs := fun _ => 0
    m_u := fun _ => 0
    totalBytesRcvd := fun _ => 0
    m_ecnEnabled := false
    m_ccMode := 0
    m_ackHighPrio := 0
    m_maxRtt := 9000
    PowerEnabled := false
    lying_enabled := false
    lying_prob := 0
    lying_mag := 0 }

/-- `SwitchNode::SetEcmpSeed` (lines 234-236). -/
def SetEcmpSeed {σ : Type} (s : SwitchState σ) (seed : Nat) : SwitchState σ :=
  { s with m_ecmpSeed := u32 seed }

/-- `SwitchNode::AddTableEntry` (lines 238-241): `m_rtTable[dip].push_back (intf_idx)`;
`operator[]` creates an empty group for a new destination. -/
def AddTableEntry {σ : Type} (s : SwitchState σ) (dstAddr intf_idx : Nat) : SwitchState σ :=
  { s with m_rtTable := fun d =>
      if d = u32 dstAddr then some ((s.m_rtTable d).getD [] ++ [toInt32 intf_idx])
      else s.m_rtTable d }

/-- `SwitchNode::ClearTable` (lines 243-245). -/
def ClearTable {σ : Type} (s : SwitchState σ) : SwitchState σ :=
  { s with m_rtTable := fun _ => none }

/-! ## GetOutDev (lines 91-126) -/

/-- The four bytes of a `uint32_t` in memory (little-endian host). -/
def u32Bytes (w : Nat) : List Nat :=
  [u32 w % 256, u32 w / 256 % 256, u32 w / 65536 % 256, u32 w / 16777216 % 256]

/-- `sport | ((uint32_t) dport << 16)` for two `uint16_t` ports. -/
def packPorts (sport dport : Nat) : Nat := u16 sport ||| u32 (u16 dport <<< 16)

/-- The word `buf.u32[2]` after lines 113-121. The union `buf` is not initialised, so
when no branch is taken the word keeps `residue`, whatever the stack held. -/
def flowWord (p : Packet) (ch : CustomHeader) (residue : Nat) : Nat :=
  if p.protocol = 0x6 then packPorts p.tcpSrcPort p.tcpDstPort
  else if ch.l3Prot = 0x11 then packPorts ch.udpSport ch.udpDport
  else if ch.l3Prot = 0xFC ∨ ch.l3Prot = 0xFD then packPorts ch.ackSport ch.ackDport
  else u32 residue

/-- The twelve bytes `buf.u8` handed to `EcmpHash`. -/
def flowKeyBytes (p : Packet) (ch : CustomHeader) (residue : Nat) : List Nat :=
  u32Bytes p.src ++ u32Bytes p.dst ++ u32Bytes (flowWord p ch residue)

/-- `SwitchNode::GetOutDev`. `none` stands for the undefined `% nexthops.size ()` on an
empty group; `some (-1)` is the route miss. -/
def GetOutDev {σ : Type} (s : SwitchState σ) (p : Packet) (ch : CustomHeader)
    (residue : Nat) : Option Int :=
  match s.m_rtTable (u32 p.dst) with
  | none => some (-1)
  | some nexthops =>
    if nexthops.length = 0 then none
    else
      let idx := u32 (EcmpHash (flowKeyBytes p ch residue) 12 s.m_ecmpSeed % nexthops.length)
      some (nexthops.getD idx 0)

/-! ## Pause and resume (lines 128-142) -/

/-- `SwitchNode::CheckAndSendPfc`. -/
def CheckAndSendPfc {σ : Type} (M : Mmu σ) (mmu : σ) (inDev qIndex : Nat) : σ × List Event :=
  if M.CheckShouldPause mmu inDev qIndex then
    (M.SetPause mmu inDev qIndex,
      [.checkShouldPause inDev qIndex, .sendPfc inDev qIndex 0, .setPause inDev qIndex])
  else (mmu, [.checkShouldPause inDev qIndex])

/-- `SwitchNode::CheckAndSendResume`. -/
def CheckAndSendResume {σ : Type} (M : Mmu σ) (mmu : σ) (inDev qIndex : Nat) :
    σ × List Event :=
  if M.CheckShouldResume mmu inDev qIndex then
    (M.SetResume mmu inDev qIndex,
      [.checkShouldResume inDev qIndex, .sendPfc inDev qIndex 1, .setResume inDev qIndex])
  else (mmu, [.checkShouldResume inDev qIndex])

/-! ## SendToDev (lines 144-194) -/

/-- Lines 163-172: the class `qIndex` of an arriving packet. -/
def selectClass (ackHighPrio : Nat) (p : Packet) (ch : CustomHeader) : Nat :=
  if ch.l3Prot = 0xFF ∨ ch.l3Prot = 0xFE ∨
      (ackHighPrio ≠ 0 ∧ (ch.l3Prot = 0xFD ∨ ch.l3Prot = 0xFC)) then 0
  else
    match p.priority with
    | some prio => prio
    | none => if ch.l3Prot = 0x06 then 1 else ch.udpPg

/-- Lines 188-190: the counter update and the hand-over to the egress device. -/
def forward {σ : Type} (s : SwitchState σ) (inDev idx qIndex : Nat) (p : Packet) :
    SwitchState σ :=
  { s with
    m_bytes := fun i j k =>
      if i = inDev ∧ j = idx ∧ k = qIndex then s.m_bytes i j k + p.size else s.m_bytes i j k
    totalBytesRcvd := fun j =>
      if j = idx then s.totalBytesRcvd j + p.size else s.totalBytesRcvd j }

/-- `SwitchNode::SendToDev`: the new state and the calls made, or `none` when
`GetOutDev` is undefined. -/
def SendToDev {σ : Type} (M : Mmu σ) (s : SwitchState σ) (p : Packet) (ch : CustomHeader)
    (residue : Nat) : Option (SwitchState σ × List Event) :=
  match GetOutDev s p ch residue with
  | none => none
  | some idx =>
    if 0 ≤ idx then
      let out := idx.toNat
      let found := p.priority.isSome
      let unsched := p.unsched.getD 0
      let qIndex := selectClass s.m_ackHighPrio p ch
      let inDev := p.portId
      if qIndex ≠ 0 then
        if M.CheckIngressAdmission s.m_mmu inDev qIndex p.size found unsched then
          if M.CheckEgressAdmission s.m_mmu out qIndex p.size found unsched then
            let mmu1 := M.UpdateIngressAdmission s.m_mmu inDev qIndex p.size found unsched
            let mmu2 := M.UpdateEgressAdmission mmu1 out qIndex p.size found
            let pfc := CheckAndSendPfc M mmu2 inDev qIndex
            some (forward { s with m_mmu := pfc.1 } inDev out qIndex p,
              [.checkIngress inDev qIndex p.size found unsched,
                .checkEgress out qIndex p.size found unsched,
                .updateIngress inDev qIndex p.size found unsched,
                .updateEgress out qIndex p.size found] ++ pfc.2 ++
              [.switchSend out qIndex p ch])
          else
            some (s, [.checkIngress inDev qIndex p.size found unsched,
              .checkEgress out qIndex p.size found unsched])
        else some (s, [.checkIngress inDev qIndex p.size found unsched])
      else some (forward s inDev out qIndex p, [.switchSend out qIndex p ch])
    else some (s, [.diagnostic])

/-- `SwitchNode::SwitchReceiveFromDevice` (lines 248-251). -/
def SwitchReceiveFromDevice {σ : Type} (M : Mmu σ) (s : SwitchState σ) (p : Packet)
    (ch : CustomHeader) (residue : Nat) : Option (SwitchState σ × List Event) :=
  SendToDev M s p ch residue

/-! ## Telemetry arithmetic (lines 401-420) -/

/-- What a departure reads from its collaborators: the virtual clock (time step and
nanoseconds), the queue of the egress device (`GetNBytesTotal`, `GetNBytesRxTotal`), its
bit rate, the value `uniformRV->GetValue ()` and the value `rand ()` returns at each of
the five calls of `log2apprx`, should the call draw. -/
structure DequeueEnv where
  nowTimeStep : Nat
  nowNanoSeconds : Nat
  queueBytes : Nat
  queueRxBytes : Nat
  bitRate : Nat
  uniform : ℚ
  rand : Nat → Nat

/-- The floating-point primitives, taken as parameters over the rationals that idealise
`double`: `log2` and `pow` of `<cmath>` and `Pint::encode_u` (declared outside the
sources). -/
structure FloatOps where
  log2 : ℚ → ℚ
  pow : ℚ → ℚ → ℚ
  encode_u : ℚ → Nat

/-- The conversion `int (x)` of a `double`: truncation toward zero. -/
def truncToInt (x : ℚ) : Int := if 0 ≤ x then ⌊x⌋ else -⌊-x⌋

/-- The function `round` of `<cmath>`: to the nearest integer, halves away from zero. -/
def roundHalfAway (x : ℚ) : Int := if 0 ≤ x then ⌊x + 1 / 2⌋ else -⌊-x + 1 / 2⌋

/-- Truncation to `uint64_t`. -/
def u64 (x : Nat) : Nat := x % 18446744073709551616

/-- `SwitchNode::logres_shift` (lines 401-404). -/
def logres_shift (b l : Int) : Int :=
  l - ([0, 0, 1, 2, 2, 3, 3, 3, 3, 4, 4, 4, 4, 4, 4, 4, 4, 5, 5, 5, 5, 5, 5, 5, 5, 5, 5, 5, 5,
    5, 5, 5, 5] : List Int).getD b.toNat 0

/-- The value `x & mask` for `mask = (1 << sh) - 1`: the low `sh` bits of `x`. -/
def andMask (x : Int) (sh : Nat) : Int := x % 2 ^ sh

/-- Lines 407-418 of `log2apprx`: the value whose logarithm is taken, for the draw `r`
of `rand ()`. -/
def log2apprxArg (F : FloatOps) (x m : Int) (r : Nat) : Int :=
  let x0 := x
  let msb := truncToInt (F.log2 x) + 1
  if msb > m then
    let sh := (msb - m).toNat
    let x := (x >>> sh) * 2 ^ sh
    if andMask x0 sh > andMask r sh then x + 2 ^ sh else x
  else x

/-- `SwitchNode::log2apprx` (lines 406-420). -/
def log2apprx (F : FloatOps) (x b m l : Int) (r : Nat) : Int :=
  truncToInt (F.log2 (log2apprxArg F x m r) * 2 ^ (logres_shift b l).toNat)

/-! ## SwitchNotifyDequeue (lines 253-399) -/

/-- Lines 269-280: congestion marking of a packet leaving `(ifIndex, qIndex)`, with the
query it makes. -/
def markCongestion {σ : Type} (M : Mmu σ) (ecnEnabled : Bool) (mmu : σ) (ifIndex qIndex : Nat)
    (p : Packet) : Packet × List Event :=
  if ecnEnabled then
    if M.ShouldSendCN mmu ifIndex qIndex then
      ({ p with ecn := 0x03 }, [.shouldSendCN ifIndex qIndex])
    else (p, [.shouldSendCN ifIndex qIndex])
  else (p, [])

/-- Lines 264-283: buffer bookkeeping, marking and resume on departure. -/
def dequeueAccounting {σ : Type} (M : Mmu σ) (s : SwitchState σ) (ifIndex qIndex : Nat)
    (p : Packet) : SwitchState σ × Packet × List Event :=
  if qIndex ≠ 0 then
    let inDev := p.portId
    let found := p.priority.isSome
    let mmu1 := M.RemoveFromIngressAdmission s.m_mmu inDev qIndex p.size found
    let mmu2 := M.RemoveFromEgressAdmission mmu1 ifIndex qIndex p.size found
    let marked := markCongestion M s.m_ecnEnabled mmu2 ifIndex qIndex p
    let res := CheckAndSendResume M mmu2 inDev qIndex
    ({ s with
        m_mmu := res.1
        m_bytes := fun i j k =>
          if i = inDev ∧ j = ifIndex ∧ k = qIndex then s.m_bytes i j k - p.size
          else s.m_bytes i j k },
      marked.1,
      [.removeIngress inDev qIndex p.size found, .removeEgress ifIndex qIndex p.size found]
        ++ marked.2 ++ res.2)
  else (s, p, [])

/-- Lines 290-294: the occupancy written into a hop entry. -/
def reportedQlen {σ : Type} (s : SwitchState σ) (env : DequeueEnv) : Nat :=
  if s.lying_enabled ∧ env.uniform ≤ s.lying_prob then
    u32 (truncToInt ((u32 env.queueBytes : ℚ) * (1 - s.lying_mag))).toNat
  else u32 env.queueBytes

/-- Lines 305-352: the utilisation estimate `newU` of the scalar mode. -/
def pintNewU {σ : Type} (F : FloatOps) (s : SwitchState σ) (env : DequeueEnv) (ifIndex : Nat) :
    ℚ :=
  let t := u64 env.nowTimeStep
  let dt0 := u64 (t + (18446744073709551616 - u64 (s.m_lastPktTs ifIndex)))
  let dt := if dt0 > s.m_maxRtt then s.m_maxRtt else dt0
  let B := env.bitRate / 8
  let qlen := u32 env.queueBytes
  let b : Int := 20
  let m : Int := 16
  let l : Int := 20
  let sft := logres_shift b l
  let fct : ℚ := 2 ^ sft.toNat
  let log_T := F.log2 s.m_maxRtt * fct
  let log_B := F.log2 B * fct
  let log_1e9 := F.log2 1000000000 * fct
  let qterm : ℚ :=
    if qlen >>> 8 > 0 then
      let log_dt := log2apprx F (toInt32 dt) b m l (env.rand 0)
      let log_qlen := log2apprx F (toInt32 (qlen >>> 8)) b m l (env.rand 1)
      F.pow 2 ((log_dt + log_qlen + log_1e9 - log_B - 2 * log_T) / fct) * 256
    else 0
  let byteTerm : ℚ :=
    if s.m_lastPktSize ifIndex > 0 then
      let byte := toInt32 (s.m_lastPktSize ifIndex)
      let log_byte := log2apprx F byte b m l (env.rand 2)
      F.pow 2 ((log_byte + log_1e9 - log_B - log_T) / fct)
    else 0
  let uTerm : ℚ :=
    if s.m_maxRtt > dt ∧ s.m_u ifIndex > 0 then
      let log_T_dt := log2apprx F (toInt32 (s.m_maxRtt - dt)) b m l (env.rand 3)
      let log_u := log2apprx F (roundHalfAway (s.m_u ifIndex * 8192)) b m l (env.rand 4)
      F.pow 2 ((log_T_dt + log_u - log_T) / fct) / 8192
    else 0
  qterm + byteTerm + uTerm

/-- Lines 386-390: the feedback record after one more hop. -/
def FeedbackTag.record {σ : Type} (tag : FeedbackTag) (s : SwitchState σ) (env : DequeueEnv)
    (ifIndex : Nat) : FeedbackTag :=
  let h := tag.hopCount
  { hopCount := h + 1
    telemetryQlenDeq := fun i => if i = h then u32 env.queueBytes else tag.telemetryQlenDeq i
    telemetryTsDeq := fun i => if i = h then env.nowNanoSeconds else tag.telemetryTsDeq i
    telemetryBw := fun i => if i = h then env.bitRate else tag.telemetryBw i
    telemetryTxBytes := fun i => if i = h then s.m_txBytes ifIndex else tag.telemetryTxBytes i }

/-- Lines 284-395: the telemetry annotation of a departing packet. -/
def annotateTelemetry {σ : Type} (F : FloatOps) (s : SwitchState σ) (env : DequeueEnv)
    (ifIndex : Nat) (p : Packet) : SwitchState σ × Packet :=
  if p.protocol = 0x11 then
    if s.m_ccMode = 3 then
      let new_qlen := reportedQlen s env
      let bytes := if !s.PowerEnabled then s.m_txBytes ifIndex else env.queueRxBytes
      (s, { p with intHops := p.intHops ++ [⟨env.nowTimeStep, bytes, new_qlen, env.bitRate⟩] })
    else if s.m_ccMode = 10 then
      let newU := pintNewU F s env ifIndex
      let power := u16 (F.encode_u newU)
      ({ s with m_u := fun i => if i = ifIndex then newU else s.m_u i },
        if power > p.power then { p with power := power } else p)
    else (s, p)
  else
    match p.feedback with
    | some tag => (s, { p with feedback := some (tag.record s env ifIndex) })
    | none => (s, p)

/-- Lines 396-398: the per-port transmission state. -/
def noteTransmission {σ : Type} (s : SwitchState σ) (env : DequeueEnv) (ifIndex : Nat)
    (p : Packet) : SwitchState σ :=
  { s with
    m_txBytes := fun i => if i = ifIndex then s.m_txBytes i + p.size else s.m_txBytes i
    m_lastPktSize := fun i => if i = ifIndex then p.size else s.m_lastPktSize i
    m_lastPktTs := fun i => if i = ifIndex then env.nowTimeStep else s.m_lastPktTs i }

/-- `SwitchNode::SwitchNotifyDequeue`: the new state, the packet as it leaves, and the
calls made. -/
def SwitchNotifyDequeue {σ : Type} (M : Mmu σ) (F : FloatOps) (env : DequeueEnv)
    (s : SwitchState σ) (ifIndex qIndex : Nat) (p : Packet) :
    SwitchState σ × Packet × List Event :=
  let acc := dequeueAccounting M s ifIndex qIndex p
  let ann := annotateTelemetry F acc.1 env ifIndex acc.2.1
  (noteTransmission ann.1 env ifIndex ann.2, ann.2, acc.2.2)

/-! ## Runs -/

/-- One call on the switch: an arrival (`SendToDev`, with the stack residue its
`GetOutDev` finds) or a departure (`SwitchNotifyDequeue`, with what it reads). -/
inductive Call where
  | arrival (p : Packet) (ch : CustomHeader) (residue : Nat)
  | departure (env : DequeueEnv) (ifIndex qIndex : Nat) (p : Packet)

/-- The state after a sequence of calls and the log of everything done. A call whose
`GetOutDev` is undefined ends the run where it stands. -/
def run {σ : Type} (M : Mmu σ) (F : FloatOps) : SwitchState σ → List Call →
    SwitchState σ × List Event
  | s, [] => (s, [])
  | s, .arrival p ch residue :: rest =>
    match SendToDev M s p ch residue with
    | none => (s, [])
    | some r =>
      let tl := run M F r.1 rest
      (tl.1, r.2 ++ tl.2)
  | s, .departure env ifIndex qIndex p :: rest =>
    let r := SwitchNotifyDequeue M F env s ifIndex qIndex p
    let tl := run M F r.1 rest
    (tl.1, r.2.2 ++ tl.2)

/-! ## Predicates used in the statements -/

/-- The identifiers of all ports in the table are below `2 ^ 31`: every stored value is
the `int` of such an identifier. -/
def PortsBelowTwoPow31 {σ : Type} (s : SwitchState σ) : Prop :=
  ∀ d g, s.m_rtTable d = some g → ∀ e ∈ g, ∃ id : Nat, id < 2147483648 ∧ e = toInt32 id

/-- The state of the buffer manager after the two updates of an admitted packet. -/
def admittedMmu {σ : Type} (M : Mmu σ) (s : SwitchState σ) (p : Packet) (ch : CustomHeader)
    (out : Nat) : σ :=
  M.UpdateEgressAdmission
    (M.UpdateIngressAdmission s.m_mmu p.portId (selectClass s.m_ackHighPrio p ch) p.size
      p.priority.isSome (p.unsched.getD 0))
    out (selectClass s.m_ackHighPrio p ch) p.size p.priority.isSome

/-- The state of the buffer manager after the two removals of a departing packet. -/
def departedMmu {σ : Type} (M : Mmu σ) (s : SwitchState σ) (ifIndex qIndex : Nat)
    (p : Packet) : σ :=
  M.RemoveFromEgressAdmission
    (M.RemoveFromIngressAdmission s.m_mmu p.portId qIndex p.size p.priority.isSome)
    ifIndex qIndex p.size p.priority.isSome

/-- The buffer manager keeps a paused mark per (port, class): `SetPause` sets the mark of
its port and class, `SetResume` clears it, `CheckShouldPause` is false whenever the mark
is set, `CheckShouldResume` is false whenever the mark is clear, and the mark is kept by
everything else (the marks of other ports and classes, the four admission updates). -/
structure KeepsPausedMark {σ : Type} (M : Mmu σ) (paused : σ → Nat → Nat → Bool) : Prop where
  setPause_sets : ∀ m port q, paused (M.SetPause m port q) port q = true
  setResume_clears : ∀ m port q, paused (M.SetResume m port q) port q = false
  no_pause_when_set : ∀ m port q, paused m port q = true → M.CheckShouldPause m port q = false
  no_resume_when_clear :
    ∀ m port q, paused m port q = false → M.CheckShouldResume m port q = false
  setPause_keeps : ∀ m port q port2 q2, ¬ (port2 = port ∧ q2 = q) →
    paused (M.SetPause m port q) port2 q2 = paused m port2 q2
  setResume_keeps : ∀ m port q port2 q2, ¬ (port2 = port ∧ q2 = q) →
    paused (M.SetResume m port q) port2 q2 = paused m port2 q2
  updateIngress_keeps : ∀ m port q size lossy unsched port2 q2,
    paused (M.UpdateIngressAdmission m port q size lossy unsched) port2 q2 = paused m port2 q2
  updateEgress_keeps : ∀ m port q size lossy port2 q2,
    paused (M.UpdateEgressAdmission m port q size lossy) port2 q2 = paused m port2 q2
  removeIngress_keeps : ∀ m port q size lossy port2 q2,
    paused (M.RemoveFromIngressAdmission m port q size lossy) port2 q2 = paused m port2 q2
  removeEgress_keeps : ∀ m port q size lossy port2 q2,
    paused (M.RemoveFromEgressAdmission m port q size lossy) port2 q2 = paused m port2 q2

/-- The signals emitted toward `(port, q)` in a log, in order: `true` for a pause
(`SendPfc (q, 0)`), `false` for a resume (`SendPfc (q, 1)`). -/
def pfcSignals (port q : Nat) : List Event → List Bool
  | [] => []
  | .sendPfc dev c type :: rest =>
    if dev = port ∧ c = q then (type == 0) :: pfcSignals port q rest
    else pfcSignals port q rest
  | _ :: rest => pfcSignals port q rest

/-- The signals strictly alternate, the first one being a pause when `marked` is false
and a resume when it is true. -/
def alternatesFrom : Bool → List Bool → Bool
  | _, [] => true
  | marked, sig :: rest => (sig != marked) && alternatesFrom sig rest

/-- Whether the last signal was a pause; `marked` when there was no signal. -/
def lastSignal : Bool → List Bool → Bool
  | marked, [] => marked
  | _, sig :: rest => lastSignal sig rest

/-- The mark of `(port, q)` and the signals toward it agree over a piece of log that
starts with mark `m0` and ends with mark `m1`. -/
def Tracks (m0 m1 : Bool) (sigs : List Bool) : Prop :=
  alternatesFrom m0 sigs = true ∧ m1 = lastSignal m0 sigs

/-! ## Closed traces -/

/-- A packet in flight inside the switch: ingress-port tag, egress port, class, size. -/
structure Flight where
  ingress : Nat
  egress : Nat
  cls : Nat
  size : Nat
deriving DecidableEq

/-- The packets a log hands to devices. -/
def forwarded : List Event → List Flight
  | [] => []
  | .switchSend dev q p _ :: rest => ⟨p.portId, dev, q, p.size⟩ :: forwarded rest
  | _ :: rest => forwarded rest

/-- The trace is closed: every packet forwarded by `SendToDev` (or in flight at the start,
`flying`) later departs exactly once with the same ingress-port tag, egress port, class
and size, and no other packet departs. A run that ends on an undefined `GetOutDev` is
closed when nothing is in flight at that point. -/
def closedTrace {σ : Type} (M : Mmu σ) (F : FloatOps) :
    SwitchState σ → List Flight → List Call → Bool
  | _, flying, [] => flying.isEmpty
  | s, flying, .arrival p ch residue :: rest =>
    match SendToDev M s p ch residue with
    | none => flying.isEmpty
    | some r => closedTrace M F r.1 (forwarded r.2 ++ flying) rest
  | s, flying, .departure env ifIndex qIndex p :: rest =>
    decide ((⟨p.portId, ifIndex, qIndex, p.size⟩ : Flight) ∈ flying) &&
    closedTrace M F (SwitchNotifyDequeue M F env s ifIndex qIndex p).1
      (flying.erase ⟨p.portId, ifIndex, qIndex, p.size⟩) rest

/-- The bytes in flight from `i` to `j` on class `k`. -/
def heldBytes (flying : List Flight) (i j k : Nat) : Int :=
  (flying.map fun f => if f.ingress = i ∧ f.egress = j ∧ f.cls = k then (f.size : Int) else 0).sum

/-- The counters of the classes other than 0 hold the bytes in flight, and the counters
of class 0 are not negative. -/
def CountersTrack {σ : Type} (s : SwitchState σ) (flying : List Flight) : Prop :=
  (∀ i j k, k ≠ 0 → s.m_bytes i j k = heldBytes flying i j k) ∧ ∀ i j, 0 ≤ s.m_bytes i j 0

/-! ## A concrete buffer manager and concrete inputs -/

/-- State of the threshold buffer manager: bytes held per (port, class) on the ingress
and on the egress side, and the paused marks. -/
structure BufState where
  ingress : Nat → Nat → Nat
  egress : Nat → Nat → Nat
  paused : Nat → Nat → Bool

/-- Modelled from the spec: a buffer manager in the sense of section 4.2 with fixed
thresholds: a packet is admitted while the occupancy stays within `cap`; a port and class
pauses at `pauseAt` when not paused and resumes at `resumeAt` when paused; marking starts
above `markAt`. It is the instance on which the switch is evaluated on concrete inputs. -/
def thresholdMmu (cap pauseAt resumeAt markAt : Nat) : Mmu BufState where
  CheckIngressAdmission st port q size _ _ := decide (st.ingress port q + size ≤ cap)
  CheckEgressAdmission st port q size _ _ := decide (st.egress port q + size ≤ cap)
  UpdateIngressAdmission st port q size _ _ :=
    { st with ingress := fun i k =>
        if i = port ∧ k = q then st.ingress i k + size else st.ingress i k }
  UpdateEgressAdmission st port q size _ :=
    { st with egress := fun i k =>
        if i = port ∧ k = q then st.egress i k + size else st.egress i k }
  RemoveFromIngressAdmission st port q size _ :=
    { st with ingress := fun i k =>
        if i = port ∧ k = q then st.ingress i k - size else st.ingress i k }
  RemoveFromEgressAdmission st port q size _ :=
    { st with egress := fun i k =>
        if i = port ∧ k = q then st.egress i k - size else st.egress i k }
  CheckShouldPause st port q := !st.paused port q && decide (pauseAt ≤ st.ingress port q)
  CheckShouldResume st port q := st.paused port q && decide (st.ingress port q ≤ resumeAt)
  SetPause st port q :=
    { st with paused := fun i k => if i = port ∧ k = q then true else st.paused i k }
  SetResume st port q :=
    { st with paused := fun i k => if i = port ∧ k = q then false else st.paused i k }
  ShouldSendCN st port q := decide (markAt < st.egress port q)

/-- The empty buffer. -/
def BufState.empty : BufState :=
  { ingress := fun _ _ => 0, egress := fun _ _ => 0, paused := fun _ _ => false }

/-- The buffer manager of the examples: 4000 bytes per (port, class), pause at 3000,
resume at 1000, marking above 2000. -/
def exampleMmu : Mmu BufState := thresholdMmu 4000 3000 1000 2000

/-- A coarse stand-in for the floating-point primitives, to evaluate on concrete inputs:
integer logarithm, integer power, utilisation in units of 1/8192. -/
def coarseFloatOps : FloatOps :=
  { log2 := fun x => (Nat.log2 ⌊x⌋.toNat : ℚ)
    pow := fun b e => b ^ ⌊e⌋.toNat
    encode_u := fun u => ⌊u * 8192⌋.toNat }

/-- The address 10.0.0.9. -/
def exampleDst : Nat := 0x0a000009

/-- A new switch (node id 7) whose table maps `exampleDst` to the group `[5, 7]`. -/
def exampleSwitch : SwitchState BufState :=
  AddTableEntry (AddTableEntry (SwitchState.fresh 7 BufState.empty) exampleDst 5) exampleDst 7

/-- A 1500-byte UDP packet from 10.0.0.1 to `exampleDst`, tagged class 3, arrived on
port 2. -/
def examplePacket : Packet :=
  { size := 1500, src := 0x0a000001, dst := exampleDst, protocol := 0x11, ecn := 0
    tcpSrcPort := 0, tcpDstPort := 0, priority := some 3, unsched := none, portId := 2
    intHops := [], power := 0, feedback := none }

/-- The parsed view of `examplePacket`: UDP, ports 10004 to 100. -/
def exampleHeader : CustomHeader :=
  { l3Prot := 0x11, udpSport := 10004, udpDport := 100, udpPg := 3, ackSport := 0, ackDport := 0 }

/-- A congestion notification packet (protocol 0xFF) for `exampleDst`, arrived on port 2. -/
def exampleCnp : Packet :=
  { size := 60, src := 0x0a000001, dst := exampleDst, protocol := 0xFF, ecn := 0
    tcpSrcPort := 0, tcpDstPort := 0, priority := none, unsched := none, portId := 2
    intHops := [], power := 0, feedback := none }

/-- The parsed view of `exampleCnp`. -/
def exampleCnpHeader : CustomHeader :=
  { l3Prot := 0xFF, udpSport := 0, udpDport := 0, udpPg := 0, ackSport := 0, ackDport := 0 }

/-- What the departures of the examples read: time 1000, an empty queue, 100 Gb/s. -/
def exampleEnv : DequeueEnv :=
  { nowTimeStep := 1000, nowNanoSeconds := 1000, queueBytes := 0, queueRxBytes := 0
    bitRate := 100000000000, uniform := 0, rand := fun _ => 0 }

/-- The example packet grown to 5000 bytes: more than the example buffer admits. -/
def exampleJumbo : Packet := { examplePacket with size := 5000 }

/-- Two arrivals of the example packet followed by their two departures from port 5. -/
def exampleCalls : List Call :=
  [.arrival examplePacket exampleHeader 0, .arrival examplePacket exampleHeader 0,
    .departure exampleEnv 5 3 examplePacket, .departure exampleEnv 5 3 examplePacket]

/-- The example switch with `AckHighPrio` set: acknowledgments travel on class 0. -/
def exampleAckSwitch : SwitchState BufState := { exampleSwitch with m_ackHighPrio := 1 }

/-- A 60-byte acknowledgment (protocol 0xFC) from 10.0.0.1 to `exampleDst`, arrived on
port 2. -/
def exampleAck : Packet :=
  { size := 60, src := 0x0a000001, dst := exampleDst, protocol := 0xFC, ecn := 0
    tcpSrcPort := 0, tcpDstPort := 0, priority := none, unsched := none, portId := 2
    intHops := [], power := 0, feedback := none }

/-- The parsed view of `exampleAck`: ports 100 to 10004. -/
def exampleAckHeader : CustomHeader :=
  { l3Prot := 0xFC, udpSport := 0, udpDport := 0, udpPg := 0, ackSport := 100, ackDport := 10004 }

/-- The acknowledgment arrives, is forwarded to port 7 on class 0, and departs from
port 7. -/
def exampleControlCalls : List Call :=
  [.arrival exampleAck exampleAckHeader 0, .departure exampleEnv 7 0 exampleAck]

/-! ## Definitions for the telemetry statements -/

/-- One hop of a packet: the switch it leaves (its state at that moment), what the
departure reads, and the port and class it leaves from. -/
structure Hop (σ : Type) where
  switch : SwitchState σ
  env : DequeueEnv
  ifIndex : Nat
  qIndex : Nat

/-- The packet after a sequence of hops: at each one `SwitchNotifyDequeue` runs on the
packet as the previous hop left it. -/
def afterHops {σ : Type} (M : Mmu σ) (F : FloatOps) : List (Hop σ) → Packet → Packet
  | [], p => p
  | h :: rest, p =>
    afterHops M F rest (SwitchNotifyDequeue M F h.env h.switch h.ifIndex h.qIndex p).2.1

/-- The example switch in scalar-utilisation mode (`CcMode` 10). -/
def exampleScalarSwitch : SwitchState BufState := { exampleSwitch with m_ccMode := 10 }

/-- The example switch in hop-report mode (`CcMode` 3) with adversarial telemetry:
probability 1, magnitude 1/2. -/
def exampleLyingSwitch : SwitchState BufState :=
  { exampleSwitch with m_ccMode := 3, lying_enabled := true, lying_prob := 1, lying_mag := 1 / 2 }

/-- What a departure reads when three bytes are queued. -/
def exampleOddEnv : DequeueEnv := { exampleEnv with queueBytes := 3 }

/-- A TCP segment of 1000 bytes from 10.0.0.1 to `exampleDst` that carries an empty
feedback record. -/
def exampleTcp : Packet :=
  { size := 1000, src := 0x0a000001, dst := exampleDst, protocol := 0x6, ecn := 0
    tcpSrcPort := 5000, tcpDstPort := 80, priority := none, unsched := none, portId := 2
    intHops := [], power := 0
    feedback := some
      { hopCount := 0, telemetryQlenDeq := fun _ => 0, telemetryTsDeq := fun _ => 0
        telemetryBw := fun _ => 0, telemetryTxBytes := fun _ => 0 } }

/-! ## Definitions for the routing-table statements -/

/-- A call on the routing table: `AddTableEntry (dstAddr, intf_idx)` or `ClearTable ()`. -/
inductive TableOp where
  | add (dstAddr intf_idx : Nat)
  | clear

/-- The switch after a sequence of routing-table calls. -/
def applyTableOps {σ : Type} : SwitchState σ → List TableOp → SwitchState σ
  | s, [] => s
  | s, .add dstAddr intf_idx :: rest => applyTableOps (AddTableEntry s dstAddr intf_idx) rest
  | s, .clear :: rest => applyTableOps (ClearTable s) rest

/-! ## Definitions for the statements on the logarithm approximation -/

/-- Whether a call `log2apprx (x, b, m, l)` reaches `rand ()`: the test of line 409. -/
def log2apprxDraws (F : FloatOps) (x m : Int) : Bool :=
  decide (truncToInt (F.log2 x) + 1 > m)

/-- Lines 305-308: the elapsed time `dt`, clamped to `m_maxRtt`. -/
def pintDt {σ : Type} (s : SwitchState σ) (env : DequeueEnv) (ifIndex : Nat) : Nat :=
  let t := u64 env.nowTimeStep
  let dt0 := u64 (t + (18446744073709551616 - u64 (s.m_lastPktTs ifIndex)))
  if dt0 > s.m_maxRtt then s.m_maxRtt else dt0

/-- The first arguments of the calls of `log2apprx` that lines 325-351 make, in program
order: `dt` and `qlen >> 8` under the test of line 325, the last packet size under the
test of line 334, `m_maxRtt - dt` and `round (m_u * 8192)` under the test of line 343. -/
def pintLogArgs {σ : Type} (s : SwitchState σ) (env : DequeueEnv) (ifIndex : Nat) : List Int :=
  (if u32 env.queueBytes >>> 8 > 0 then
      [toInt32 (pintDt s env ifIndex), toInt32 (u32 env.queueBytes >>> 8)]
    else []) ++
  (if s.m_lastPktSize ifIndex > 0 then [toInt32 (s.m_lastPktSize ifIndex)] else []) ++
  (if s.m_maxRtt > pintDt s env ifIndex ∧ s.m_u ifIndex > 0 then
      [toInt32 (s.m_maxRtt - pintDt s env ifIndex), roundHalfAway (s.m_u ifIndex * 8192)]
    else [])

/-- What a departure at time step 0 reads when 256 bytes are queued. -/
def exampleStartEnv : DequeueEnv := { exampleEnv with nowTimeStep := 0, queueBytes := 256 }

/-- What a departure at time step 1000 reads when 256 bytes are queued. -/
def exampleBusyEnv : DequeueEnv := { exampleEnv with queueBytes := 256 }

/-! ## Load spreading -/

/-- The value `EcmpHash (buf.u8, 12, m_ecmpSeed)` of line 125 as a function of the third
key word `buf.u32[2]`, for a seed and the first two key words `a` (source address) and
`b` (destination address). -/
def thirdWordHash (seed a b w : Nat) : Nat :=
  EcmpHash (u32Bytes a ++ u32Bytes b ++ u32Bytes w) 12 seed

/-- The same map on 32-bit values; the result of `EcmpHash` is a `uint32_t`. -/
def thirdWordHashFin (seed a b : Nat) (w : Fin 4294967296) : Fin 4294967296 :=
  ⟨u32 (thirdWordHash seed a b w.val), Nat.mod_lt _ (by decide)⟩

/-- The index of line 125, `EcmpHash (buf.u8, 12, m_ecmpSeed) % nexthops.size ()`, for a
group of `N` next hops. -/
def selectedIndex (seed a b N w : Nat) : Nat := u32 (thirdWordHash seed a b w % N)

/-- How many of the `2 ^ 32` values of the third key word make a group of `N` next hops
select index `i`. -/
def selectionCount (seed a b N i : Nat) : Nat :=
  ((Finset.range 4294967296).filter (fun w => selectedIndex seed a b N w = i)).card

/-! ## Buffer managers that meet the stated laws only -/

/-- The four laws of the paused mark, and no more: `SetPause` sets the mark of its port
and class, `SetResume` clears it, `CheckShouldPause` is false whenever the mark is set and
`CheckShouldResume` is false whenever it is clear. Nothing is said of what the other
operations do to the mark. -/
structure StatedPauseLaws {σ : Type} (M : Mmu σ) (paused : σ → Nat → Nat → Bool) : Prop where
  setPause_sets : ∀ m port q, paused (M.SetPause m port q) port q = true
  setResume_clears : ∀ m port q, paused (M.SetResume m port q) port q = false
  no_pause_when_set : ∀ m port q, paused m port q = true → M.CheckShouldPause m port q = false
  no_resume_when_clear :
    ∀ m port q, paused m port q = false → M.CheckShouldResume m port q = false

/-- A threshold buffer manager (6000 bytes per port and class, pause at 1000, resume at
500) that forgets the paused mark of a port and class whenever it admits a packet there:
`UpdateIngressAdmission` adds the bytes and clears the mark. -/
def forgetfulMmu : Mmu BufState :=
  { thresholdMmu 6000 1000 500 2000 with
    UpdateIngressAdmission := fun st port q size _ _ =>
      { st with
        ingress := fun i k => if i = port ∧ k = q then st.ingress i k + size else st.ingress i k
        paused := fun i k => if i = port ∧ k = q then false else st.paused i k } }

/-- Two arrivals of the example packet. -/
def exampleArrivals : List Call :=
  [.arrival examplePacket exampleHeader 0, .arrival examplePacket exampleHeader 0]

/-! ## A scalar-mode scenario -/

/-- What a departure from a 1 Gb/s port reads at time step 1000, the queue being empty. -/
def exampleGigEnv : DequeueEnv := { exampleEnv with bitRate := 1000000000 }

/-- What a departure from the same port reads at time step 11000: more than `m_maxRtt`
after the previous one. -/
def exampleGigLaterEnv : DequeueEnv :=
  { exampleGigEnv with nowTimeStep := 11000, nowNanoSeconds := 11000 }

/-- The example packet carrying 100 in its power field. -/
def exampleProbe : Packet := { examplePacket with power := 100 }

/-- The example packet carrying 9000 in its power field. -/
def exampleLoudProbe : Packet := { examplePacket with power := 9000 }

/-- The example switch in scalar mode after the example packet and a probe have arrived
and the example packet has departed from port 5 at time step 1000; the probe is still
queued on port 5. -/
def exampleScalarState (probe : Packet) : SwitchState BufState :=
  (SwitchNotifyDequeue exampleMmu coarseFloatOps exampleGigEnv
    (run exampleMmu coarseFloatOps exampleScalarSwitch
      [.arrival examplePacket exampleHeader 0, .arrival probe exampleHeader 0]).1
    5 3 examplePacket).1

/-! ## Marking and the egress occupancy -/

theorem u32_lt (x : Nat) : u32 x < 4294967296 := by
  unfold u32; omega

theorem or_shift_eq_add (a b k : Nat) (ha : a < 2 ^ k) : a ||| (b <<< k) = a + 2 ^ k * b := by
  rw [Nat.shiftLeft_eq, Nat.lor_comm, Nat.mul_comm b, ← Nat.mul_add_lt_is_or ha, Nat.add_comm]

theorem rot15_eq (x : Nat) (hx : x < 4294967296) :
    u32 (x <<< 15) ||| (x >>> 17) = rotl32 x 15 := by
  have h2 : x >>> 17 < 2 ^ 15 := by rw [Nat.shiftRight_eq_div_pow]; omega
  have h3 : u32 (x <<< 15) = 2 ^ 15 * (x % 2 ^ 17) := by
    unfold u32; rw [Nat.shiftLeft_eq]; omega
  rw [h3, ← Nat.mul_add_lt_is_or h2, Nat.shiftRight_eq_div_pow]
  unfold rotl32; omega

theorem rot13_eq (x : Nat) (hx : x < 4294967296) :
    u32 (x <<< 13) ||| (x >>> 19) = rotl32 x 13 := by
  have h2 : x >>> 19 < 2 ^ 13 := by rw [Nat.shiftRight_eq_div_pow]; omega
  have h3 : u32 (x <<< 13) = 2 ^ 13 * (x % 2 ^ 19) := by
    unfold u32; rw [Nat.shiftLeft_eq]; omega
  rw [h3, ← Nat.mul_add_lt_is_or h2, Nat.shiftRight_eq_div_pow]
  unfold rotl32; omega

theorem rotl32_lt (x r : Nat) : rotl32 x r < 4294967296 := by
  unfold rotl32; omega

theorem xor_lt_u32 (a b : Nat) (ha : a < 4294967296) (hb : b < 4294967296) :
    a ^^^ b < 4294967296 := by
  have := @Nat.xor_lt_two_pow a b 32 (by omega) (by omega)
  omega

theorem scramble_eq (k : Nat) :
    u32 (0x1b873593 * (u32 (u32 (0xcc9e2d51 * k) <<< 15) ||| (u32 (0xcc9e2d51 * k) >>> 17)))
      = refScramble k := by
  rw [rot15_eq _ (u32_lt _)]
  rfl

theorem ecmpBlockBody_eq (k h : Nat) (hh : h < 4294967296) :
    ecmpBlockBody k h = refBlock h k := by
  unfold ecmpBlockBody
  simp only [scramble_eq]
  have hs : refScramble k < 4294967296 := by unfold refScramble; omega
  rw [rot13_eq _ (xor_lt_u32 _ _ hh hs)]
  unfold refBlock u32
  rw [Nat.shiftLeft_eq]
  omega

theorem ecmpTailMix_eq (k h : Nat) : ecmpTailMix k h = h ^^^ refScramble k := by
  unfold ecmpTailMix
  simp only [scramble_eq]

theorem ecmpFinal_eq (h len : Nat) : ecmpFinal h len = refFinal ((h ^^^ len) % 2 ^ 32) := by
  unfold ecmpFinal refFinal u32
  simp only [Nat.shiftRight_eq_div_pow]
  rfl

theorem refBlock_lt (h k : Nat) : refBlock h k < 4294967296 := by
  unfold refBlock; omega

theorem keyByte_lt (key : List Nat) (pos : Nat) : keyByte key pos < 256 := by
  unfold keyByte; omega

theorem loadU32_eq (key : List Nat) (pos : Nat) :
    loadU32 key pos = leWord [key.getD pos 0, key.getD (pos + 1) 0, key.getD (pos + 2) 0,
      key.getD (pos + 3) 0] := by
  unfold loadU32
  have h0 := keyByte_lt key pos
  have h1 := keyByte_lt key (pos + 1)
  have h2 := keyByte_lt key (pos + 2)
  have h3 := keyByte_lt key (pos + 3)
  rw [or_shift_eq_add _ _ 8 (by omega)]
  rw [or_shift_eq_add _ _ 16 (by omega)]
  rw [or_shift_eq_add _ _ 24 (by omega)]
  simp only [leWord, keyByte]
  omega

theorem drop_cons_getD (key : List Nat) (pos : Nat) (h : pos < key.length) :
    key.drop pos = key.getD pos 0 :: key.drop (pos + 1) := by
  rw [List.drop_eq_getElem_cons h, List.getD_eq_getElem _ _ h]

theorem drop_four (key : List Nat) (pos : Nat) (h : pos + 4 ≤ key.length) :
    key.drop pos = key.getD pos 0 :: key.getD (pos + 1) 0 :: key.getD (pos + 2) 0 ::
      key.getD (pos + 3) 0 :: key.drop (pos + 4) := by
  rw [drop_cons_getD key pos (by omega), drop_cons_getD key (pos + 1) (by omega),
    drop_cons_getD key (pos + 2) (by omega), drop_cons_getD key (pos + 3) (by omega)]

theorem refBlockWord_eq (key : List Nat) (j : Nat) (hp : 4 * j + 4 ≤ key.length) :
    refBlockWord key j = loadU32 key (4 * j) := by
  unfold refBlockWord
  rw [drop_four key (4 * j) hp, loadU32_eq]
  rfl

theorem ecmpBlockBody_lt (k h : Nat) : ecmpBlockBody k h < 4294967296 := by
  unfold ecmpBlockBody; exact u32_lt _

theorem ecmpBlockLoop_eq (key : List Nat) : ∀ (n s h : Nat), h < 4294967296 →
    4 * (s + n + 1) ≤ key.length →
    ecmpBlockLoop key n (4 * s) h
      = (4 * (s + n + 1),
          (List.range' s (n + 1)).foldl (fun acc j => refBlock acc (refBlockWord key j)) h) := by
  intro n
  induction n with
  | zero =>
    intro s h hh hp
    rw [ecmpBlockLoop, ecmpBlockBody_eq _ _ hh, ← refBlockWord_eq key s (by omega)]
    rfl
  | succ n ih =>
    intro s h hh hp
    have e : 4 * s + 4 = 4 * (s + 1) := by omega
    have e2 : s + 1 + n + 1 = s + (n + 1) + 1 := by omega
    rw [ecmpBlockLoop, List.range'_succ, List.foldl_cons, e,
      ih (s + 1) _ (ecmpBlockBody_lt _ _) (by omega),
      ecmpBlockBody_eq _ _ hh, ← refBlockWord_eq key s (by omega), e2]

theorem ecmpTailLoop_eq (key : List Nat) (base i : Nat) (h1 : 1 ≤ i) (h3 : i ≤ 3)
    (hlen : base + i = key.length) :
    ecmpTailLoop key (i - 1) (base + (i - 1)) 0 = leWord (key.drop base) := by
  have hb := keyByte_lt key base
  have hb1 := keyByte_lt key (base + 1)
  have hb2 := keyByte_lt key (base + 2)
  have hnil : ∀ j, base + j = key.length → key.drop (base + j) = [] := by
    intro j hj; exact List.drop_eq_nil_of_le (by omega)
  have hor : ∀ a b : Nat, b < 256 → u32 (a <<< 8) ||| b = b + 256 * (a % 16777216) := by
    intro a b hb
    have : u32 (a <<< 8) = (a % 16777216) <<< 8 := by
      unfold u32; rw [Nat.shiftLeft_eq, Nat.shiftLeft_eq]; omega
    rw [this, Nat.lor_comm, or_shift_eq_add _ _ 8 (by omega)]
    omega
  obtain rfl | rfl | rfl : i = 1 ∨ i = 2 ∨ i = 3 := by omega
  · rw [drop_cons_getD key base (by omega), hnil 1 hlen]
    simp only [ecmpTailLoop, leWord, Nat.sub_self, Nat.add_zero]
    rw [hor _ _ hb]; unfold keyByte; omega
  · rw [drop_cons_getD key base (by omega), drop_cons_getD key (base + 1) (by omega),
      hnil 2 hlen]
    simp only [ecmpTailLoop, leWord, Nat.add_sub_cancel, Nat.reduceSub]
    rw [hor _ _ hb1, hor _ _ hb]; unfold keyByte at *; omega
  · rw [drop_cons_getD key base (by omega), drop_cons_getD key (base + 1) (by omega),
      drop_cons_getD key (base + 2) (by omega), hnil 3 hlen]
    have e1 : base + 2 - 1 = base + 1 := by omega
    simp only [ecmpTailLoop, leWord, Nat.add_sub_cancel, Nat.reduceSub, e1]
    rw [hor _ _ hb2, hor _ _ hb1, hor _ _ hb]; unfold keyByte at *; omega



theorem and_three (n : Nat) : n &&& 3 = n % 4 :=
  Nat.and_pow_two_sub_one_eq_mod n 2

theorem EcmpHash_eq_refHash (key : List Nat) (seed : Nat) :
    EcmpHash key key.length seed = refHash key seed := by
  unfold EcmpHash refHash
  simp only [and_three]
  rw [ecmpFinal_eq]
  congr 3
  have hs : u32 seed < 4294967296 := u32_lt _
  have hblocks : (if key.length > 3 then ecmpBlockLoop key ((key.length >>> 2) - 1) 0 (u32 seed)
      else (0, u32 seed)) = (4 * (key.length / 4), refBlocks key (seed % 2 ^ 32)) := by
    have hsh : key.length >>> 2 = key.length / 4 := Nat.shiftRight_eq_div_pow _ 2
    split
    · have h0 := ecmpBlockLoop_eq key ((key.length >>> 2) - 1) 0 (u32 seed) hs (by omega)
      simp only [Nat.mul_zero, Nat.zero_add] at h0
      rw [h0, hsh]
      have e : key.length / 4 - 1 + 1 = key.length / 4 := by omega
      rw [e]
      unfold refBlocks
      rw [List.range_eq_range']
      rfl
    · have e : key.length / 4 = 0 := by omega
      unfold refBlocks
      rw [e]
      rfl
  rw [hblocks]
  unfold refTail
  by_cases hz : key.length % 4 = 0
  · simp [hz]
  · simp only [hz, ne_eq, not_false_eq_true, if_true, if_false]
    rw [ecmpTailMix_eq, ecmpTailLoop_eq key (4 * (key.length / 4)) (key.length % 4) (by omega)
      (by omega) (by omega)]


theorem ecmpFinal_lt (h len : Nat) : ecmpFinal h len < 4294967296 := by
  simp only [ecmpFinal]
  apply xor_lt_u32
  · exact u32_lt _
  · rw [Nat.shiftRight_eq_div_pow]
    exact Nat.lt_of_le_of_lt (Nat.div_le_self _ _) (u32_lt _)

theorem EcmpHash_lt (key : List Nat) (len seed : Nat) : EcmpHash key len seed < 4294967296 := by
  unfold EcmpHash
  exact ecmpFinal_lt _ _

/-- C3. `EcmpHash` is the hash the specification describes: for every key (a list of
bytes, of any length) and every seed, `EcmpHash (key, len, seed)` with `len` the length
of the key equals the reference hash computed modulo `2 ^ 32` (seed; per little-endian
block: multiply by `0xcc9e2d51`, rotate left 15, multiply by `0x1b873593`, xor into the
hash, rotate the hash left 13, `h * 5 + 0xe6546b64`; the 1-3 trailing bytes folded with
the same two constants; xor with the length; the final avalanche with `0x85ebca6b` and
`0xc2b2ae35`). The empty key with seed 0 hashes to 0. -/
theorem C3_EcmpHash_is_reference_hash :
    (∀ (key : List Nat) (seed : Nat), EcmpHash key key.length seed = refHash key seed) ∧
    EcmpHash [] 0 0 = 0 :=
  ⟨EcmpHash_eq_refHash, by decide⟩

/-! ## Route resolution -/

theorem GetOutDev_of_group {σ : Type} (s : SwitchState σ) (p : Packet) (ch : CustomHeader)
    (residue : Nat) (g : List Int) (hg : s.m_rtTable (u32 p.dst) = some g)
    (hne : 0 < g.length) :
    GetOutDev s p ch residue
      = some (g.get ⟨EcmpHash (flowKeyBytes p ch residue) 12 s.m_ecmpSeed % g.length,
          Nat.mod_lt _ hne⟩) := by
  unfold GetOutDev
  rw [hg]
  have hlen : g.length ≠ 0 := by omega
  simp only [hlen, if_false]
  have hlt : EcmpHash (flowKeyBytes p ch residue) 12 s.m_ecmpSeed % g.length < 4294967296 :=
    Nat.lt_of_le_of_lt (Nat.mod_le _ _) (EcmpHash_lt _ _ _)
  have hidx : u32 (EcmpHash (flowKeyBytes p ch residue) 12 s.m_ecmpSeed % g.length)
      = EcmpHash (flowKeyBytes p ch residue) 12 s.m_ecmpSeed % g.length := by
    unfold u32; exact Nat.mod_eq_of_lt hlt
  rw [hidx, List.getD_eq_getElem _ _ (Nat.mod_lt _ hne)]
  rfl

theorem GetOutDev_of_miss {σ : Type} (s : SwitchState σ) (p : Packet) (ch : CustomHeader)
    (residue : Nat) (hg : s.m_rtTable (u32 p.dst) = none) :
    GetOutDev s p ch residue = some (-1) := by
  unfold GetOutDev
  rw [hg]

theorem flowKeyBytes_tcp (p : Packet) (ch : CustomHeader) (residue : Nat)
    (h : p.protocol = 0x6) :
    flowKeyBytes p ch residue
      = u32Bytes p.src ++ u32Bytes p.dst ++ u32Bytes (packPorts p.tcpSrcPort p.tcpDstPort) := by
  unfold flowKeyBytes flowWord
  rw [if_pos h]

theorem flowKeyBytes_udp (p : Packet) (ch : CustomHeader) (residue : Nat)
    (h : p.protocol ≠ 0x6) (hu : ch.l3Prot = 0x11) :
    flowKeyBytes p ch residue
      = u32Bytes p.src ++ u32Bytes p.dst ++ u32Bytes (packPorts ch.udpSport ch.udpDport) := by
  unfold flowKeyBytes flowWord
  rw [if_neg h, if_pos hu]

theorem flowKeyBytes_ack (p : Packet) (ch : CustomHeader) (residue : Nat)
    (h : p.protocol ≠ 0x6) (ha : ch.l3Prot = 0xFC ∨ ch.l3Prot = 0xFD) :
    flowKeyBytes p ch residue
      = u32Bytes p.src ++ u32Bytes p.dst ++ u32Bytes (packPorts ch.ackSport ch.ackDport) := by
  unfold flowKeyBytes flowWord
  have hu : ch.l3Prot ≠ 0x11 := by rcases ha with h1 | h1 <;> rw [h1] <;> decide
  rw [if_neg h, if_neg hu, if_pos ha]

/-- C4, evaluated on the code. A congestion notification packet (protocol 0xFF) is
resolved twice on the same switch, with the same table, seed, addresses, protocol and
ports; only the uninitialised word `buf.u32[2]` differs (0, then 1). The group is
`[5, 7]`; the first resolution returns port 7, the second port 5. -/
theorem C4_GetOutDev_depends_on_stack_residue :
    exampleSwitch.m_rtTable (u32 exampleCnp.dst) = some [5, 7] ∧
    GetOutDev exampleSwitch exampleCnp exampleCnpHeader 0 = some 7 ∧
    GetOutDev exampleSwitch exampleCnp exampleCnpHeader 1 = some 5 := by
  refine ⟨rfl, ?_, ?_⟩ <;> decide

theorem toInt32_of_lt (id : Nat) (h : id < 2147483648) : toInt32 id = (id : Int) := by
  unfold toInt32 u32
  have e : id % 4294967296 = id := Nat.mod_eq_of_lt (by omega)
  rw [e, if_pos h]

theorem GetOutDev_eq_miss_iff {σ : Type} (s : SwitchState σ) (p : Packet) (ch : CustomHeader)
    (residue : Nat) (hp : PortsBelowTwoPow31 s) :
    GetOutDev s p ch residue = some (-1) ↔ s.m_rtTable (u32 p.dst) = none := by
  constructor
  · intro h
    cases hg : s.m_rtTable (u32 p.dst) with
    | none => rfl
    | some g =>
      exfalso
      by_cases hne : 0 < g.length
      · rw [GetOutDev_of_group s p ch residue g hg hne] at h
        obtain ⟨id, hid, he⟩ := hp _ g hg _ (List.get_mem g _ _)
        rw [he, toInt32_of_lt id hid] at h
        have h2 : (id : Int) = -1 := Option.some.inj h
        omega
      · unfold GetOutDev at h
        rw [hg] at h
        have hz : g.length = 0 := by omega
        simp [hz] at h
  · intro h
    exact GetOutDev_of_miss s p ch residue h

theorem SendToDev_of_miss {σ : Type} (M : Mmu σ) (s : SwitchState σ) (p : Packet)
    (ch : CustomHeader) (residue : Nat) (hg : s.m_rtTable (u32 p.dst) = none) :
    SendToDev M s p ch residue = some (s, [.diagnostic]) := by
  unfold SendToDev
  rw [GetOutDev_of_miss s p ch residue hg]
  rfl

/-- C6. For every switch whose table holds only port identifiers below `2 ^ 31` and
every packet: `GetOutDev` returns -1 exactly when the destination of the packet has no
group in the table; and in that case `SendToDev` drops the packet: the state of the
switch (all counters, the buffer manager) is unchanged and the only thing done is the
diagnostic, so no buffer manager operation is called, no pause signal is emitted and
nothing is sent to a device. -/
theorem C6_route_miss {σ : Type} (s : SwitchState σ) (p : Packet) (ch : CustomHeader)
    (residue : Nat) (hp : PortsBelowTwoPow31 s) :
    (GetOutDev s p ch residue = some (-1) ↔ s.m_rtTable (u32 p.dst) = none) ∧
    (s.m_rtTable (u32 p.dst) = none →
      ∀ M : Mmu σ, SendToDev M s p ch residue = some (s, [.diagnostic])) :=
  ⟨GetOutDev_eq_miss_iff s p ch residue hp,
    fun hg M => SendToDev_of_miss M s p ch residue hg⟩

theorem exampleSwitch_ports : PortsBelowTwoPow31 exampleSwitch := by
  intro d g hg e he
  have hd : d = exampleDst ∨ d ≠ exampleDst := by omega
  rcases hd with hd | hd
  · subst hd
    have : g = [5, 7] := by
      have h2 : exampleSwitch.m_rtTable exampleDst = some [5, 7] := rfl
      rw [h2] at hg
      exact (Option.some.inj hg).symm
    subst this
    simp only [List.mem_cons, List.mem_singleton, List.not_mem_nil, or_false] at he
    rcases he with rfl | rfl
    · exact ⟨5, by omega, by decide⟩
    · exact ⟨7, by omega, by decide⟩
  · exfalso
    have h2 : exampleSwitch.m_rtTable d = none := by
      simp only [exampleSwitch, AddTableEntry, SwitchState.fresh, u32, exampleDst] at *
      simp [hd]
    rw [h2] at hg
    cases hg

/-- Witness of C6: the table of the example switch holds the ports 5 and 7; a packet for
an address it does not know is dropped with the diagnostic. -/
theorem C6_witness :
    PortsBelowTwoPow31 exampleSwitch ∧
    GetOutDev exampleSwitch { examplePacket with dst := 1 } exampleHeader 0 = some (-1) ∧
    SendToDev exampleMmu exampleSwitch { examplePacket with dst := 1 } exampleHeader 0
      = some (exampleSwitch, [.diagnostic]) :=
  ⟨exampleSwitch_ports,
    (C6_route_miss exampleSwitch { examplePacket with dst := 1 } exampleHeader 0
      exampleSwitch_ports).1.2 rfl,
    (C6_route_miss exampleSwitch { examplePacket with dst := 1 } exampleHeader 0
      exampleSwitch_ports).2 rfl exampleMmu⟩

/-- For the four protocols whose ports are read (TCP, UDP, 0xFC, 0xFD) the resolution does
not depend on what the stack held: with the same table, seed, packet and header it
returns the same port. -/
theorem GetOutDev_ignores_residue {σ : Type} (s : SwitchState σ) (p : Packet)
    (ch : CustomHeader) (r1 r2 : Nat)
    (h : p.protocol = 0x6 ∨ ch.l3Prot = 0x11 ∨ ch.l3Prot = 0xFC ∨ ch.l3Prot = 0xFD) :
    GetOutDev s p ch r1 = GetOutDev s p ch r2 := by
  have hkey : flowKeyBytes p ch r1 = flowKeyBytes p ch r2 := by
    by_cases h6 : p.protocol = 0x6
    · rw [flowKeyBytes_tcp p ch r1 h6, flowKeyBytes_tcp p ch r2 h6]
    · rcases h with h | h | h | h
      · exact absurd h h6
      · rw [flowKeyBytes_udp p ch r1 h6 h, flowKeyBytes_udp p ch r2 h6 h]
      · rw [flowKeyBytes_ack p ch r1 h6 (Or.inl h), flowKeyBytes_ack p ch r2 h6 (Or.inl h)]
      · rw [flowKeyBytes_ack p ch r1 h6 (Or.inr h), flowKeyBytes_ack p ch r2 h6 (Or.inr h)]
  unfold GetOutDev
  rw [hkey]

/-- The example UDP packet is resolved to port 5 whatever the stack held. -/
theorem GetOutDev_ignores_residue_witness :
    GetOutDev exampleSwitch examplePacket exampleHeader 0 = some 5 ∧
    GetOutDev exampleSwitch examplePacket exampleHeader 0
      = GetOutDev exampleSwitch examplePacket exampleHeader 123456789 :=
  ⟨by decide,
    GetOutDev_ignores_residue exampleSwitch examplePacket exampleHeader 0 123456789
      (Or.inr (Or.inl rfl))⟩

/-! ## Arrival -/

theorem SendToDev_class0 {σ : Type} (M : Mmu σ) (s : SwitchState σ) (p : Packet)
    (ch : CustomHeader) (residue : Nat) (idx : Int)
    (hroute : GetOutDev s p ch residue = some idx) (hidx : 0 ≤ idx)
    (hq : selectClass s.m_ackHighPrio p ch = 0) :
    SendToDev M s p ch residue
      = some (forward s p.portId idx.toNat 0 p, [.switchSend idx.toNat 0 p ch]) := by
  unfold SendToDev
  rw [hroute]
  simp only [hidx, if_true, hq, ne_eq, not_true_eq_false, if_false]

theorem SendToDev_ingress_refused {σ : Type} (M : Mmu σ) (s : SwitchState σ) (p : Packet)
    (ch : CustomHeader) (residue : Nat) (idx : Int)
    (hroute : GetOutDev s p ch residue = some idx) (hidx : 0 ≤ idx)
    (hq : selectClass s.m_ackHighPrio p ch ≠ 0)
    (hin : M.CheckIngressAdmission s.m_mmu p.portId (selectClass s.m_ackHighPrio p ch) p.size
      p.priority.isSome (p.unsched.getD 0) = false) :
    SendToDev M s p ch residue
      = some (s, [.checkIngress p.portId (selectClass s.m_ackHighPrio p ch) p.size
          p.priority.isSome (p.unsched.getD 0)]) := by
  unfold SendToDev
  rw [hroute]
  simp only [hidx, if_true, hq, ne_eq, not_false_eq_true, hin, Bool.false_eq_true, if_false]

theorem SendToDev_egress_refused {σ : Type} (M : Mmu σ) (s : SwitchState σ) (p : Packet)
    (ch : CustomHeader) (residue : Nat) (idx : Int)
    (hroute : GetOutDev s p ch residue = some idx) (hidx : 0 ≤ idx)
    (hq : selectClass s.m_ackHighPrio p ch ≠ 0)
    (hin : M.CheckIngressAdmission s.m_mmu p.portId (selectClass s.m_ackHighPrio p ch) p.size
      p.priority.isSome (p.unsched.getD 0) = true)
    (heg : M.CheckEgressAdmission s.m_mmu idx.toNat (selectClass s.m_ackHighPrio p ch) p.size
      p.priority.isSome (p.unsched.getD 0) = false) :
    SendToDev M s p ch residue
      = some (s, [.checkIngress p.portId (selectClass s.m_ackHighPrio p ch) p.size
          p.priority.isSome (p.unsched.getD 0),
          .checkEgress idx.toNat (selectClass s.m_ackHighPrio p ch) p.size
          p.priority.isSome (p.unsched.getD 0)]) := by
  unfold SendToDev
  rw [hroute]
  simp only [hidx, if_true, hq, ne_eq, not_false_eq_true, hin, heg, Bool.false_eq_true,
    if_false]

theorem SendToDev_admitted {σ : Type} (M : Mmu σ) (s : SwitchState σ) (p : Packet)
    (ch : CustomHeader) (residue : Nat) (idx : Int)
    (hroute : GetOutDev s p ch residue = some idx) (hidx : 0 ≤ idx)
    (hq : selectClass s.m_ackHighPrio p ch ≠ 0)
    (hin : M.CheckIngressAdmission s.m_mmu p.portId (selectClass s.m_ackHighPrio p ch) p.size
      p.priority.isSome (p.unsched.getD 0) = true)
    (heg : M.CheckEgressAdmission s.m_mmu idx.toNat (selectClass s.m_ackHighPrio p ch) p.size
      p.priority.isSome (p.unsched.getD 0) = true) :
    SendToDev M s p ch residue
      = some (forward { s with m_mmu := (CheckAndSendPfc M (admittedMmu M s p ch idx.toNat)
            p.portId (selectClass s.m_ackHighPrio p ch)).1 }
          p.portId idx.toNat (selectClass s.m_ackHighPrio p ch) p,
        [.checkIngress p.portId (selectClass s.m_ackHighPrio p ch) p.size
            p.priority.isSome (p.unsched.getD 0),
          .checkEgress idx.toNat (selectClass s.m_ackHighPrio p ch) p.size
            p.priority.isSome (p.unsched.getD 0),
          .updateIngress p.portId (selectClass s.m_ackHighPrio p ch) p.size
            p.priority.isSome (p.unsched.getD 0),
          .updateEgress idx.toNat (selectClass s.m_ackHighPrio p ch) p.size
            p.priority.isSome] ++
          (CheckAndSendPfc M (admittedMmu M s p ch idx.toNat) p.portId
            (selectClass s.m_ackHighPrio p ch)).2 ++
          [.switchSend idx.toNat (selectClass s.m_ackHighPrio p ch) p ch]) := by
  unfold SendToDev
  rw [hroute]
  simp only [hidx, if_true, hq, ne_eq, not_false_eq_true, hin, heg]
  rfl

theorem CheckAndSendPfc_events {σ : Type} (M : Mmu σ) (mmu : σ) (inDev q : Nat) :
    ∀ e ∈ (CheckAndSendPfc M mmu inDev q).2,
      e.isAccounting = false ∧ e.isSend = false := by
  intro e he
  unfold CheckAndSendPfc at he
  split at he <;> simp at he <;> rcases he with rfl | rfl | rfl <;> exact ⟨rfl, rfl⟩

theorem some_pair_inj {α β : Type} {a c : α} {b d : β} (h : some (a, b) = some (c, d)) :
    a = c ∧ b = d := by
  cases h
  exact ⟨rfl, rfl⟩

/-- C5. No partial admission. For an arriving packet with a resolved route and a class
other than 0: if `CheckIngressAdmission` or `CheckEgressAdmission` is false, `SendToDev`
leaves the state of the switch as it was (no `m_bytes` counter changes, the buffer
manager is untouched) and what it does contains no `Update...` call, no pause signal and
no hand-over to a device. And for every arriving packet: whenever the log of `SendToDev`
contains an `Update...` call, the route was resolved, both checks were true and both
`UpdateIngressAdmission` and `UpdateEgressAdmission` are in the log. -/
theorem C5_no_partial_admission {σ : Type} (M : Mmu σ) (s : SwitchState σ) (p : Packet)
    (ch : CustomHeader) (residue : Nat) :
    (∀ idx : Int, GetOutDev s p ch residue = some idx → 0 ≤ idx →
      selectClass s.m_ackHighPrio p ch ≠ 0 →
      (M.CheckIngressAdmission s.m_mmu p.portId (selectClass s.m_ackHighPrio p ch) p.size
          p.priority.isSome (p.unsched.getD 0) = false ∨
        M.CheckEgressAdmission s.m_mmu idx.toNat (selectClass s.m_ackHighPrio p ch) p.size
          p.priority.isSome (p.unsched.getD 0) = false) →
      ∃ evs, SendToDev M s p ch residue = some (s, evs) ∧
        ∀ e ∈ evs, e.isAccounting = false ∧ e.isPfc = false ∧ e.isSend = false) ∧
    (∀ s2 evs, SendToDev M s p ch residue = some (s2, evs) →
      (∃ e ∈ evs, e.isUpdate = true) →
      ∃ idx : Int, GetOutDev s p ch residue = some idx ∧ 0 ≤ idx ∧
        M.CheckIngressAdmission s.m_mmu p.portId (selectClass s.m_ackHighPrio p ch) p.size
          p.priority.isSome (p.unsched.getD 0) = true ∧
        M.CheckEgressAdmission s.m_mmu idx.toNat (selectClass s.m_ackHighPrio p ch) p.size
          p.priority.isSome (p.unsched.getD 0) = true ∧
        Event.updateIngress p.portId (selectClass s.m_ackHighPrio p ch) p.size
          p.priority.isSome (p.unsched.getD 0) ∈ evs ∧
        Event.updateEgress idx.toNat (selectClass s.m_ackHighPrio p ch) p.size
          p.priority.isSome ∈ evs) := by
  constructor
  · intro idx hroute hidx hq hfail
    cases hin : M.CheckIngressAdmission s.m_mmu p.portId (selectClass s.m_ackHighPrio p ch)
        p.size p.priority.isSome (p.unsched.getD 0) with
    | false =>
      refine ⟨_, SendToDev_ingress_refused M s p ch residue idx hroute hidx hq hin, ?_⟩
      intro e he
      simp only [List.mem_singleton] at he
      subst he
      exact ⟨rfl, rfl, rfl⟩
    | true =>
      have heg : M.CheckEgressAdmission s.m_mmu idx.toNat (selectClass s.m_ackHighPrio p ch)
          p.size p.priority.isSome (p.unsched.getD 0) = false := by
        rcases hfail with h | h
        · rw [hin] at h; cases h
        · exact h
      refine ⟨_, SendToDev_egress_refused M s p ch residue idx hroute hidx hq hin heg, ?_⟩
      intro e he
      simp only [List.mem_cons, List.mem_singleton, List.not_mem_nil, or_false] at he
      rcases he with rfl | rfl <;> exact ⟨rfl, rfl, rfl⟩
  · intro s2 evs hrun hupd
    obtain ⟨e, he, hu⟩ := hupd
    cases hroute : GetOutDev s p ch residue with
    | none =>
      unfold SendToDev at hrun
      rw [hroute] at hrun
      cases hrun
    | some idx =>
      by_cases hidx : 0 ≤ idx
      · by_cases hq : selectClass s.m_ackHighPrio p ch = 0
        · rw [SendToDev_class0 M s p ch residue idx hroute hidx hq] at hrun
          obtain ⟨-, hevs⟩ := some_pair_inj hrun
          subst hevs
          simp only [List.mem_singleton] at he
          subst he
          cases hu
        · cases hin : M.CheckIngressAdmission s.m_mmu p.portId
              (selectClass s.m_ackHighPrio p ch) p.size p.priority.isSome
              (p.unsched.getD 0) with
          | false =>
            rw [SendToDev_ingress_refused M s p ch residue idx hroute hidx hq hin] at hrun
            obtain ⟨-, hevs⟩ := some_pair_inj hrun
            subst hevs
            simp only [List.mem_singleton] at he
            subst he
            cases hu
          | true =>
            cases heg : M.CheckEgressAdmission s.m_mmu idx.toNat
                (selectClass s.m_ackHighPrio p ch) p.size p.priority.isSome
                (p.unsched.getD 0) with
            | false =>
              rw [SendToDev_egress_refused M s p ch residue idx hroute hidx hq hin heg]
                at hrun
              obtain ⟨-, hevs⟩ := some_pair_inj hrun
              subst hevs
              simp only [List.mem_cons, List.mem_singleton, List.not_mem_nil, or_false] at he
              rcases he with rfl | rfl <;> cases hu
            | true =>
              rw [SendToDev_admitted M s p ch residue idx hroute hidx hq hin heg] at hrun
              obtain ⟨-, hevs⟩ := some_pair_inj hrun
              subst hevs
              exact ⟨idx, rfl, hidx, rfl, heg, by simp, by simp⟩
      · unfold SendToDev at hrun
        rw [hroute] at hrun
        simp only [hidx, if_false] at hrun
        obtain ⟨-, hevs⟩ := some_pair_inj hrun
        subst hevs
        simp only [List.mem_singleton] at he
        subst he
        cases hu

/-- Witness of C5: the 5000-byte packet is refused by the ingress check of the example
buffer manager and the example switch is left as it was. -/
theorem C5_witness :
    ∃ evs, SendToDev exampleMmu exampleSwitch exampleJumbo exampleHeader 0
        = some (exampleSwitch, evs) ∧
      ∀ e ∈ evs, e.isAccounting = false ∧ e.isPfc = false ∧ e.isSend = false :=
  (C5_no_partial_admission exampleMmu exampleSwitch exampleJumbo exampleHeader 0).1 5
    (by decide) (by decide) (by decide) (Or.inl (by decide))

theorem forward_m_bytes {σ : Type} (s : SwitchState σ) (inDev idx q : Nat) (p : Packet)
    (i j k : Nat) :
    (forward s inDev idx q p).m_bytes i j k
      = if i = inDev ∧ j = idx ∧ k = q then s.m_bytes i j k + p.size else s.m_bytes i j k :=
  rfl

/-- The five ways `SendToDev` returns: route miss (or negative port), class 0, refused at
the ingress, refused at the egress, admitted. -/
theorem SendToDev_cases {σ : Type} (M : Mmu σ) (s : SwitchState σ) (p : Packet)
    (ch : CustomHeader) (residue : Nat) (s1 : SwitchState σ) (evs : List Event)
    (hrun : SendToDev M s p ch residue = some (s1, evs)) :
    ∃ idx : Int, GetOutDev s p ch residue = some idx ∧
      ((idx < 0 ∧ s1 = s ∧ evs = [.diagnostic]) ∨
       (0 ≤ idx ∧ selectClass s.m_ackHighPrio p ch = 0 ∧
          s1 = forward s p.portId idx.toNat 0 p ∧ evs = [.switchSend idx.toNat 0 p ch]) ∨
       (0 ≤ idx ∧ selectClass s.m_ackHighPrio p ch ≠ 0 ∧ s1 = s ∧
          ∀ e ∈ evs, e.isAccounting = false ∧ e.isPfc = false ∧ e.isSend = false) ∨
       (0 ≤ idx ∧ selectClass s.m_ackHighPrio p ch ≠ 0 ∧
          s1 = forward { s with m_mmu := (CheckAndSendPfc M (admittedMmu M s p ch idx.toNat)
              p.portId (selectClass s.m_ackHighPrio p ch)).1 }
            p.portId idx.toNat (selectClass s.m_ackHighPrio p ch) p ∧
          evs = [.checkIngress p.portId (selectClass s.m_ackHighPrio p ch) p.size
              p.priority.isSome (p.unsched.getD 0),
            .checkEgress idx.toNat (selectClass s.m_ackHighPrio p ch) p.size
              p.priority.isSome (p.unsched.getD 0),
            .updateIngress p.portId (selectClass s.m_ackHighPrio p ch) p.size
              p.priority.isSome (p.unsched.getD 0),
            .updateEgress idx.toNat (selectClass s.m_ackHighPrio p ch) p.size
              p.priority.isSome] ++
            (CheckAndSendPfc M (admittedMmu M s p ch idx.toNat) p.portId
              (selectClass s.m_ackHighPrio p ch)).2 ++
            [.switchSend idx.toNat (selectClass s.m_ackHighPrio p ch) p ch])) := by
  cases hroute : GetOutDev s p ch residue with
  | none =>
    unfold SendToDev at hrun
    rw [hroute] at hrun
    cases hrun
  | some idx =>
    refine ⟨idx, rfl, ?_⟩
    by_cases hidx : 0 ≤ idx
    · by_cases hq : selectClass s.m_ackHighPrio p ch = 0
      · rw [SendToDev_class0 M s p ch residue idx hroute hidx hq] at hrun
        obtain ⟨hs, hevs⟩ := some_pair_inj hrun
        exact Or.inr (Or.inl ⟨hidx, hq, hs.symm, hevs.symm⟩)
      · cases hin : M.CheckIngressAdmission s.m_mmu p.portId
            (selectClass s.m_ackHighPrio p ch) p.size p.priority.isSome
            (p.unsched.getD 0) with
        | false =>
          rw [SendToDev_ingress_refused M s p ch residue idx hroute hidx hq hin] at hrun
          obtain ⟨hs, hevs⟩ := some_pair_inj hrun
          subst hevs
          refine Or.inr (Or.inr (Or.inl ⟨hidx, hq, hs.symm, ?_⟩))
          intro e he
          simp only [List.mem_singleton] at he
          subst he
          exact ⟨rfl, rfl, rfl⟩
        | true =>
          cases heg : M.CheckEgressAdmission s.m_mmu idx.toNat
              (selectClass s.m_ackHighPrio p ch) p.size p.priority.isSome
              (p.unsched.getD 0) with
          | false =>
            rw [SendToDev_egress_refused M s p ch residue idx hroute hidx hq hin heg] at hrun
            obtain ⟨hs, hevs⟩ := some_pair_inj hrun
            subst hevs
            refine Or.inr (Or.inr (Or.inl ⟨hidx, hq, hs.symm, ?_⟩))
            intro e he
            simp only [List.mem_cons, List.mem_singleton, List.not_mem_nil, or_false] at he
            rcases he with rfl | rfl <;> exact ⟨rfl, rfl, rfl⟩
          | true =>
            rw [SendToDev_admitted M s p ch residue idx hroute hidx hq hin heg] at hrun
            obtain ⟨hs, hevs⟩ := some_pair_inj hrun
            exact Or.inr (Or.inr (Or.inr ⟨hidx, hq, hs.symm, hevs.symm⟩))
    · unfold SendToDev at hrun
      rw [hroute] at hrun
      simp only [hidx, if_false] at hrun
      obtain ⟨hs, hevs⟩ := some_pair_inj hrun
      exact Or.inl ⟨by omega, hs.symm, hevs.symm⟩

/-! ## Departure -/

theorem annotateTelemetry_frame {σ : Type} (F : FloatOps) (s : SwitchState σ)
    (env : DequeueEnv) (ifIndex : Nat) (p : Packet) :
    (annotateTelemetry F s env ifIndex p).1.m_bytes = s.m_bytes ∧
    (annotateTelemetry F s env ifIndex p).1.m_mmu = s.m_mmu ∧
    (annotateTelemetry F s env ifIndex p).1.m_rtTable = s.m_rtTable ∧
    (annotateTelemetry F s env ifIndex p).1.m_ecmpSeed = s.m_ecmpSeed ∧
    (annotateTelemetry F s env ifIndex p).1.m_ackHighPrio = s.m_ackHighPrio := by
  unfold annotateTelemetry
  split
  · split
    · exact ⟨rfl, rfl, rfl, rfl, rfl⟩
    · split <;> exact ⟨rfl, rfl, rfl, rfl, rfl⟩
  · split <;> exact ⟨rfl, rfl, rfl, rfl, rfl⟩

theorem annotateTelemetry_packet {σ : Type} (F : FloatOps) (s : SwitchState σ)
    (env : DequeueEnv) (ifIndex : Nat) (p : Packet) :
    (annotateTelemetry F s env ifIndex p).2.size = p.size ∧
    (annotateTelemetry F s env ifIndex p).2.ecn = p.ecn ∧
    (annotateTelemetry F s env ifIndex p).2.src = p.src ∧
    (annotateTelemetry F s env ifIndex p).2.dst = p.dst ∧
    (annotateTelemetry F s env ifIndex p).2.protocol = p.protocol ∧
    (annotateTelemetry F s env ifIndex p).2.tcpSrcPort = p.tcpSrcPort ∧
    (annotateTelemetry F s env ifIndex p).2.tcpDstPort = p.tcpDstPort ∧
    (annotateTelemetry F s env ifIndex p).2.priority = p.priority ∧
    (annotateTelemetry F s env ifIndex p).2.unsched = p.unsched ∧
    (annotateTelemetry F s env ifIndex p).2.portId = p.portId := by
  unfold annotateTelemetry
  split
  · split
    · exact ⟨rfl, rfl, rfl, rfl, rfl, rfl, rfl, rfl, rfl, rfl⟩
    · split
      · simp only []
        split <;> exact ⟨rfl, rfl, rfl, rfl, rfl, rfl, rfl, rfl, rfl, rfl⟩
      · exact ⟨rfl, rfl, rfl, rfl, rfl, rfl, rfl, rfl, rfl, rfl⟩
  · split <;> exact ⟨rfl, rfl, rfl, rfl, rfl, rfl, rfl, rfl, rfl, rfl⟩

theorem dequeueAccounting_class0 {σ : Type} (M : Mmu σ) (s : SwitchState σ) (ifIndex : Nat)
    (p : Packet) : dequeueAccounting M s ifIndex 0 p = (s, p, []) := rfl

theorem dequeueAccounting_of_ne {σ : Type} (M : Mmu σ) (s : SwitchState σ)
    (ifIndex qIndex : Nat) (p : Packet) (hq : qIndex ≠ 0) :
    dequeueAccounting M s ifIndex qIndex p
      = ({ s with
            m_mmu := (CheckAndSendResume M (departedMmu M s ifIndex qIndex p) p.portId qIndex).1
            m_bytes := fun i j k =>
              if i = p.portId ∧ j = ifIndex ∧ k = qIndex then s.m_bytes i j k - p.size
              else s.m_bytes i j k },
          (markCongestion M s.m_ecnEnabled (departedMmu M s ifIndex qIndex p) ifIndex qIndex p).1,
          [.removeIngress p.portId qIndex p.size p.priority.isSome,
            .removeEgress ifIndex qIndex p.size p.priority.isSome]
            ++ (markCongestion M s.m_ecnEnabled (departedMmu M s ifIndex qIndex p) ifIndex
                qIndex p).2
            ++ (CheckAndSendResume M (departedMmu M s ifIndex qIndex p) p.portId qIndex).2) := by
  unfold dequeueAccounting
  rw [if_pos hq]
  rfl

theorem SwitchNotifyDequeue_events {σ : Type} (M : Mmu σ) (F : FloatOps) (env : DequeueEnv)
    (s : SwitchState σ) (ifIndex qIndex : Nat) (p : Packet) :
    (SwitchNotifyDequeue M F env s ifIndex qIndex p).2.2
      = (dequeueAccounting M s ifIndex qIndex p).2.2 := rfl

theorem SwitchNotifyDequeue_m_bytes {σ : Type} (M : Mmu σ) (F : FloatOps) (env : DequeueEnv)
    (s : SwitchState σ) (ifIndex qIndex : Nat) (p : Packet) :
    (SwitchNotifyDequeue M F env s ifIndex qIndex p).1.m_bytes
      = (dequeueAccounting M s ifIndex qIndex p).1.m_bytes := by
  unfold SwitchNotifyDequeue noteTransmission
  exact (annotateTelemetry_frame F _ env ifIndex _).1

theorem SwitchNotifyDequeue_m_mmu {σ : Type} (M : Mmu σ) (F : FloatOps) (env : DequeueEnv)
    (s : SwitchState σ) (ifIndex qIndex : Nat) (p : Packet) :
    (SwitchNotifyDequeue M F env s ifIndex qIndex p).1.m_mmu
      = (dequeueAccounting M s ifIndex qIndex p).1.m_mmu := by
  unfold SwitchNotifyDequeue noteTransmission
  exact (annotateTelemetry_frame F _ env ifIndex _).2.1

theorem CheckAndSendResume_events {σ : Type} (M : Mmu σ) (mmu : σ) (inDev q : Nat) :
    ∀ e ∈ (CheckAndSendResume M mmu inDev q).2,
      e.isAccounting = false ∧ e.isSend = false ∧ e.isMarkQuery = false := by
  intro e he
  unfold CheckAndSendResume at he
  split at he <;> simp at he <;> rcases he with rfl | rfl | rfl <;> exact ⟨rfl, rfl, rfl⟩

theorem markCongestion_events {σ : Type} (M : Mmu σ) (en : Bool) (mmu : σ) (ifIndex q : Nat)
    (p : Packet) :
    ∀ e ∈ (markCongestion M en mmu ifIndex q p).2,
      e.isAccounting = false ∧ e.isSend = false ∧ e.isPfc = false := by
  intro e he
  unfold markCongestion at he
  split at he
  · split at he <;> simp at he <;> subst he <;> exact ⟨rfl, rfl, rfl⟩
  · simp at he

theorem selectClass_of_tag (ackHighPrio : Nat) (p : Packet) (ch : CustomHeader) (c : Nat)
    (htag : p.priority = some c)
    (hctl : ¬ (ch.l3Prot = 0xFF ∨ ch.l3Prot = 0xFE ∨
      (ackHighPrio ≠ 0 ∧ (ch.l3Prot = 0xFD ∨ ch.l3Prot = 0xFC)))) :
    selectClass ackHighPrio p ch = c := by
  unfold selectClass
  rw [if_neg hctl, htag]

theorem getOutDev_two_members {σ : Type} (s : SwitchState σ) (p : Packet) (ch : CustomHeader)
    (residue : Nat) (a b : Int) (hgroup : s.m_rtTable (u32 p.dst) = some [a, b])
    (hhash : EcmpHash (flowKeyBytes p ch residue) 12 s.m_ecmpSeed % 2 = 0) :
    GetOutDev s p ch residue = some a := by
  rw [GetOutDev_of_group s p ch residue [a, b] hgroup (Nat.succ_pos 1)]
  have h2 : ([a, b] : List Int).length = 2 := rfl
  simp only [h2, hhash]
  rfl

/-- C9. End-to-end scenario. On a switch with all `m_bytes` counters at zero whose table
maps the destination of the packet to the group `[5, 7]`, for a 1500-byte packet tagged
class 3, not of a control protocol, with ingress-port tag 2, whose flow-key hash is 0
modulo 2 and which passes both admission checks: `SendToDev` returns, hands the packet to
port 5 on class 3 (and to no other device), raises `m_bytes[2][5][3]` by exactly 1500
and changes no other `m_bytes` counter; the `SwitchNotifyDequeue (5, 3, packet)` that
follows returns `m_bytes[2][5][3]` to 0. -/
theorem C9_end_to_end {σ : Type} (M : Mmu σ) (F : FloatOps) (s : SwitchState σ) (p : Packet)
    (ch : CustomHeader) (residue : Nat)
    (hfresh : ∀ i j k, s.m_bytes i j k = 0)
    (hgroup : s.m_rtTable (u32 p.dst) = some [5, 7])
    (hsize : p.size = 1500) (htag : p.priority = some 3) (hport : p.portId = 2)
    (hctl : ¬ (ch.l3Prot = 0xFF ∨ ch.l3Prot = 0xFE ∨
      (s.m_ackHighPrio ≠ 0 ∧ (ch.l3Prot = 0xFD ∨ ch.l3Prot = 0xFC))))
    (hhash : EcmpHash (flowKeyBytes p ch residue) 12 s.m_ecmpSeed % 2 = 0)
    (hin : M.CheckIngressAdmission s.m_mmu 2 3 1500 true (p.unsched.getD 0) = true)
    (heg : M.CheckEgressAdmission s.m_mmu 5 3 1500 true (p.unsched.getD 0) = true) :
    ∃ s1 evs, SendToDev M s p ch residue = some (s1, evs) ∧
      Event.switchSend 5 3 p ch ∈ evs ∧
      (∀ e ∈ evs, e.isSend = true → e = Event.switchSend 5 3 p ch) ∧
      s1.m_bytes 2 5 3 = s.m_bytes 2 5 3 + 1500 ∧
      (∀ i j k, ¬ (i = 2 ∧ j = 5 ∧ k = 3) → s1.m_bytes i j k = s.m_bytes i j k) ∧
      ∀ env : DequeueEnv, (SwitchNotifyDequeue M F env s1 5 3 p).1.m_bytes 2 5 3 = 0 := by
  have hq : selectClass s.m_ackHighPrio p ch = 3 :=
    selectClass_of_tag s.m_ackHighPrio p ch 3 htag hctl
  have hroute : GetOutDev s p ch residue = some 5 :=
    getOutDev_two_members s p ch residue 5 7 hgroup hhash
  have hsome : p.priority.isSome = true := by rw [htag]; rfl
  have hrun := SendToDev_admitted M s p ch residue 5 hroute (by decide) (by rw [hq]; decide)
    (by rw [hq, hport, hsize, hsome]; exact hin)
    (by rw [hq, hsize, hsome]; exact heg)
  rw [hq, hport] at hrun
  have h5 : (5 : Int).toNat = 5 := rfl
  rw [h5] at hrun
  refine ⟨_, _, hrun, by simp, ?_, ?_, ?_, ?_⟩
  · intro e he hs
    simp only [List.mem_append, List.mem_cons, List.mem_singleton, List.not_mem_nil,
      or_false] at he
    rcases he with ((rfl | rfl | rfl | rfl) | he) | rfl
    · cases hs
    · cases hs
    · cases hs
    · cases hs
    · rw [(CheckAndSendPfc_events M _ _ _ e he).2] at hs
      cases hs
    · rfl
  · rw [forward_m_bytes, hsize]
    simp
  · intro i j k hne
    rw [forward_m_bytes, if_neg hne]
  · intro env
    rw [SwitchNotifyDequeue_m_bytes, dequeueAccounting_of_ne M _ 5 3 p (by decide)]
    simp only [hport, forward_m_bytes, and_self, if_true, hsize, hfresh]
    norm_num

/-- Witness of C9: the example switch, buffer manager, packet and header meet every
hypothesis of the scenario. -/
theorem C9_witness :
    ∃ s1 evs, SendToDev exampleMmu exampleSwitch examplePacket exampleHeader 0
        = some (s1, evs) ∧
      Event.switchSend 5 3 examplePacket exampleHeader ∈ evs ∧
      (∀ e ∈ evs, e.isSend = true → e = Event.switchSend 5 3 examplePacket exampleHeader) ∧
      s1.m_bytes 2 5 3 = exampleSwitch.m_bytes 2 5 3 + 1500 ∧
      (∀ i j k, ¬ (i = 2 ∧ j = 5 ∧ k = 3) → s1.m_bytes i j k = exampleSwitch.m_bytes i j k) ∧
      ∀ env : DequeueEnv,
        (SwitchNotifyDequeue exampleMmu coarseFloatOps env s1 5 3 examplePacket).1.m_bytes 2 5 3
          = 0 :=
  C9_end_to_end exampleMmu coarseFloatOps exampleSwitch examplePacket exampleHeader 0
    (fun _ _ _ => rfl) rfl rfl rfl rfl (by decide) (by decide) (by decide) (by decide)

theorem filter_accounting_of_none (evs : List Event)
    (h : ∀ e ∈ evs, e.isAccounting = false) : evs.filter Event.isAccounting = [] := by
  rw [List.filter_eq_nil_iff]
  intro e he
  rw [h e he]
  exact Bool.false_ne_true

theorem SendToDev_admitted_accounting {σ : Type} (M : Mmu σ) (s : SwitchState σ) (p : Packet)
    (ch : CustomHeader) (residue : Nat) (idx : Int)
    (hroute : GetOutDev s p ch residue = some idx) (hidx : 0 ≤ idx)
    (hq : selectClass s.m_ackHighPrio p ch ≠ 0)
    (hin : M.CheckIngressAdmission s.m_mmu p.portId (selectClass s.m_ackHighPrio p ch) p.size
      p.priority.isSome (p.unsched.getD 0) = true)
    (heg : M.CheckEgressAdmission s.m_mmu idx.toNat (selectClass s.m_ackHighPrio p ch) p.size
      p.priority.isSome (p.unsched.getD 0) = true) :
    ∃ s1 evs, SendToDev M s p ch residue = some (s1, evs) ∧
      Event.switchSend idx.toNat (selectClass s.m_ackHighPrio p ch) p ch ∈ evs ∧
      evs.filter Event.isAccounting
        = [.updateIngress p.portId (selectClass s.m_ackHighPrio p ch) p.size
            p.priority.isSome (p.unsched.getD 0),
          .updateEgress idx.toNat (selectClass s.m_ackHighPrio p ch) p.size
            p.priority.isSome] := by
  refine ⟨_, _, SendToDev_admitted M s p ch residue idx hroute hidx hq hin heg, by simp, ?_⟩
  have hpfc := filter_accounting_of_none _
    (fun e he => (CheckAndSendPfc_events M (admittedMmu M s p ch idx.toNat) p.portId
      (selectClass s.m_ackHighPrio p ch) e he).1)
  rw [List.filter_append, List.filter_append, hpfc]
  rfl

theorem SwitchNotifyDequeue_accounting {σ : Type} (M : Mmu σ) (F : FloatOps)
    (env : DequeueEnv) (s : SwitchState σ) (ifIndex qIndex : Nat) (p : Packet)
    (hq : qIndex ≠ 0) :
    (SwitchNotifyDequeue M F env s ifIndex qIndex p).2.2.filter Event.isAccounting
      = [.removeIngress p.portId qIndex p.size p.priority.isSome,
          .removeEgress ifIndex qIndex p.size p.priority.isSome] := by
  rw [SwitchNotifyDequeue_events, dequeueAccounting_of_ne M s ifIndex qIndex p hq]
  have hmark := filter_accounting_of_none _
    (fun e he => (markCongestion_events M s.m_ecnEnabled (departedMmu M s ifIndex qIndex p)
      ifIndex qIndex p e he).1)
  have hres := filter_accounting_of_none _
    (fun e he => (CheckAndSendResume_events M (departedMmu M s ifIndex qIndex p) p.portId
      qIndex e he).1)
  simp only [List.filter_append, hmark, hres]
  rfl

/-- C10. Buffer manager calls are balanced. For a packet of class `q ≠ 0` that
`SendToDev` admits from ingress port `i` to egress port `e` with size `sz`, lossy flag
`f` and unscheduled bytes `u`: `SendToDev` returns, hands the packet to the device `e`,
and the admission updates in its log are exactly `UpdateIngressAdmission (i, q, sz, f, u)`
followed by `UpdateEgressAdmission (e, q, sz, f)`, once each; the departure
`SwitchNotifyDequeue (e, q, packet)`, in whatever state and environment it runs, makes
exactly `RemoveFromIngressAdmission (i, q, sz, f)` followed by
`RemoveFromEgressAdmission (e, q, sz, f)`, once each. For a packet of class 0 none of
the four operations is called, at arrival or at departure. -/
theorem C10_balanced_accounting {σ : Type} (M : Mmu σ) (F : FloatOps) (s : SwitchState σ)
    (p : Packet) (ch : CustomHeader) (residue : Nat) :
    (∀ idx : Int, GetOutDev s p ch residue = some idx → 0 ≤ idx →
      selectClass s.m_ackHighPrio p ch ≠ 0 →
      M.CheckIngressAdmission s.m_mmu p.portId (selectClass s.m_ackHighPrio p ch) p.size
        p.priority.isSome (p.unsched.getD 0) = true →
      M.CheckEgressAdmission s.m_mmu idx.toNat (selectClass s.m_ackHighPrio p ch) p.size
        p.priority.isSome (p.unsched.getD 0) = true →
      (∃ s1 evs, SendToDev M s p ch residue = some (s1, evs) ∧
        Event.switchSend idx.toNat (selectClass s.m_ackHighPrio p ch) p ch ∈ evs ∧
        evs.filter Event.isAccounting
          = [.updateIngress p.portId (selectClass s.m_ackHighPrio p ch) p.size
              p.priority.isSome (p.unsched.getD 0),
            .updateEgress idx.toNat (selectClass s.m_ackHighPrio p ch) p.size
              p.priority.isSome]) ∧
      ∀ (env : DequeueEnv) (sd : SwitchState σ),
        (SwitchNotifyDequeue M F env sd idx.toNat (selectClass s.m_ackHighPrio p ch)
            p).2.2.filter Event.isAccounting
          = [.removeIngress p.portId (selectClass s.m_ackHighPrio p ch) p.size
              p.priority.isSome,
            .removeEgress idx.toNat (selectClass s.m_ackHighPrio p ch) p.size
              p.priority.isSome]) ∧
    (selectClass s.m_ackHighPrio p ch = 0 →
      ∀ s1 evs, SendToDev M s p ch residue = some (s1, evs) →
        evs.filter Event.isAccounting = []) ∧
    (∀ (env : DequeueEnv) (sd : SwitchState σ) (ifIndex : Nat),
      (SwitchNotifyDequeue M F env sd ifIndex 0 p).2.2.filter Event.isAccounting = []) := by
  refine ⟨?_, ?_, ?_⟩
  · intro idx hroute hidx hq hin heg
    exact ⟨SendToDev_admitted_accounting M s p ch residue idx hroute hidx hq hin heg,
      fun env sd => SwitchNotifyDequeue_accounting M F env sd idx.toNat _ p hq⟩
  · intro hq s1 evs hrun
    cases hroute : GetOutDev s p ch residue with
    | none =>
      unfold SendToDev at hrun
      rw [hroute] at hrun
      cases hrun
    | some idx =>
      by_cases hidx : 0 ≤ idx
      · rw [SendToDev_class0 M s p ch residue idx hroute hidx hq] at hrun
        obtain ⟨-, hevs⟩ := some_pair_inj hrun
        subst hevs
        rfl
      · unfold SendToDev at hrun
        rw [hroute] at hrun
        simp only [hidx, if_false] at hrun
        obtain ⟨-, hevs⟩ := some_pair_inj hrun
        subst hevs
        rfl
  · intro env sd ifIndex
    rfl

/-- Witness of C10: the example packet is admitted by the example switch from port 2 to
port 5 on class 3. -/
theorem C10_witness :
    (∃ s1 evs, SendToDev exampleMmu exampleSwitch examplePacket exampleHeader 0
        = some (s1, evs) ∧
      Event.switchSend 5 3 examplePacket exampleHeader ∈ evs ∧
      evs.filter Event.isAccounting
        = [.updateIngress 2 3 1500 true 0, .updateEgress 5 3 1500 true]) ∧
    ∀ (env : DequeueEnv) (sd : SwitchState BufState),
      (SwitchNotifyDequeue exampleMmu coarseFloatOps env sd 5 3
          examplePacket).2.2.filter Event.isAccounting
        = [.removeIngress 2 3 1500 true, .removeEgress 5 3 1500 true] :=
  (C10_balanced_accounting exampleMmu coarseFloatOps exampleSwitch examplePacket
    exampleHeader 0).1 5 (by decide) (by decide) (by decide) (by decide) (by decide)

theorem SwitchNotifyDequeue_packet {σ : Type} (M : Mmu σ) (F : FloatOps) (env : DequeueEnv)
    (s : SwitchState σ) (ifIndex qIndex : Nat) (p : Packet) :
    (SwitchNotifyDequeue M F env s ifIndex qIndex p).2.1
      = (annotateTelemetry F (dequeueAccounting M s ifIndex qIndex p).1 env ifIndex
          (dequeueAccounting M s ifIndex qIndex p).2.1).2 := rfl

theorem markCongestion_packet {σ : Type} (M : Mmu σ) (en : Bool) (mmu : σ) (ifIndex q : Nat)
    (p : Packet) :
    (markCongestion M en mmu ifIndex q p).1
      = { p with ecn := (markCongestion M en mmu ifIndex q p).1.ecn } := by
  unfold markCongestion
  split
  · split <;> rfl
  · rfl

theorem dequeueAccounting_packet {σ : Type} (M : Mmu σ) (s : SwitchState σ)
    (ifIndex qIndex : Nat) (p : Packet) :
    (dequeueAccounting M s ifIndex qIndex p).2.1
      = { p with ecn := (dequeueAccounting M s ifIndex qIndex p).2.1.ecn } := by
  by_cases hq : qIndex = 0
  · subst hq
    rfl
  · rw [dequeueAccounting_of_ne M s ifIndex qIndex p hq]
    exact markCongestion_packet M _ _ _ _ p

theorem pfcSignals_append (port q : Nat) (a b : List Event) :
    pfcSignals port q (a ++ b) = pfcSignals port q a ++ pfcSignals port q b := by
  induction a with
  | nil => rfl
  | cons e rest ih =>
    rw [List.cons_append]
    cases e <;> simp only [pfcSignals] <;> try exact ih
    split
    · rw [ih]; rfl
    · exact ih

theorem alternatesFrom_append (m : Bool) (a b : List Bool) :
    alternatesFrom m (a ++ b) = (alternatesFrom m a && alternatesFrom (lastSignal m a) b) := by
  induction a generalizing m with
  | nil => simp [alternatesFrom, lastSignal]
  | cons x rest ih =>
    rw [List.cons_append]
    simp only [alternatesFrom, lastSignal]
    rw [ih, Bool.and_assoc]

theorem lastSignal_append (m : Bool) (a b : List Bool) :
    lastSignal m (a ++ b) = lastSignal (lastSignal m a) b := by
  induction a generalizing m with
  | nil => rfl
  | cons x rest ih =>
    rw [List.cons_append]
    simp only [lastSignal]
    exact ih x

theorem pfcSignals_of_no_pfc (port q : Nat) (evs : List Event)
    (h : ∀ e ∈ evs, e.isPfc = false) : pfcSignals port q evs = [] := by
  induction evs with
  | nil => rfl
  | cons e rest ih =>
    have hrest := ih (fun x hx => h x (List.mem_cons_of_mem _ hx))
    have he := h e (List.mem_cons_self _ _)
    cases e <;> simp only [pfcSignals, hrest]
    cases he

theorem Tracks.nil (m : Bool) : Tracks m m [] := ⟨rfl, rfl⟩

theorem Tracks.append {m0 m1 m2 : Bool} {a b : List Bool} (ha : Tracks m0 m1 a)
    (hb : Tracks m1 m2 b) : Tracks m0 m2 (a ++ b) := by
  obtain ⟨ha1, ha2⟩ := ha
  obtain ⟨hb1, hb2⟩ := hb
  subst ha2
  refine ⟨?_, ?_⟩
  · rw [alternatesFrom_append, ha1, hb1]; rfl
  · rw [lastSignal_append]; exact hb2

theorem CheckAndSendPfc_tracks {σ : Type} (M : Mmu σ) (paused : σ → Nat → Nat → Bool)
    (laws : KeepsPausedMark M paused) (mmu : σ) (inDev c port q : Nat) :
    Tracks (paused mmu port q) (paused (CheckAndSendPfc M mmu inDev c).1 port q)
      (pfcSignals port q (CheckAndSendPfc M mmu inDev c).2) := by
  unfold CheckAndSendPfc
  by_cases hc : M.CheckShouldPause mmu inDev c = true
  · rw [if_pos hc]
    by_cases hm : port = inDev ∧ q = c
    · obtain ⟨rfl, rfl⟩ := hm
      have hclear : paused mmu port q = false := by
        cases hp : paused mmu port q with
        | false => rfl
        | true => rw [laws.no_pause_when_set mmu port q hp] at hc; cases hc
      rw [hclear, laws.setPause_sets]
      simp [pfcSignals, Tracks, alternatesFrom, lastSignal]
    · rw [laws.setPause_keeps mmu inDev c port q hm]
      have hm2 : ¬ (inDev = port ∧ c = q) := fun h => hm ⟨h.1.symm, h.2.symm⟩
      simp only [pfcSignals, hm2, if_false]
      exact Tracks.nil _
  · rw [if_neg hc]
    exact Tracks.nil _

theorem CheckAndSendResume_tracks {σ : Type} (M : Mmu σ) (paused : σ → Nat → Nat → Bool)
    (laws : KeepsPausedMark M paused) (mmu : σ) (inDev c port q : Nat) :
    Tracks (paused mmu port q) (paused (CheckAndSendResume M mmu inDev c).1 port q)
      (pfcSignals port q (CheckAndSendResume M mmu inDev c).2) := by
  unfold CheckAndSendResume
  by_cases hc : M.CheckShouldResume mmu inDev c = true
  · rw [if_pos hc]
    by_cases hm : port = inDev ∧ q = c
    · obtain ⟨rfl, rfl⟩ := hm
      have hset : paused mmu port q = true := by
        cases hp : paused mmu port q with
        | true => rfl
        | false => rw [laws.no_resume_when_clear mmu port q hp] at hc; cases hc
      rw [hset, laws.setResume_clears]
      simp [pfcSignals, Tracks, alternatesFrom, lastSignal]
    · rw [laws.setResume_keeps mmu inDev c port q hm]
      have hm2 : ¬ (inDev = port ∧ c = q) := fun h => hm ⟨h.1.symm, h.2.symm⟩
      simp only [pfcSignals, hm2, if_false]
      exact Tracks.nil _
  · rw [if_neg hc]
    exact Tracks.nil _

theorem SendToDev_tracks {σ : Type} (M : Mmu σ) (paused : σ → Nat → Nat → Bool)
    (laws : KeepsPausedMark M paused) (s : SwitchState σ) (p : Packet) (ch : CustomHeader)
    (residue : Nat) (s1 : SwitchState σ) (evs : List Event)
    (hrun : SendToDev M s p ch residue = some (s1, evs)) (port q : Nat) :
    Tracks (paused s.m_mmu port q) (paused s1.m_mmu port q) (pfcSignals port q evs) := by
  cases hroute : GetOutDev s p ch residue with
  | none =>
    unfold SendToDev at hrun
    rw [hroute] at hrun
    cases hrun
  | some idx =>
    by_cases hidx : 0 ≤ idx
    · by_cases hq : selectClass s.m_ackHighPrio p ch = 0
      · rw [SendToDev_class0 M s p ch residue idx hroute hidx hq] at hrun
        obtain ⟨hs, hevs⟩ := some_pair_inj hrun
        subst hs hevs
        exact Tracks.nil _
      · cases hin : M.CheckIngressAdmission s.m_mmu p.portId
            (selectClass s.m_ackHighPrio p ch) p.size p.priority.isSome
            (p.unsched.getD 0) with
        | false =>
          rw [SendToDev_ingress_refused M s p ch residue idx hroute hidx hq hin] at hrun
          obtain ⟨hs, hevs⟩ := some_pair_inj hrun
          subst hs hevs
          exact Tracks.nil _
        | true =>
          cases heg : M.CheckEgressAdmission s.m_mmu idx.toNat
              (selectClass s.m_ackHighPrio p ch) p.size p.priority.isSome
              (p.unsched.getD 0) with
          | false =>
            rw [SendToDev_egress_refused M s p ch residue idx hroute hidx hq hin heg] at hrun
            obtain ⟨hs, hevs⟩ := some_pair_inj hrun
            subst hs hevs
            exact Tracks.nil _
          | true =>
            rw [SendToDev_admitted M s p ch residue idx hroute hidx hq hin heg] at hrun
            obtain ⟨hs, hevs⟩ := some_pair_inj hrun
            subst hs hevs
            have hpfc := CheckAndSendPfc_tracks M paused laws (admittedMmu M s p ch idx.toNat)
              p.portId (selectClass s.m_ackHighPrio p ch) port q
            have hadm : paused (admittedMmu M s p ch idx.toNat) port q = paused s.m_mmu port q := by
              unfold admittedMmu
              rw [laws.updateEgress_keeps, laws.updateIngress_keeps]
            rw [hadm] at hpfc
            rw [pfcSignals_append, pfcSignals_append]
            have h1 : pfcSignals port q [Event.switchSend idx.toNat
                (selectClass s.m_ackHighPrio p ch) p ch] = [] := rfl
            rw [h1, List.append_nil]
            exact hpfc
    · unfold SendToDev at hrun
      rw [hroute] at hrun
      simp only [hidx, if_false] at hrun
      obtain ⟨hs, hevs⟩ := some_pair_inj hrun
      subst hs hevs
      exact Tracks.nil _

theorem SwitchNotifyDequeue_tracks {σ : Type} (M : Mmu σ) (F : FloatOps)
    (paused : σ → Nat → Nat → Bool) (laws : KeepsPausedMark M paused) (env : DequeueEnv)
    (s : SwitchState σ) (ifIndex qIndex : Nat) (p : Packet) (port q : Nat) :
    Tracks (paused s.m_mmu port q)
      (paused (SwitchNotifyDequeue M F env s ifIndex qIndex p).1.m_mmu port q)
      (pfcSignals port q (SwitchNotifyDequeue M F env s ifIndex qIndex p).2.2) := by
  rw [SwitchNotifyDequeue_m_mmu, SwitchNotifyDequeue_events]
  by_cases hq : qIndex = 0
  · subst hq
    rw [dequeueAccounting_class0]
    exact Tracks.nil _
  · rw [dequeueAccounting_of_ne M s ifIndex qIndex p hq]
    have hres := CheckAndSendResume_tracks M paused laws (departedMmu M s ifIndex qIndex p)
      p.portId qIndex port q
    have hdep : paused (departedMmu M s ifIndex qIndex p) port q = paused s.m_mmu port q := by
      unfold departedMmu
      rw [laws.removeEgress_keeps, laws.removeIngress_keeps]
    rw [hdep] at hres
    have hmark : pfcSignals port q (markCongestion M s.m_ecnEnabled
        (departedMmu M s ifIndex qIndex p) ifIndex qIndex p).2 = [] :=
      pfcSignals_of_no_pfc port q _
        (fun e he => (markCongestion_events M _ _ _ _ p e he).2.2)
    rw [pfcSignals_append, pfcSignals_append, hmark, List.append_nil]
    exact hres

theorem run_tracks {σ : Type} (M : Mmu σ) (F : FloatOps) (paused : σ → Nat → Nat → Bool)
    (laws : KeepsPausedMark M paused) (port q : Nat) (calls : List Call) :
    ∀ s : SwitchState σ,
      Tracks (paused s.m_mmu port q) (paused (run M F s calls).1.m_mmu port q)
        (pfcSignals port q (run M F s calls).2) := by
  induction calls with
  | nil => intro s; exact Tracks.nil _
  | cons c rest ih =>
    intro s
    cases c with
    | arrival p ch residue =>
      cases hrun : SendToDev M s p ch residue with
      | none =>
        simp only [run, hrun]
        exact Tracks.nil _
      | some r =>
        obtain ⟨s1, evs⟩ := r
        simp only [run, hrun, pfcSignals_append]
        exact Tracks.append (SendToDev_tracks M paused laws s p ch residue s1 evs hrun port q)
          (ih s1)
    | departure env ifIndex qIndex p =>
      simp only [run, pfcSignals_append]
      exact Tracks.append
        (SwitchNotifyDequeue_tracks M F paused laws env s ifIndex qIndex p port q) (ih _)

/-- The laws of `KeepsPausedMark` contain the four stated ones. -/
theorem KeepsPausedMark.stated {σ : Type} {M : Mmu σ} {paused : σ → Nat → Nat → Bool}
    (laws : KeepsPausedMark M paused) : StatedPauseLaws M paused :=
  ⟨laws.setPause_sets, laws.setResume_clears, laws.no_pause_when_set,
    laws.no_resume_when_clear⟩

theorem forgetfulMmu_stated : StatedPauseLaws forgetfulMmu BufState.paused where
  setPause_sets := by intro m port q; simp [forgetfulMmu, thresholdMmu]
  setResume_clears := by intro m port q; simp [forgetfulMmu, thresholdMmu]
  no_pause_when_set := by intro m port q h; simp [forgetfulMmu, thresholdMmu, h]
  no_resume_when_clear := by intro m port q h; simp [forgetfulMmu, thresholdMmu, h]

/-- C7 as stated fails: the four laws alone do not make the signals alternate. The
forgetful buffer manager satisfies the four laws, the example switch starts with no mark
set, and two arrivals of the example packet on port 2, class 3, emit two pauses toward
(port 2, class 3) with no resume between them: the admission of the second packet has
cleared the mark the first pause had set. -/
theorem C7_stated_laws_do_not_suffice :
    StatedPauseLaws forgetfulMmu BufState.paused ∧
    (∀ port q, BufState.paused exampleSwitch.m_mmu port q = false) ∧
    pfcSignals 2 3 (run forgetfulMmu coarseFloatOps exampleSwitch exampleArrivals).2
      = [true, true] ∧
    alternatesFrom false
      (pfcSignals 2 3 (run forgetfulMmu coarseFloatOps exampleSwitch exampleArrivals).2)
      = false :=
  ⟨forgetfulMmu_stated, fun _ _ => rfl, by decide, by decide⟩

/-- C7, amended. Assume the buffer manager keeps a paused mark per (port, class):
`SetPause` sets it, `SetResume` clears it, `CheckShouldPause` is false whenever it is set,
`CheckShouldResume` is false whenever it is clear, and nothing else changes it (`SetPause`
and `SetResume` leave the marks of every other port and class as they were, and the four
admission updates leave every mark as it was). Then over every sequence of arrivals and
departures from a state with no mark set, and after every number `n` of its calls: the
pause and resume signals emitted so far toward any `(port, class)` strictly alternate
beginning with a pause, and the mark of `(port, class)` is set exactly when the last
signal emitted for it was a pause. -/
theorem C7_pause_resume_alternate {σ : Type} (M : Mmu σ) (F : FloatOps)
    (paused : σ → Nat → Nat → Bool) (laws : KeepsPausedMark M paused) (s : SwitchState σ)
    (hclear : ∀ port q, paused s.m_mmu port q = false) (calls : List Call) (n port q : Nat) :
    alternatesFrom false (pfcSignals port q (run M F s (calls.take n)).2) = true ∧
    paused (run M F s (calls.take n)).1.m_mmu port q
      = lastSignal false (pfcSignals port q (run M F s (calls.take n)).2) := by
  have h := run_tracks M F paused laws port q (calls.take n) s
  rw [hclear] at h
  exact h

theorem thresholdMmu_keeps (cap pauseAt resumeAt markAt : Nat) :
    KeepsPausedMark (thresholdMmu cap pauseAt resumeAt markAt) BufState.paused where
  setPause_sets := by intro m port q; simp [thresholdMmu]
  setResume_clears := by intro m port q; simp [thresholdMmu]
  no_pause_when_set := by intro m port q h; simp [thresholdMmu, h]
  no_resume_when_clear := by intro m port q h; simp [thresholdMmu, h]
  setPause_keeps := by
    intro m port q port2 q2 h
    show (if port2 = port ∧ q2 = q then true else m.paused port2 q2) = m.paused port2 q2
    rw [if_neg h]
  setResume_keeps := by
    intro m port q port2 q2 h
    show (if port2 = port ∧ q2 = q then false else m.paused port2 q2) = m.paused port2 q2
    rw [if_neg h]
  updateIngress_keeps := by intros; rfl
  updateEgress_keeps := by intros; rfl
  removeIngress_keeps := by intros; rfl
  removeEgress_keeps := by intros; rfl

/-- Witness of C7: the threshold buffer manager keeps a paused mark; on the example
switch two arrivals and their departures emit one pause and then one resume toward
(port 2, class 3). -/
theorem C7_witness :
    pfcSignals 2 3 (run exampleMmu coarseFloatOps exampleSwitch exampleCalls).2
      = [true, false] ∧
    alternatesFrom false
      (pfcSignals 2 3 (run exampleMmu coarseFloatOps exampleSwitch (exampleCalls.take 4)).2)
      = true ∧
    BufState.paused (run exampleMmu coarseFloatOps exampleSwitch (exampleCalls.take 4)).1.m_mmu
        2 3
      = lastSignal false
        (pfcSignals 2 3
          (run exampleMmu coarseFloatOps exampleSwitch (exampleCalls.take 4)).2) :=
  ⟨by decide,
    C7_pause_resume_alternate exampleMmu coarseFloatOps BufState.paused
      (thresholdMmu_keeps 4000 3000 1000 2000) exampleSwitch (fun _ _ => rfl) exampleCalls
      4 2 3⟩

/-! ## Conservation of the in-flight byte counters -/

/-- C2, evaluated on the code. On the example switch with `AckHighPrio` set, all counters
at zero, a 60-byte acknowledgment (class 0) arrives from port 2, is forwarded to port 7
and departs from port 7 on class 0: the trace is closed, and `m_bytes[2][7][0]`, zero at
the start, is 60 at the end: `SendToDev` counts the packet and `SwitchNotifyDequeue`
does not discount it. -/
theorem C2_class0_counter_is_not_restored :
    closedTrace exampleMmu coarseFloatOps exampleAckSwitch [] exampleControlCalls = true ∧
    (run exampleMmu coarseFloatOps exampleAckSwitch exampleControlCalls).2
      = [.switchSend 7 0 exampleAck exampleAckHeader] ∧
    (∀ i j k, exampleAckSwitch.m_bytes i j k = 0) ∧
    (run exampleMmu coarseFloatOps exampleAckSwitch exampleControlCalls).1.m_bytes 2 7 0 = 60 :=
  ⟨by decide, rfl, fun _ _ _ => rfl, rfl⟩

theorem heldBytes_cons (f : Flight) (flying : List Flight) (i j k : Nat) :
    heldBytes (f :: flying) i j k
      = (if f.ingress = i ∧ f.egress = j ∧ f.cls = k then (f.size : Int) else 0)
        + heldBytes flying i j k := by
  simp [heldBytes]

theorem heldBytes_nonneg (flying : List Flight) (i j k : Nat) : 0 ≤ heldBytes flying i j k := by
  induction flying with
  | nil => simp [heldBytes]
  | cons f rest ih =>
    rw [heldBytes_cons]
    split <;> omega

theorem heldBytes_erase (f : Flight) (flying : List Flight) (i j k : Nat) (h : f ∈ flying) :
    heldBytes flying i j k
      = (if f.ingress = i ∧ f.egress = j ∧ f.cls = k then (f.size : Int) else 0)
        + heldBytes (flying.erase f) i j k := by
  rw [← heldBytes_cons]
  unfold heldBytes
  exact ((List.perm_cons_erase h).map _).sum_eq

theorem forwarded_append (a b : List Event) :
    forwarded (a ++ b) = forwarded a ++ forwarded b := by
  induction a with
  | nil => rfl
  | cons e rest ih =>
    rw [List.cons_append]
    cases e <;> simp only [forwarded] <;> try exact ih
    rw [ih]; rfl

theorem forwarded_of_no_send (evs : List Event) (h : ∀ e ∈ evs, e.isSend = false) :
    forwarded evs = [] := by
  induction evs with
  | nil => rfl
  | cons e rest ih =>
    have hrest := ih (fun x hx => h x (List.mem_cons_of_mem _ hx))
    have he := h e (List.mem_cons_self _ _)
    cases e <;> simp only [forwarded, hrest]
    cases he

theorem CountersTrack_forward {σ : Type} (s : SwitchState σ) (flying : List Flight)
    (inDev out q : Nat) (p : Packet) (h : CountersTrack s flying) :
    CountersTrack (forward s inDev out q p) (⟨inDev, out, q, p.size⟩ :: flying) := by
  obtain ⟨h1, h2⟩ := h
  constructor
  · intro i j k hk
    rw [forward_m_bytes, heldBytes_cons, h1 i j k hk]
    by_cases hm : i = inDev ∧ j = out ∧ k = q
    · obtain ⟨rfl, rfl, rfl⟩ := hm
      simp
      omega
    · have hm2 : ¬ (inDev = i ∧ out = j ∧ q = k) := fun c => hm ⟨c.1.symm, c.2.1.symm, c.2.2.symm⟩
      simp [hm, hm2]
  · intro i j
    rw [forward_m_bytes]
    have := h2 i j
    split <;> omega

theorem CountersTrack_arrival {σ : Type} (M : Mmu σ) (s : SwitchState σ) (p : Packet)
    (ch : CustomHeader) (residue : Nat) (s1 : SwitchState σ) (evs : List Event)
    (flying : List Flight) (h : CountersTrack s flying)
    (hrun : SendToDev M s p ch residue = some (s1, evs)) :
    CountersTrack s1 (forwarded evs ++ flying) := by
  cases hroute : GetOutDev s p ch residue with
  | none =>
    unfold SendToDev at hrun
    rw [hroute] at hrun
    cases hrun
  | some idx =>
    by_cases hidx : 0 ≤ idx
    · by_cases hq : selectClass s.m_ackHighPrio p ch = 0
      · rw [SendToDev_class0 M s p ch residue idx hroute hidx hq] at hrun
        obtain ⟨hs, hevs⟩ := some_pair_inj hrun
        subst hs hevs
        exact CountersTrack_forward s flying _ _ _ p h
      · cases hin : M.CheckIngressAdmission s.m_mmu p.portId
            (selectClass s.m_ackHighPrio p ch) p.size p.priority.isSome
            (p.unsched.getD 0) with
        | false =>
          rw [SendToDev_ingress_refused M s p ch residue idx hroute hidx hq hin] at hrun
          obtain ⟨hs, hevs⟩ := some_pair_inj hrun
          subst hs hevs
          exact h
        | true =>
          cases heg : M.CheckEgressAdmission s.m_mmu idx.toNat
              (selectClass s.m_ackHighPrio p ch) p.size p.priority.isSome
              (p.unsched.getD 0) with
          | false =>
            rw [SendToDev_egress_refused M s p ch residue idx hroute hidx hq hin heg] at hrun
            obtain ⟨hs, hevs⟩ := some_pair_inj hrun
            subst hs hevs
            exact h
          | true =>
            rw [SendToDev_admitted M s p ch residue idx hroute hidx hq hin heg] at hrun
            obtain ⟨hs, hevs⟩ := some_pair_inj hrun
            subst hs hevs
            have hpfc := forwarded_of_no_send _
              (fun e he => (CheckAndSendPfc_events M (admittedMmu M s p ch idx.toNat) p.portId
                (selectClass s.m_ackHighPrio p ch) e he).2)
            rw [forwarded_append, forwarded_append, hpfc]
            exact CountersTrack_forward _ flying _ _ _ p h
    · unfold SendToDev at hrun
      rw [hroute] at hrun
      simp only [hidx, if_false] at hrun
      obtain ⟨hs, hevs⟩ := some_pair_inj hrun
      subst hs hevs
      exact h

theorem CountersTrack_departure {σ : Type} (M : Mmu σ) (F : FloatOps) (env : DequeueEnv)
    (s : SwitchState σ) (ifIndex qIndex : Nat) (p : Packet) (flying : List Flight)
    (h : CountersTrack s flying)
    (hf : (⟨p.portId, ifIndex, qIndex, p.size⟩ : Flight) ∈ flying) :
    CountersTrack (SwitchNotifyDequeue M F env s ifIndex qIndex p).1
      (flying.erase ⟨p.portId, ifIndex, qIndex, p.size⟩) := by
  obtain ⟨h1, h2⟩ := h
  unfold CountersTrack
  rw [SwitchNotifyDequeue_m_bytes]
  by_cases hq : qIndex = 0
  · subst hq
    rw [dequeueAccounting_class0]
    refine ⟨?_, h2⟩
    intro i j k hk
    have he := heldBytes_erase ⟨p.portId, ifIndex, 0, p.size⟩ flying i j k hf
    have hne : ¬ (p.portId = i ∧ ifIndex = j ∧ 0 = k) := fun c => hk c.2.2.symm
    simp only [hne, if_false, zero_add] at he
    rw [h1 i j k hk, he]
  · rw [dequeueAccounting_of_ne M s ifIndex qIndex p hq]
    constructor
    · intro i j k hk
      have he := heldBytes_erase ⟨p.portId, ifIndex, qIndex, p.size⟩ flying i j k hf
      show (if i = p.portId ∧ j = ifIndex ∧ k = qIndex then s.m_bytes i j k - p.size
        else s.m_bytes i j k) = _
      rw [h1 i j k hk, he]
      by_cases hm : i = p.portId ∧ j = ifIndex ∧ k = qIndex
      · obtain ⟨rfl, rfl, rfl⟩ := hm
        simp
      · have hm2 : ¬ (p.portId = i ∧ ifIndex = j ∧ qIndex = k) :=
          fun c => hm ⟨c.1.symm, c.2.1.symm, c.2.2.symm⟩
        simp [hm, hm2]
    · intro i j
      show 0 ≤ (if i = p.portId ∧ j = ifIndex ∧ 0 = qIndex then s.m_bytes i j 0 - p.size
        else s.m_bytes i j 0)
      have hm : ¬ (i = p.portId ∧ j = ifIndex ∧ 0 = qIndex) := fun c => hq c.2.2.symm
      rw [if_neg hm]
      exact h2 i j

theorem run_counters_closed {σ : Type} (M : Mmu σ) (F : FloatOps) (calls : List Call) :
    ∀ (s : SwitchState σ) (flying : List Flight), CountersTrack s flying →
      closedTrace M F s flying calls = true → CountersTrack (run M F s calls).1 [] := by
  induction calls with
  | nil =>
    intro s flying h hc
    simp only [closedTrace, List.isEmpty_iff] at hc
    subst hc
    exact h
  | cons c rest ih =>
    intro s flying h hc
    cases c with
    | arrival p ch residue =>
      cases hrun : SendToDev M s p ch residue with
      | none =>
        simp only [closedTrace, hrun, List.isEmpty_iff] at hc
        subst hc
        simp only [run, hrun]
        exact h
      | some r =>
        obtain ⟨s1, evs⟩ := r
        simp only [closedTrace, hrun] at hc
        simp only [run, hrun]
        exact ih s1 _ (CountersTrack_arrival M s p ch residue s1 evs flying h hrun) hc
    | departure env ifIndex qIndex p =>
      simp only [closedTrace, Bool.and_eq_true, decide_eq_true_eq] at hc
      simp only [run]
      exact ih _ _ (CountersTrack_departure M F env s ifIndex qIndex p flying h hc.1) hc.2

theorem run_counters_prefix {σ : Type} (M : Mmu σ) (F : FloatOps) (calls : List Call) :
    ∀ (s : SwitchState σ) (flying : List Flight), CountersTrack s flying →
      closedTrace M F s flying calls = true →
      ∀ n, ∃ flying2, CountersTrack (run M F s (calls.take n)).1 flying2 := by
  induction calls with
  | nil =>
    intro s flying h _ n
    rw [List.take_nil]
    exact ⟨flying, h⟩
  | cons c rest ih =>
    intro s flying h hc n
    cases n with
    | zero => exact ⟨flying, h⟩
    | succ n =>
      rw [List.take_succ_cons]
      cases c with
      | arrival p ch residue =>
        cases hrun : SendToDev M s p ch residue with
        | none =>
          simp only [run, hrun]
          exact ⟨flying, h⟩
        | some r =>
          obtain ⟨s1, evs⟩ := r
          simp only [closedTrace, hrun] at hc
          simp only [run, hrun]
          exact ih s1 _ (CountersTrack_arrival M s p ch residue s1 evs flying h hrun) hc n
      | departure env ifIndex qIndex p =>
        simp only [closedTrace, Bool.and_eq_true, decide_eq_true_eq] at hc
        simp only [run]
        exact ih _ _ (CountersTrack_departure M F env s ifIndex qIndex p flying h hc.1) hc.2 n

/-- Conservation on the classes other than 0. Starting with all `m_bytes` counters at
zero, over every closed trace of arrivals and departures: at the end every counter
`m_bytes[i][j][k]` with `k ≠ 0` is zero, and after every number of calls every counter,
of whatever class, is at least zero. -/
theorem counters_conserved_off_class0 {σ : Type} (M : Mmu σ) (F : FloatOps)
    (s : SwitchState σ) (calls : List Call) (hzero : ∀ i j k, s.m_bytes i j k = 0)
    (hclosed : closedTrace M F s [] calls = true) :
    (∀ i j k, k ≠ 0 → (run M F s calls).1.m_bytes i j k = 0) ∧
    ∀ n i j k, 0 ≤ (run M F s (calls.take n)).1.m_bytes i j k := by
  have hstart : CountersTrack s [] :=
    ⟨fun i j k _ => by rw [hzero]; rfl, fun i j => by rw [hzero]⟩
  constructor
  · intro i j k hk
    exact (run_counters_closed M F calls s [] hstart hclosed).1 i j k hk
  · intro n i j k
    obtain ⟨flying2, h1, h2⟩ := run_counters_prefix M F calls s [] hstart hclosed n
    by_cases hk : k = 0
    · subst hk
      exact h2 i j
    · rw [h1 i j k hk]
      exact heldBytes_nonneg _ _ _ _

/-- The example trace (two arrivals, two departures on class 3) is closed, and its
counters return to zero. -/
theorem counters_conserved_witness :
    closedTrace exampleMmu coarseFloatOps exampleSwitch [] exampleCalls = true ∧
    (run exampleMmu coarseFloatOps exampleSwitch (exampleCalls.take 2)).1.m_bytes 2 5 3 = 3000 ∧
    ∀ i j k, k ≠ 0 →
      (run exampleMmu coarseFloatOps exampleSwitch exampleCalls).1.m_bytes i j k = 0 :=
  ⟨by decide, by decide,
    (counters_conserved_off_class0 exampleMmu coarseFloatOps exampleSwitch exampleCalls
      (fun _ _ _ => rfl) (by decide)).1⟩

/-! ## Telemetry annotation -/

theorem dequeueAccounting_telemetry_fields {σ : Type} (M : Mmu σ) (s : SwitchState σ)
    (ifIndex qIndex : Nat) (p : Packet) :
    (dequeueAccounting M s ifIndex qIndex p).1.m_ccMode = s.m_ccMode ∧
    (dequeueAccounting M s ifIndex qIndex p).1.m_txBytes = s.m_txBytes ∧
    (dequeueAccounting M s ifIndex qIndex p).1.m_lastPktSize = s.m_lastPktSize ∧
    (dequeueAccounting M s ifIndex qIndex p).1.m_lastPktTs = s.m_lastPktTs ∧
    (dequeueAccounting M s ifIndex qIndex p).1.m_u = s.m_u ∧
    (dequeueAccounting M s ifIndex qIndex p).1.m_maxRtt = s.m_maxRtt ∧
    (dequeueAccounting M s ifIndex qIndex p).1.PowerEnabled = s.PowerEnabled ∧
    (dequeueAccounting M s ifIndex qIndex p).1.lying_enabled = s.lying_enabled ∧
    (dequeueAccounting M s ifIndex qIndex p).1.lying_prob = s.lying_prob ∧
    (dequeueAccounting M s ifIndex qIndex p).1.lying_mag = s.lying_mag := by
  by_cases hq : qIndex = 0
  · subst hq
    exact ⟨rfl, rfl, rfl, rfl, rfl, rfl, rfl, rfl, rfl, rfl⟩
  · rw [dequeueAccounting_of_ne M s ifIndex qIndex p hq]
    exact ⟨rfl, rfl, rfl, rfl, rfl, rfl, rfl, rfl, rfl, rfl⟩

theorem dequeueAccounting_payload {σ : Type} (M : Mmu σ) (s : SwitchState σ)
    (ifIndex qIndex : Nat) (p : Packet) :
    (dequeueAccounting M s ifIndex qIndex p).2.1.protocol = p.protocol ∧
    (dequeueAccounting M s ifIndex qIndex p).2.1.power = p.power ∧
    (dequeueAccounting M s ifIndex qIndex p).2.1.intHops = p.intHops ∧
    (dequeueAccounting M s ifIndex qIndex p).2.1.feedback = p.feedback ∧
    (dequeueAccounting M s ifIndex qIndex p).2.1.size = p.size := by
  have h := dequeueAccounting_packet M s ifIndex qIndex p
  refine ⟨?_, ?_, ?_, ?_, ?_⟩ <;> rw [h]

theorem pintNewU_congr {σ : Type} (F : FloatOps) (s t : SwitchState σ) (env : DequeueEnv)
    (ifIndex : Nat) (h1 : t.m_lastPktTs = s.m_lastPktTs) (h2 : t.m_maxRtt = s.m_maxRtt)
    (h3 : t.m_lastPktSize = s.m_lastPktSize) (h4 : t.m_u = s.m_u) :
    pintNewU F t env ifIndex = pintNewU F s env ifIndex := by
  unfold pintNewU
  rw [h1, h2, h3, h4]

theorem annotateTelemetry_scalar {σ : Type} (F : FloatOps) (s : SwitchState σ)
    (env : DequeueEnv) (ifIndex : Nat) (p : Packet) (hmode : s.m_ccMode = 10)
    (hudp : p.protocol = 0x11) :
    (annotateTelemetry F s env ifIndex p).2.power
      = max p.power (u16 (F.encode_u (pintNewU F s env ifIndex))) := by
  unfold annotateTelemetry
  have h3 : s.m_ccMode ≠ 3 := by rw [hmode]; decide
  rw [if_pos hudp, if_neg h3, if_pos hmode]
  simp only []
  by_cases hgt : u16 (F.encode_u (pintNewU F s env ifIndex)) > p.power
  · rw [if_pos hgt]
    show u16 (F.encode_u (pintNewU F s env ifIndex)) = _
    rw [Nat.max_def, if_pos (Nat.le_of_lt hgt)]
  · rw [if_neg hgt, Nat.max_def]
    by_cases heq : p.power ≤ u16 (F.encode_u (pintNewU F s env ifIndex))
    · rw [if_pos heq]; omega
    · rw [if_neg heq]

theorem SwitchNotifyDequeue_scalar {σ : Type} (M : Mmu σ) (F : FloatOps) (env : DequeueEnv)
    (s : SwitchState σ) (ifIndex qIndex : Nat) (p : Packet) (hmode : s.m_ccMode = 10)
    (hudp : p.protocol = 0x11) :
    (SwitchNotifyDequeue M F env s ifIndex qIndex p).2.1.power
      = max p.power (u16 (F.encode_u (pintNewU F s env ifIndex))) := by
  have hf := dequeueAccounting_telemetry_fields M s ifIndex qIndex p
  have hp := dequeueAccounting_payload M s ifIndex qIndex p
  rw [SwitchNotifyDequeue_packet,
    annotateTelemetry_scalar F _ env ifIndex _ (by rw [hf.1]; exact hmode)
      (by rw [hp.1]; exact hudp),
    hp.2.1, pintNewU_congr F s _ env ifIndex hf.2.2.2.1 hf.2.2.2.2.2.1 hf.2.2.1 hf.2.2.2.2.1]

theorem afterHops_append {σ : Type} (M : Mmu σ) (F : FloatOps) (a b : List (Hop σ))
    (p : Packet) : afterHops M F (a ++ b) p = afterHops M F b (afterHops M F a p) := by
  induction a generalizing p with
  | nil => rfl
  | cons h rest ih =>
    rw [List.cons_append]
    simp only [afterHops]
    exact ih _

theorem afterHops_protocol {σ : Type} (M : Mmu σ) (F : FloatOps) (hops : List (Hop σ))
    (p : Packet) : (afterHops M F hops p).protocol = p.protocol := by
  induction hops generalizing p with
  | nil => rfl
  | cons h rest ih =>
    simp only [afterHops]
    rw [ih, SwitchNotifyDequeue_packet,
      (annotateTelemetry_packet F _ h.env h.ifIndex _).2.2.2.2.1,
      (dequeueAccounting_payload M h.switch h.ifIndex h.qIndex p).1]

/-- C11. Scalar-utilisation mode (`CcMode` 10, UDP packet). For every packet, whatever
value `v` its power field holds, after `SwitchNotifyDequeue` the field equals
`max (v, power)`, where `power` is the `uint16_t` that receives `encode_u (newU)` for
the newly computed estimate `newU` (it is `encode_u (newU)` itself whenever that is below
`2 ^ 16`); hence the field after the hop is never less than before it, and along any
sequence of hops in this mode the field after hop `k + 1` is never less than after hop
`k`. -/
theorem C11_power_is_running_max {σ : Type} (M : Mmu σ) (F : FloatOps) (p : Packet)
    (hudp : p.protocol = 0x11) :
    (∀ (env : DequeueEnv) (s : SwitchState σ) (ifIndex qIndex : Nat), s.m_ccMode = 10 →
      (SwitchNotifyDequeue M F env s ifIndex qIndex p).2.1.power
          = max p.power (u16 (F.encode_u (pintNewU F s env ifIndex))) ∧
      (F.encode_u (pintNewU F s env ifIndex) < 65536 →
        (SwitchNotifyDequeue M F env s ifIndex qIndex p).2.1.power
          = max p.power (F.encode_u (pintNewU F s env ifIndex))) ∧
      p.power ≤ (SwitchNotifyDequeue M F env s ifIndex qIndex p).2.1.power) ∧
    (∀ (hops : List (Hop σ)) (next : Hop σ), next.switch.m_ccMode = 10 →
      (afterHops M F hops p).power ≤ (afterHops M F (hops ++ [next]) p).power) := by
  constructor
  · intro env s ifIndex qIndex hmode
    have h := SwitchNotifyDequeue_scalar M F env s ifIndex qIndex p hmode hudp
    refine ⟨h, ?_, ?_⟩
    · intro hlt
      rw [h]
      have : u16 (F.encode_u (pintNewU F s env ifIndex)) = F.encode_u (pintNewU F s env ifIndex) :=
        Nat.mod_eq_of_lt hlt
      rw [this]
    · rw [h]
      exact Nat.le_max_left _ _
  · intro hops next hmode
    rw [afterHops_append]
    simp only [afterHops]
    rw [SwitchNotifyDequeue_scalar M F next.env next.switch next.ifIndex next.qIndex _ hmode
      (by rw [afterHops_protocol]; exact hudp)]
    exact Nat.le_max_left _ _

theorem truncToInt_half (n : Nat) : truncToInt ((n : ℚ) * (1 - 1 / 2)) = ((n / 2 : Nat) : Int) := by
  have hx : (n : ℚ) * (1 - 1 / 2) = ((n : Int) : ℚ) / ((2 : Nat) : ℚ) := by push_cast; ring
  have hnn : (0 : ℚ) ≤ (n : ℚ) * (1 - 1 / 2) := by
    have : (0 : ℚ) ≤ (n : ℚ) := Nat.cast_nonneg n
    nlinarith
  unfold truncToInt
  rw [if_pos hnn, hx, Rat.floor_intCast_div_natCast]
  norm_cast

theorem reportedQlen_half {σ : Type} (s : SwitchState σ) (env : DequeueEnv)
    (hlie : s.lying_enabled = true) (hprob : s.lying_prob = 1) (hmag : s.lying_mag = 1 / 2)
    (hdraw : env.uniform ≤ 1) : reportedQlen s env = u32 env.queueBytes / 2 := by
  unfold reportedQlen
  have hc : s.lying_enabled = true ∧ env.uniform ≤ s.lying_prob := ⟨hlie, by rw [hprob]; exact hdraw⟩
  rw [if_pos hc, hmag, truncToInt_half, Int.toNat_ofNat]
  have hlt := u32_lt env.queueBytes
  unfold u32 at *
  omega

theorem annotateTelemetry_hop_report {σ : Type} (F : FloatOps) (s : SwitchState σ)
    (env : DequeueEnv) (ifIndex : Nat) (p : Packet) (hmode : s.m_ccMode = 3)
    (hudp : p.protocol = 0x11) :
    (annotateTelemetry F s env ifIndex p).2.intHops
      = p.intHops ++ [⟨env.nowTimeStep,
          if !s.PowerEnabled then s.m_txBytes ifIndex else env.queueRxBytes,
          reportedQlen s env, env.bitRate⟩] := by
  unfold annotateTelemetry
  rw [if_pos hudp, if_pos hmode]

theorem reportedQlen_congr {σ : Type} (s t : SwitchState σ) (env : DequeueEnv)
    (h1 : t.lying_enabled = s.lying_enabled) (h2 : t.lying_prob = s.lying_prob)
    (h3 : t.lying_mag = s.lying_mag) : reportedQlen t env = reportedQlen s env := by
  unfold reportedQlen
  rw [h1, h2, h3]

theorem SwitchNotifyDequeue_hop_report {σ : Type} (M : Mmu σ) (F : FloatOps)
    (env : DequeueEnv) (s : SwitchState σ) (ifIndex qIndex : Nat) (p : Packet)
    (hmode : s.m_ccMode = 3) (hudp : p.protocol = 0x11) :
    (SwitchNotifyDequeue M F env s ifIndex qIndex p).2.1.intHops
      = p.intHops ++ [⟨env.nowTimeStep,
          if !s.PowerEnabled then s.m_txBytes ifIndex else env.queueRxBytes,
          reportedQlen s env, env.bitRate⟩] := by
  have hf := dequeueAccounting_telemetry_fields M s ifIndex qIndex p
  have hp := dequeueAccounting_payload M s ifIndex qIndex p
  rw [SwitchNotifyDequeue_packet,
    annotateTelemetry_hop_report F _ env ifIndex _ (by rw [hf.1]; exact hmode)
      (by rw [hp.1]; exact hudp),
    hp.2.2.1, hf.2.1, hf.2.2.2.2.2.2.1,
    reportedQlen_congr s _ env hf.2.2.2.2.2.2.2.1 hf.2.2.2.2.2.2.2.2.1 hf.2.2.2.2.2.2.2.2.2]

/-- C12 as stated fails for an odd occupancy. On the example switch in hop-report mode
with adversarial telemetry (probability 1, magnitude 1/2), with three bytes queued, the
hop entry appended to the example UDP packet reports an occupancy of 1, and twice 1 is
not 3. -/
theorem C12_odd_occupancy_is_not_halved :
    exampleLyingSwitch.m_ccMode = 3 ∧ exampleLyingSwitch.lying_enabled = true ∧
    exampleLyingSwitch.lying_prob = 1 ∧ exampleLyingSwitch.lying_mag = 1 / 2 ∧
    u32 exampleOddEnv.queueBytes = 3 ∧
    ((SwitchNotifyDequeue exampleMmu coarseFloatOps exampleOddEnv exampleLyingSwitch 5 3
        examplePacket).2.1.intHops.map IntHop.qlen) = [1] ∧
    2 * 1 ≠ 3 := by
  refine ⟨rfl, rfl, rfl, rfl, rfl, ?_, by decide⟩
  rw [SwitchNotifyDequeue_hop_report exampleMmu coarseFloatOps exampleOddEnv exampleLyingSwitch
    5 3 examplePacket rfl rfl]
  have h := reportedQlen_half exampleLyingSwitch exampleOddEnv rfl rfl rfl
    (by show (0 : ℚ) ≤ 1; norm_num)
  simp only [List.map_append, List.map_cons, List.map_nil, h]
  rfl

/-- C12, amended. Hop-report mode (`CcMode` 3, UDP packet) with adversarial telemetry
enabled, probability 1 and magnitude 1/2: for every queue occupancy `q` (a 32-bit byte
count) and every value the random source draws (at most 1), `SwitchNotifyDequeue` appends
one hop entry whose occupancy is `q / 2` rounded down: twice the reported occupancy is
`q` when `q` is even and `q - 1` when `q` is odd. -/
theorem C12_reported_occupancy_amended {σ : Type} (M : Mmu σ) (F : FloatOps)
    (env : DequeueEnv) (s : SwitchState σ) (ifIndex qIndex : Nat) (p : Packet)
    (hmode : s.m_ccMode = 3) (hudp : p.protocol = 0x11) (hlie : s.lying_enabled = true)
    (hprob : s.lying_prob = 1) (hmag : s.lying_mag = 1 / 2) (hdraw : env.uniform ≤ 1) :
    ∃ hop : IntHop,
      (SwitchNotifyDequeue M F env s ifIndex qIndex p).2.1.intHops = p.intHops ++ [hop] ∧
      hop.qlen = u32 env.queueBytes / 2 ∧
      (u32 env.queueBytes % 2 = 0 → 2 * hop.qlen = u32 env.queueBytes) ∧
      (u32 env.queueBytes % 2 = 1 → 2 * hop.qlen + 1 = u32 env.queueBytes) := by
  refine ⟨_, SwitchNotifyDequeue_hop_report M F env s ifIndex qIndex p hmode hudp, ?_, ?_, ?_⟩
  · exact reportedQlen_half s env hlie hprob hmag hdraw
  · intro h
    show 2 * reportedQlen s env = _
    rw [reportedQlen_half s env hlie hprob hmag hdraw]
    omega
  · intro h
    show 2 * reportedQlen s env + 1 = _
    rw [reportedQlen_half s env hlie hprob hmag hdraw]
    omega

/-- Witness of C12, amended: the example switch in hop-report mode with three bytes
queued. -/
theorem C12_witness :
    ∃ hop : IntHop,
      (SwitchNotifyDequeue exampleMmu coarseFloatOps exampleOddEnv exampleLyingSwitch 5 3
        examplePacket).2.1.intHops = examplePacket.intHops ++ [hop] ∧
      hop.qlen = u32 exampleOddEnv.queueBytes / 2 ∧
      (u32 exampleOddEnv.queueBytes % 2 = 0 → 2 * hop.qlen = u32 exampleOddEnv.queueBytes) ∧
      (u32 exampleOddEnv.queueBytes % 2 = 1 →
        2 * hop.qlen + 1 = u32 exampleOddEnv.queueBytes) :=
  C12_reported_occupancy_amended exampleMmu coarseFloatOps exampleOddEnv exampleLyingSwitch 5 3
    examplePacket rfl rfl rfl rfl rfl (by show (0 : ℚ) ≤ 1; norm_num)

theorem SendToDev_hands_over_the_packet {σ : Type} (M : Mmu σ) (s : SwitchState σ)
    (p : Packet) (ch : CustomHeader) (residue : Nat) (s1 : SwitchState σ) (evs : List Event)
    (hrun : SendToDev M s p ch residue = some (s1, evs)) :
    ∀ (dev q : Nat) (p2 : Packet) (ch2 : CustomHeader),
      Event.switchSend dev q p2 ch2 ∈ evs → p2 = p ∧ ch2 = ch := by
  intro dev q p2 ch2 he
  obtain ⟨idx, -, hcase⟩ := SendToDev_cases M s p ch residue s1 evs hrun
  rcases hcase with ⟨-, -, hevs⟩ | ⟨-, -, -, hevs⟩ | ⟨-, -, -, hno⟩ | ⟨-, -, -, hevs⟩
  · subst hevs
    simp at he
  · subst hevs
    simp only [List.mem_singleton, Event.switchSend.injEq] at he
    exact ⟨he.2.2.1, he.2.2.2⟩
  · have := (hno _ he).2.2
    cases this
  · subst hevs
    simp only [List.mem_append, List.mem_cons, List.mem_singleton, List.not_mem_nil,
      or_false, Event.switchSend.injEq, reduceCtorEq, false_or] at he
    rcases he with he | he
    · have := (CheckAndSendPfc_events M _ _ _ _ he).2
      cases this
    · exact ⟨he.2.2.1, he.2.2.2⟩

theorem annotateTelemetry_feedback {σ : Type} (F : FloatOps) (s : SwitchState σ)
    (env : DequeueEnv) (ifIndex : Nat) (p : Packet) :
    (p.protocol ≠ 0x11 → ∀ tag, p.feedback = some tag →
      (annotateTelemetry F s env ifIndex p).2.feedback = some (tag.record s env ifIndex)) ∧
    (p.feedback = none → (annotateTelemetry F s env ifIndex p).2.feedback = none) := by
  constructor
  · intro hudp tag htag
    unfold annotateTelemetry
    rw [if_neg hudp]
    simp only [htag]
  · intro hnone
    unfold annotateTelemetry
    split
    · split
      · exact hnone
      · split
        · simp only []
          split <;> exact hnone
        · exact hnone
    · simp only [hnone]

/-- C14. Sequence-feedback mode. For every departing packet that is not UDP and carries
a feedback record with hop index `h`, `SwitchNotifyDequeue` writes the queue occupancy,
the current time (nanoseconds), the link bit rate and the transmitted-byte counter of
the port at index `h`, leaves every other entry as it was and leaves the record with hop
index `h + 1`; a packet without a feedback record is left without one; and `SendToDev`
hands over the packet exactly as it arrived, so the arrival changes neither the hop
index nor any entry. -/
theorem C14_feedback_record {σ : Type} (M : Mmu σ) (F : FloatOps) (s : SwitchState σ)
    (p : Packet) :
    (p.protocol ≠ 0x11 → ∀ tag, p.feedback = some tag →
      ∀ (env : DequeueEnv) (ifIndex qIndex : Nat),
      ∃ tag2, (SwitchNotifyDequeue M F env s ifIndex qIndex p).2.1.feedback = some tag2 ∧
        tag2.hopCount = tag.hopCount + 1 ∧
        tag2.telemetryQlenDeq tag.hopCount = u32 env.queueBytes ∧
        tag2.telemetryTsDeq tag.hopCount = env.nowNanoSeconds ∧
        tag2.telemetryBw tag.hopCount = env.bitRate ∧
        tag2.telemetryTxBytes tag.hopCount = s.m_txBytes ifIndex ∧
        ∀ i, i ≠ tag.hopCount →
          tag2.telemetryQlenDeq i = tag.telemetryQlenDeq i ∧
          tag2.telemetryTsDeq i = tag.telemetryTsDeq i ∧
          tag2.telemetryBw i = tag.telemetryBw i ∧
          tag2.telemetryTxBytes i = tag.telemetryTxBytes i) ∧
    (p.feedback = none → ∀ (env : DequeueEnv) (ifIndex qIndex : Nat),
      (SwitchNotifyDequeue M F env s ifIndex qIndex p).2.1.feedback = none) ∧
    (∀ (ch : CustomHeader) (residue : Nat) (s1 : SwitchState σ) (evs : List Event),
      SendToDev M s p ch residue = some (s1, evs) →
      ∀ (dev q : Nat) (p2 : Packet) (ch2 : CustomHeader),
        Event.switchSend dev q p2 ch2 ∈ evs → p2 = p ∧ p2.feedback = p.feedback) := by
  refine ⟨?_, ?_, ?_⟩
  · intro hudp tag htag env ifIndex qIndex
    have hp := dequeueAccounting_payload M s ifIndex qIndex p
    have hf := dequeueAccounting_telemetry_fields M s ifIndex qIndex p
    have h := (annotateTelemetry_feedback F (dequeueAccounting M s ifIndex qIndex p).1 env
      ifIndex (dequeueAccounting M s ifIndex qIndex p).2.1).1
      (by rw [hp.1]; exact hudp) tag (by rw [hp.2.2.2.1]; exact htag)
    refine ⟨_, h, rfl, ?_, ?_, ?_, ?_, ?_⟩
    · simp [FeedbackTag.record]
    · simp [FeedbackTag.record]
    · simp [FeedbackTag.record]
    · simp [FeedbackTag.record, hf.2.1]
    · intro i hi
      simp [FeedbackTag.record, hi]
  · intro hnone env ifIndex qIndex
    have hp := dequeueAccounting_payload M s ifIndex qIndex p
    exact (annotateTelemetry_feedback F (dequeueAccounting M s ifIndex qIndex p).1 env
      ifIndex (dequeueAccounting M s ifIndex qIndex p).2.1).2 (by rw [hp.2.2.2.1]; exact hnone)
  · intro ch residue s1 evs hrun dev q p2 ch2 he
    have h := (SendToDev_hands_over_the_packet M s p ch residue s1 evs hrun dev q p2 ch2 he).1
    exact ⟨h, by rw [h]⟩

/-- Witness of C14: the example TCP segment, which carries a feedback record with hop
index 0, leaves the example switch with hop index 1 and the clock written at index 0. -/
theorem C14_witness :
    ∃ tag2, (SwitchNotifyDequeue exampleMmu coarseFloatOps exampleEnv exampleSwitch 5 1
        exampleTcp).2.1.feedback = some tag2 ∧
      tag2.hopCount = 1 ∧ tag2.telemetryTsDeq 0 = 1000 := by
  obtain ⟨tag2, h1, h2, -, h4, -⟩ :=
    (C14_feedback_record exampleMmu coarseFloatOps exampleSwitch exampleTcp).1 (by decide) _ rfl
      exampleEnv 5 1
  exact ⟨tag2, h1, h2, h4⟩

theorem annotateTelemetry_port_state {σ : Type} (F : FloatOps) (s : SwitchState σ)
    (env : DequeueEnv) (ifIndex : Nat) (p : Packet) :
    (annotateTelemetry F s env ifIndex p).1.m_txBytes = s.m_txBytes ∧
    (annotateTelemetry F s env ifIndex p).1.m_lastPktSize = s.m_lastPktSize ∧
    (annotateTelemetry F s env ifIndex p).1.m_lastPktTs = s.m_lastPktTs ∧
    ∀ j, j ≠ ifIndex → (annotateTelemetry F s env ifIndex p).1.m_u j = s.m_u j := by
  unfold annotateTelemetry
  split
  · split
    · exact ⟨rfl, rfl, rfl, fun _ _ => rfl⟩
    · split
      · refine ⟨rfl, rfl, rfl, ?_⟩
        intro j hj
        show (if j = ifIndex then _ else s.m_u j) = s.m_u j
        rw [if_neg hj]
      · exact ⟨rfl, rfl, rfl, fun _ _ => rfl⟩
  · split <;> exact ⟨rfl, rfl, rfl, fun _ _ => rfl⟩

theorem SwitchNotifyDequeue_port_state {σ : Type} (M : Mmu σ) (F : FloatOps)
    (env : DequeueEnv) (s : SwitchState σ) (ifIndex qIndex : Nat) (p : Packet) :
    (SwitchNotifyDequeue M F env s ifIndex qIndex p).1.m_lastPktSize ifIndex = p.size ∧
    (SwitchNotifyDequeue M F env s ifIndex qIndex p).1.m_lastPktTs ifIndex = env.nowTimeStep ∧
    (SwitchNotifyDequeue M F env s ifIndex qIndex p).1.m_txBytes ifIndex
      = s.m_txBytes ifIndex + p.size ∧
    ∀ j, j ≠ ifIndex →
      (SwitchNotifyDequeue M F env s ifIndex qIndex p).1.m_lastPktSize j = s.m_lastPktSize j ∧
      (SwitchNotifyDequeue M F env s ifIndex qIndex p).1.m_lastPktTs j = s.m_lastPktTs j ∧
      (SwitchNotifyDequeue M F env s ifIndex qIndex p).1.m_txBytes j = s.m_txBytes j ∧
      (SwitchNotifyDequeue M F env s ifIndex qIndex p).1.m_u j = s.m_u j := by
  have hf := dequeueAccounting_telemetry_fields M s ifIndex qIndex p
  have hp := dequeueAccounting_payload M s ifIndex qIndex p
  have ha := annotateTelemetry_port_state F (dequeueAccounting M s ifIndex qIndex p).1 env
    ifIndex (dequeueAccounting M s ifIndex qIndex p).2.1
  have hsz := (annotateTelemetry_packet F (dequeueAccounting M s ifIndex qIndex p).1 env
    ifIndex (dequeueAccounting M s ifIndex qIndex p).2.1).1
  unfold SwitchNotifyDequeue noteTransmission
  simp only [if_true]
  refine ⟨?_, trivial, ?_, ?_⟩
  · rw [hsz, hp.2.2.2.2]
  · rw [hsz, hp.2.2.2.2, ha.1, hf.2.1]
  · intro j hj
    simp only [if_neg hj]
    refine ⟨?_, ?_, ?_, ?_⟩
    · rw [ha.2.1, hf.2.2.1]
    · rw [ha.2.2.1, hf.2.2.2.1]
    · rw [ha.1, hf.2.1]
    · rw [ha.2.2.2 j hj, hf.2.2.2.2.1]

theorem AddTableEntry_same {σ : Type} (s : SwitchState σ) (d port : Nat) :
    (AddTableEntry s d port).m_rtTable (u32 d)
      = some ((s.m_rtTable (u32 d)).getD [] ++ [toInt32 port]) := by
  unfold AddTableEntry
  simp

theorem AddTableEntry_other {σ : Type} (s : SwitchState σ) (d port d2 : Nat)
    (h : d2 ≠ u32 d) : (AddTableEntry s d port).m_rtTable d2 = s.m_rtTable d2 := by
  unfold AddTableEntry
  simp [h]

theorem GetOutDev_after_clear_add {σ : Type} (s : SwitchState σ) (d port : Nat) (p : Packet)
    (ch : CustomHeader) (residue : Nat) (hd : u32 p.dst = u32 d) :
    GetOutDev (AddTableEntry (ClearTable s) d port) p ch residue = some (toInt32 port) := by
  have hg : (AddTableEntry (ClearTable s) d port).m_rtTable (u32 p.dst)
      = some [toInt32 port] := by
    rw [hd, AddTableEntry_same]
    rfl
  rw [GetOutDev_of_group _ p ch residue [toInt32 port] hg (Nat.succ_pos 0)]
  simp

/-- C15. Route-table mutators. For every switch, destination `d` and port `port`:
`AddTableEntry (d, port)` makes the group of `d` equal to its previous group (empty if
`d` had none) with `port` appended at the end (as the `int` the table holds, which is
`port` itself below `2 ^ 31`), so earlier members keep their places and duplicates are
allowed, and leaves the group of every other destination unchanged; `ClearTable` leaves
the table with no group at all, so every lookup after it returns -1, until a route is
added again, after which the lookup of that destination returns the added port. -/
theorem C15_table_mutators {σ : Type} (s : SwitchState σ) (d port : Nat) :
    (AddTableEntry s d port).m_rtTable (u32 d)
      = some ((s.m_rtTable (u32 d)).getD [] ++ [toInt32 port]) ∧
    (port < 2147483648 →
      (AddTableEntry s d port).m_rtTable (u32 d)
        = some ((s.m_rtTable (u32 d)).getD [] ++ [(port : Int)])) ∧
    (∀ d2, d2 ≠ u32 d → (AddTableEntry s d port).m_rtTable d2 = s.m_rtTable d2) ∧
    (∀ d2, (ClearTable s).m_rtTable d2 = none) ∧
    (∀ (p : Packet) (ch : CustomHeader) (residue : Nat),
      GetOutDev (ClearTable s) p ch residue = some (-1)) ∧
    (∀ (p : Packet) (ch : CustomHeader) (residue : Nat), u32 p.dst = u32 d →
      GetOutDev (AddTableEntry (ClearTable s) d port) p ch residue = some (toInt32 port)) := by
  refine ⟨AddTableEntry_same s d port, ?_, ?_, fun _ => rfl, ?_, ?_⟩
  · intro hlt
    rw [AddTableEntry_same, toInt32_of_lt port hlt]
  · intro d2 h
    exact AddTableEntry_other s d port d2 h
  · intro p ch residue
    exact GetOutDev_of_miss (ClearTable s) p ch residue rfl
  · intro p ch residue hd
    exact GetOutDev_after_clear_add s d port p ch residue hd

/-- Witness of C15: adding port 9 to the group `[5, 7]` of the example switch gives
`[5, 7, 9]`. -/
theorem C15_witness :
    (AddTableEntry exampleSwitch exampleDst 9).m_rtTable (u32 exampleDst) = some [5, 7, 9] :=
  (C15_table_mutators exampleSwitch exampleDst 9).2.1 (by decide)

theorem selectClass_control (ackHighPrio : Nat) (p : Packet) (ch : CustomHeader)
    (h : ch.l3Prot = 0xFF ∨ ch.l3Prot = 0xFE) : selectClass ackHighPrio p ch = 0 := by
  unfold selectClass
  rw [if_pos]
  rcases h with h | h
  · exact Or.inl h
  · exact Or.inr (Or.inl h)

theorem selectClass_ack_high (ackHighPrio : Nat) (p : Packet) (ch : CustomHeader)
    (h : ch.l3Prot = 0xFD ∨ ch.l3Prot = 0xFC) (ha : ackHighPrio ≠ 0) :
    selectClass ackHighPrio p ch = 0 := by
  unfold selectClass
  rw [if_pos (Or.inr (Or.inr ⟨ha, h⟩))]

theorem selectClass_ordinary (ackHighPrio : Nat) (p : Packet) (ch : CustomHeader)
    (hctl : ¬ (ch.l3Prot = 0xFF ∨ ch.l3Prot = 0xFE ∨
      (ackHighPrio ≠ 0 ∧ (ch.l3Prot = 0xFD ∨ ch.l3Prot = 0xFC)))) :
    (∀ t, p.priority = some t → selectClass ackHighPrio p ch = t) ∧
    (p.priority = none → ch.l3Prot = 0x06 → selectClass ackHighPrio p ch = 1) ∧
    (p.priority = none → ch.l3Prot ≠ 0x06 → selectClass ackHighPrio p ch = ch.udpPg) := by
  unfold selectClass
  rw [if_neg hctl]
  refine ⟨?_, ?_, ?_⟩
  · intro t ht; rw [ht]
  · intro hn h6; rw [hn]; simp only []; rw [if_pos h6]
  · intro hn h6; rw [hn]; simp only []; rw [if_neg h6]

theorem selectClass_depends_on (a a2 : Nat) (p p2 : Packet) (ch ch2 : CustomHeader)
    (hprot : ch.l3Prot = ch2.l3Prot) (hack : a ≠ 0 ↔ a2 ≠ 0) (htag : p.priority = p2.priority)
    (hpg : ch.udpPg = ch2.udpPg) : selectClass a p ch = selectClass a2 p2 ch2 := by
  unfold selectClass
  rw [hprot, htag, hpg]
  by_cases ha : a = 0
  · have ha2 : a2 = 0 := by
      by_contra hne
      exact (hack.2 hne) ha
    rw [ha, ha2]
  · have ha2 : a2 ≠ 0 := hack.1 ha
    simp only [ha, ha2, ne_eq, not_false_eq_true, true_and]

/-- C18. Class selection in `SendToDev` is a function of the protocol, the `AckHighPrio`
flag, the priority tag and `udp.pg` alone. The class is 0 for protocol 0xFF or 0xFE
always, and for 0xFD or 0xFC when `AckHighPrio` is set, also when the packet carries a
priority tag; in every other case (0xFD and 0xFC with `AckHighPrio` clear included) it is
the priority of the tag when there is one, else 1 for TCP (0x06) and `udp.pg` for
everything else. A packet whose class is 0 and whose route resolves to a port is
forwarded to that port: `SendToDev` returns, and all it does is the hand-over on class 0,
so no admission check is made and no pause signal is sent. -/
theorem C18_class_selection {σ : Type} (M : Mmu σ) (s : SwitchState σ) (p : Packet)
    (ch : CustomHeader) (residue : Nat) (ackHighPrio : Nat) :
    (∀ (a2 : Nat) (p2 : Packet) (ch2 : CustomHeader), ch.l3Prot = ch2.l3Prot →
      (ackHighPrio ≠ 0 ↔ a2 ≠ 0) → p.priority = p2.priority → ch.udpPg = ch2.udpPg →
      selectClass ackHighPrio p ch = selectClass a2 p2 ch2) ∧
    (ch.l3Prot = 0xFF ∨ ch.l3Prot = 0xFE → selectClass ackHighPrio p ch = 0) ∧
    (ch.l3Prot = 0xFD ∨ ch.l3Prot = 0xFC → ackHighPrio ≠ 0 →
      selectClass ackHighPrio p ch = 0) ∧
    (¬ (ch.l3Prot = 0xFF ∨ ch.l3Prot = 0xFE ∨
        (ackHighPrio ≠ 0 ∧ (ch.l3Prot = 0xFD ∨ ch.l3Prot = 0xFC))) →
      (∀ t, p.priority = some t → selectClass ackHighPrio p ch = t) ∧
      (p.priority = none → ch.l3Prot = 0x06 → selectClass ackHighPrio p ch = 1) ∧
      (p.priority = none → ch.l3Prot ≠ 0x06 → selectClass ackHighPrio p ch = ch.udpPg)) ∧
    (ch.l3Prot = 0xFD ∨ ch.l3Prot = 0xFC → ackHighPrio = 0 →
      (∀ t, p.priority = some t → selectClass ackHighPrio p ch = t) ∧
      (p.priority = none → selectClass ackHighPrio p ch = ch.udpPg)) ∧
    (∀ idx : Int, GetOutDev s p ch residue = some idx → 0 ≤ idx →
      selectClass s.m_ackHighPrio p ch = 0 →
      SendToDev M s p ch residue
        = some (forward s p.portId idx.toNat 0 p, [.switchSend idx.toNat 0 p ch])) := by
  refine ⟨?_, selectClass_control ackHighPrio p ch, selectClass_ack_high ackHighPrio p ch,
    selectClass_ordinary ackHighPrio p ch, ?_, ?_⟩
  · intro a2 p2 ch2 h1 h2 h3 h4
    exact selectClass_depends_on ackHighPrio a2 p p2 ch ch2 h1 h2 h3 h4
  · intro hprot ha
    have hctl : ¬ (ch.l3Prot = 0xFF ∨ ch.l3Prot = 0xFE ∨
        (ackHighPrio ≠ 0 ∧ (ch.l3Prot = 0xFD ∨ ch.l3Prot = 0xFC))) := by
      rintro (h | h | ⟨h, -⟩)
      · rcases hprot with h2 | h2 <;> rw [h2] at h <;> cases h
      · rcases hprot with h2 | h2 <;> rw [h2] at h <;> cases h
      · exact h ha
    have h6 : ch.l3Prot ≠ 0x06 := by
      rcases hprot with h2 | h2 <;> rw [h2] <;> decide
    have h := selectClass_ordinary ackHighPrio p ch hctl
    exact ⟨h.1, fun hn => h.2.2 hn h6⟩
  · intro idx hroute hidx hq
    exact SendToDev_class0 M s p ch residue idx hroute hidx hq

/-- Witness of C18: with `AckHighPrio` set the example acknowledgment has class 0 and is
handed over to port 7 without any check. -/
theorem C18_witness :
    selectClass exampleAckSwitch.m_ackHighPrio exampleAck exampleAckHeader = 0 ∧
    SendToDev exampleMmu exampleAckSwitch exampleAck exampleAckHeader 0
      = some (forward exampleAckSwitch 2 7 0 exampleAck,
          [.switchSend 7 0 exampleAck exampleAckHeader]) :=
  ⟨(C18_class_selection exampleMmu exampleAckSwitch exampleAck exampleAckHeader 0
      exampleAckSwitch.m_ackHighPrio).2.2.1 (Or.inr rfl) (by decide),
    (C18_class_selection exampleMmu exampleAckSwitch exampleAck exampleAckHeader 0 1).2.2.2.2.2
      7 (by decide) (by decide) (by decide)⟩

/-- Every group of the table has a member. -/
theorem groups_nonempty_after_ops {σ : Type} (ops : List TableOp) :
    ∀ s : SwitchState σ, (∀ d g, s.m_rtTable d = some g → g ≠ []) →
      ∀ d g, (applyTableOps s ops).m_rtTable d = some g → g ≠ [] := by
  induction ops with
  | nil => intro s h; exact h
  | cons op rest ih =>
    intro s h
    cases op with
    | add dstAddr intf_idx =>
      apply ih
      intro d g hg
      by_cases hd : d = u32 dstAddr
      · subst hd
        rw [AddTableEntry_same] at hg
        have := Option.some.inj hg
        rw [← this]
        simp
      · rw [AddTableEntry_other s dstAddr intf_idx d hd] at hg
        exact h d g hg
    | clear =>
      apply ih
      intro d g hg
      cases hg

theorem GetOutDev_member {σ : Type} (s : SwitchState σ) (p : Packet) (ch : CustomHeader)
    (residue : Nat) (g : List Int) (hg : s.m_rtTable (u32 p.dst) = some g) (hne : g ≠ []) :
    g.length ≠ 0 ∧
    EcmpHash (flowKeyBytes p ch residue) 12 s.m_ecmpSeed % g.length < g.length ∧
    ∃ e ∈ g, GetOutDev s p ch residue = some e := by
  have hpos : 0 < g.length := List.length_pos.mpr hne
  refine ⟨by omega, Nat.mod_lt _ hpos, ?_⟩
  exact ⟨_, List.get_mem g _ _, GetOutDev_of_group s p ch residue g hg hpos⟩

/-- C19. In every routing-table state reached from an empty table by any sequence of
`AddTableEntry` and `ClearTable` calls, every group stored in the table has a member;
hence in `GetOutDev` the modulus `nexthops.size ()` is never zero and the call is always
defined, the selected index is within the bounds of the group, and the returned port is a
member of the group of the destination. -/
theorem C19_reachable_groups_nonempty {σ : Type} (s0 : SwitchState σ)
    (hempty : ∀ d, s0.m_rtTable d = none) (ops : List TableOp) :
    (∀ d g, (applyTableOps s0 ops).m_rtTable d = some g → g ≠ []) ∧
    (∀ (p : Packet) (ch : CustomHeader) (residue : Nat),
      GetOutDev (applyTableOps s0 ops) p ch residue ≠ none ∧
      ∀ g, (applyTableOps s0 ops).m_rtTable (u32 p.dst) = some g →
        g.length ≠ 0 ∧
        EcmpHash (flowKeyBytes p ch residue) 12 (applyTableOps s0 ops).m_ecmpSeed % g.length
          < g.length ∧
        ∃ e ∈ g, GetOutDev (applyTableOps s0 ops) p ch residue = some e) := by
  have hne := groups_nonempty_after_ops ops s0 (fun d g hg => by rw [hempty d] at hg; cases hg)
  refine ⟨hne, ?_⟩
  intro p ch residue
  constructor
  · cases hg : (applyTableOps s0 ops).m_rtTable (u32 p.dst) with
    | none =>
      rw [GetOutDev_of_miss _ p ch residue hg]
      exact Option.some_ne_none _
    | some g =>
      obtain ⟨-, -, e, -, he⟩ := GetOutDev_member _ p ch residue g hg (hne _ g hg)
      rw [he]
      exact Option.some_ne_none _
  · intro g hg
    exact GetOutDev_member _ p ch residue g hg (hne _ g hg)

/-- Witness of C19: the example switch is a new switch after two `AddTableEntry` calls,
and the group of `exampleDst` has its two members. -/
theorem C19_witness :
    exampleSwitch
      = applyTableOps (SwitchState.fresh 7 BufState.empty)
          [.add exampleDst 5, .add exampleDst 7] ∧
    ∀ d g, (applyTableOps (SwitchState.fresh 7 BufState.empty)
        [.add exampleDst 5, .add exampleDst 7]).m_rtTable d = some g → g ≠ [] :=
  ⟨rfl, (C19_reachable_groups_nonempty (SwitchState.fresh 7 BufState.empty) (fun _ => rfl)
    [.add exampleDst 5, .add exampleDst 7]).1⟩

/-! ## The logarithm approximation -/

theorem log2apprxArg_eq (F : FloatOps) (x m r : Nat)
    (hmsb : truncToInt (F.log2 ((x : Int) : ℚ)) + 1 = ((Nat.log2 x + 1 : Nat) : Int)) :
    log2apprxArg F (x : Int) (m : Int) r
      = if m < Nat.log2 x + 1 then
          (if x % 2 ^ (Nat.log2 x + 1 - m) > r % 2 ^ (Nat.log2 x + 1 - m) then
            ((x / 2 ^ (Nat.log2 x + 1 - m) * 2 ^ (Nat.log2 x + 1 - m)
              + 2 ^ (Nat.log2 x + 1 - m) : Nat) : Int)
          else ((x / 2 ^ (Nat.log2 x + 1 - m) * 2 ^ (Nat.log2 x + 1 - m) : Nat) : Int))
        else (x : Int) := by
  unfold log2apprxArg
  simp only [hmsb]
  by_cases hm : m < Nat.log2 x + 1
  · have h1 : ((Nat.log2 x + 1 : Nat) : Int) > (m : Int) := by exact_mod_cast hm
    rw [if_pos h1, if_pos hm]
    have hsh : (((Nat.log2 x + 1 : Nat) : Int) - (m : Int)).toNat = Nat.log2 x + 1 - m := by
      omega
    rw [hsh]
    unfold andMask
    rw [Int.shiftRight_eq_div_pow]
    have e1 : (x : Int) % 2 ^ (Nat.log2 x + 1 - m) = ((x % 2 ^ (Nat.log2 x + 1 - m) : Nat) : Int) := by
      push_cast; rfl
    have e2 : (r : Int) % 2 ^ (Nat.log2 x + 1 - m) = ((r % 2 ^ (Nat.log2 x + 1 - m) : Nat) : Int) := by
      push_cast; rfl
    rw [e1, e2]
    by_cases hc : x % 2 ^ (Nat.log2 x + 1 - m) > r % 2 ^ (Nat.log2 x + 1 - m)
    · have hc2 : ((x % 2 ^ (Nat.log2 x + 1 - m) : Nat) : Int) > ((r % 2 ^ (Nat.log2 x + 1 - m) : Nat) : Int) := by
        exact_mod_cast hc
      rw [if_pos hc2, if_pos hc]
      push_cast
      rfl
    · have hc2 : ¬ ((x % 2 ^ (Nat.log2 x + 1 - m) : Nat) : Int) > ((r % 2 ^ (Nat.log2 x + 1 - m) : Nat) : Int) := by
        intro h; exact hc (by exact_mod_cast h)
      rw [if_neg hc2, if_neg hc]
      push_cast
      rfl
  · have h1 : ¬ ((Nat.log2 x + 1 : Nat) : Int) > (m : Int) := by
      intro h; exact hm (by exact_mod_cast h)
    rw [if_neg h1, if_neg hm]

theorem filter_lt_range (N c : Nat) (hc : c ≤ N) :
    (Finset.range N).filter (fun i => c > i) = Finset.range c := by
  ext i
  simp only [Finset.mem_filter, Finset.mem_range]
  omega

theorem sum_rounded (N c : Nat) (lo : Int) (hc : c ≤ N) :
    (∑ i ∈ Finset.range N, if c > i % N then lo + (N : Int) else lo)
      = (N : Int) * lo + (N : Int) * c := by
  have h1 : (∑ i ∈ Finset.range N, if c > i % N then lo + (N : Int) else lo)
      = ∑ i ∈ Finset.range N, (lo + if c > i then (N : Int) else 0) := by
    apply Finset.sum_congr rfl
    intro i hi
    rw [Nat.mod_eq_of_lt (Finset.mem_range.mp hi)]
    split <;> simp
  rw [h1, Finset.sum_add_distrib, Finset.sum_const, Finset.card_range, Finset.sum_ite,
    Finset.sum_const, Finset.sum_const_zero, filter_lt_range N c hc, Finset.card_range]
  simp
  ring

theorem card_rounded_up (N c : Nat) (lo : Int) (hN : 0 < N) (hc : c ≤ N) :
    ((Finset.range N).filter
      (fun i => (if c > i % N then lo + (N : Int) else lo) = lo + (N : Int))).card = c := by
  have h1 : (Finset.range N).filter
      (fun i => (if c > i % N then lo + (N : Int) else lo) = lo + (N : Int))
      = (Finset.range N).filter (fun i => c > i) := by
    apply Finset.filter_congr
    intro i hi
    rw [Nat.mod_eq_of_lt (Finset.mem_range.mp hi)]
    constructor
    · intro h
      by_contra hn
      rw [if_neg hn] at h
      have : (N : Int) = 0 := by linarith
      omega
    · intro h
      rw [if_pos h]
  rw [h1, filter_lt_range N c hc, Finset.card_range]

theorem log2apprxArg_as_ite (F : FloatOps) (x m k : Nat)
    (hmsb : truncToInt (F.log2 ((x : Int) : ℚ)) + 1 = ((Nat.log2 x + 1 : Nat) : Int))
    (hm : m < Nat.log2 x + 1) (hk : k = Nat.log2 x + 1 - m) (r : Nat) :
    log2apprxArg F (x : Int) (m : Int) r
      = if x % 2 ^ k > r % 2 ^ k then ((x / 2 ^ k * 2 ^ k : Nat) : Int) + ((2 ^ k : Nat) : Int)
        else ((x / 2 ^ k * 2 ^ k : Nat) : Int) := by
  subst hk
  rw [log2apprxArg_eq F x m r hmsb, if_pos hm]
  split
  · push_cast; rfl
  · rfl

/-- C16. Stochastic rounding in `log2apprx`. Let `1 ≤ x < 2 ^ 30`, let `n` be the bit
length of `x` as line 408 computes it, `k = n - m` and `lo` the value of `x` with its low
`k` bits cleared. When `n` exceeds `m`: the call draws from `rand ()`, and for the draw
`r` the value whose logarithm is taken is `lo + 2 ^ k` when `x mod 2 ^ k > r mod 2 ^ k`
and `lo` otherwise; exactly `x mod 2 ^ k` of the `2 ^ k` residues of `r` round up, the
rounded values summed over all residues give `2 ^ k * x` (their average is `x`), `x` is
never rounded up when its low `k` bits are zero, and the rounded value stays below
`2 ^ 31`. When `n ≤ m` the value is `x` unchanged and no draw is made. -/
theorem C16_stochastic_rounding (F : FloatOps) (x m k r : Nat) (hx1 : 1 ≤ x)
    (hx2 : x < 2 ^ 30)
    (hmsb : truncToInt (F.log2 ((x : Int) : ℚ)) + 1 = ((Nat.log2 x + 1 : Nat) : Int))
    (hk : k = Nat.log2 x + 1 - m) :
    (m < Nat.log2 x + 1 →
      log2apprxDraws F (x : Int) (m : Int) = true ∧
      log2apprxArg F (x : Int) (m : Int) r
        = (if x % 2 ^ k > r % 2 ^ k then ((x / 2 ^ k * 2 ^ k : Nat) : Int) + ((2 ^ k : Nat) : Int)
          else ((x / 2 ^ k * 2 ^ k : Nat) : Int)) ∧
      ((Finset.range (2 ^ k)).filter (fun i => log2apprxArg F (x : Int) (m : Int) i
          = ((x / 2 ^ k * 2 ^ k : Nat) : Int) + ((2 ^ k : Nat) : Int))).card = x % 2 ^ k ∧
      (∑ i ∈ Finset.range (2 ^ k), log2apprxArg F (x : Int) (m : Int) i)
        = ((2 ^ k : Nat) : Int) * (x : Int) ∧
      (x % 2 ^ k = 0 → ∀ i, log2apprxArg F (x : Int) (m : Int) i = (x : Int)) ∧
      log2apprxArg F (x : Int) (m : Int) r < 2 ^ 31) ∧
    (Nat.log2 x + 1 ≤ m →
      log2apprxArg F (x : Int) (m : Int) r = (x : Int) ∧
      log2apprxDraws F (x : Int) (m : Int) = false) := by
  have hpos : 0 < 2 ^ k := Nat.two_pow_pos k
  have hmodlt : x % 2 ^ k < 2 ^ k := Nat.mod_lt _ hpos
  have hsplit : x / 2 ^ k * 2 ^ k + x % 2 ^ k = x := by
    rw [Nat.mul_comm]; exact Nat.div_add_mod x (2 ^ k)
  constructor
  · intro hm
    have hite := log2apprxArg_as_ite F x m k hmsb hm hk
    refine ⟨?_, hite r, ?_, ?_, ?_, ?_⟩
    · unfold log2apprxDraws
      rw [hmsb]
      have : ((Nat.log2 x + 1 : Nat) : Int) > (m : Int) := by exact_mod_cast hm
      exact decide_eq_true this
    · have hc := card_rounded_up (2 ^ k) (x % 2 ^ k) ((x / 2 ^ k * 2 ^ k : Nat) : Int) hpos
        (Nat.le_of_lt hmodlt)
      rw [← hc]
      congr 1
      apply Finset.filter_congr
      intro i _
      rw [hite i]
    · have hs := sum_rounded (2 ^ k) (x % 2 ^ k) ((x / 2 ^ k * 2 ^ k : Nat) : Int)
        (Nat.le_of_lt hmodlt)
      have hcongr : (∑ i ∈ Finset.range (2 ^ k), log2apprxArg F (x : Int) (m : Int) i)
          = ∑ i ∈ Finset.range (2 ^ k),
              if x % 2 ^ k > i % 2 ^ k then ((x / 2 ^ k * 2 ^ k : Nat) : Int) + ((2 ^ k : Nat) : Int)
              else ((x / 2 ^ k * 2 ^ k : Nat) : Int) := by
        apply Finset.sum_congr rfl
        intro i _
        rw [hite i]
      rw [hcongr, hs, ← mul_add]
      congr 1
      exact_mod_cast hsplit
    · intro hz i
      rw [hite i, hz]
      have : ¬ (0 > i % 2 ^ k) := by omega
      rw [if_neg this]
      have : x / 2 ^ k * 2 ^ k = x := by omega
      rw [this]
    · rw [hite r]
      have hkle : k ≤ Nat.log2 x + 1 := by omega
      have hlog : Nat.log2 x < 30 := (Nat.log2_lt (by omega)).mpr hx2
      have hpow : 2 ^ k ≤ 2 ^ 30 := Nat.pow_le_pow_right (by decide) (by omega)
      have hlo : x / 2 ^ k * 2 ^ k ≤ x := by omega
      split
      · have : ((x / 2 ^ k * 2 ^ k : Nat) : Int) + ((2 ^ k : Nat) : Int)
            = ((x / 2 ^ k * 2 ^ k + 2 ^ k : Nat) : Int) := by push_cast; rfl
        rw [this]
        have : x / 2 ^ k * 2 ^ k + 2 ^ k < 2 ^ 31 := by omega
        exact_mod_cast this
      · have : x / 2 ^ k * 2 ^ k < 2 ^ 31 := by omega
        exact_mod_cast this
  · intro hm
    have hnm : ¬ m < Nat.log2 x + 1 := by omega
    refine ⟨by rw [log2apprxArg_eq F x m r hmsb, if_neg hnm], ?_⟩
    unfold log2apprxDraws
    rw [hmsb]
    have : ¬ ((Nat.log2 x + 1 : Nat) : Int) > (m : Int) := by
      intro h; exact hnm (by exact_mod_cast h)
    exact decide_eq_false this

theorem coarse_log2_floor (x : Nat) :
    truncToInt (coarseFloatOps.log2 ((x : Int) : ℚ)) + 1 = ((Nat.log2 x + 1 : Nat) : Int) := by
  have h1 : coarseFloatOps.log2 ((x : Int) : ℚ) = ((Nat.log2 x : Nat) : ℚ) := by
    show ((Nat.log2 ⌊((x : Int) : ℚ)⌋.toNat : Nat) : ℚ) = _
    rw [Int.floor_intCast, Int.toNat_ofNat]
  rw [h1]
  unfold truncToInt
  rw [if_pos (Nat.cast_nonneg _), Int.floor_natCast]
  push_cast
  rfl

/-- Line 408 computes the bit length of `x` whenever `log2` lies in the unit interval
that starts at the integer logarithm, as the logarithm to base 2 does. -/
theorem msb_of_log2_bounds (F : FloatOps) (x : Nat)
    (hlo : ((Nat.log2 x : Nat) : ℚ) ≤ F.log2 ((x : Int) : ℚ))
    (hhi : F.log2 ((x : Int) : ℚ) < ((Nat.log2 x : Nat) : ℚ) + 1) :
    truncToInt (F.log2 ((x : Int) : ℚ)) + 1 = ((Nat.log2 x + 1 : Nat) : Int) := by
  have h0 : (0 : ℚ) ≤ F.log2 ((x : Int) : ℚ) := le_trans (Nat.cast_nonneg _) hlo
  unfold truncToInt
  rw [if_pos h0]
  have hfl : ⌊F.log2 ((x : Int) : ℚ)⌋ = ((Nat.log2 x : Nat) : Int) := by
    rw [Int.floor_eq_iff]
    constructor
    · exact_mod_cast hlo
    · exact_mod_cast hhi
  rw [hfl]
  push_cast
  rfl

/-- Witness of C16: `x = 100005` has 17 bits; with 14 mantissa bits the low three bits
are discarded and they hold 5. The call draws; the draw 2 rounds up to 100008 and the
draw 6 rounds down to 100000; five of the eight residues round up, and the eight rounded
values sum to eight times 100005. -/
theorem C16_witness :
    log2apprxDraws coarseFloatOps ((100005 : Nat) : Int) ((14 : Nat) : Int) = true ∧
    log2apprxArg coarseFloatOps ((100005 : Nat) : Int) ((14 : Nat) : Int) 2 = 100008 ∧
    log2apprxArg coarseFloatOps ((100005 : Nat) : Int) ((14 : Nat) : Int) 6 = 100000 ∧
    ((Finset.range (2 ^ 3)).filter
      (fun i => log2apprxArg coarseFloatOps ((100005 : Nat) : Int) ((14 : Nat) : Int) i
        = ((100005 / 2 ^ 3 * 2 ^ 3 : Nat) : Int) + ((2 ^ 3 : Nat) : Int))).card = 5 ∧
    (∑ i ∈ Finset.range (2 ^ 3),
      log2apprxArg coarseFloatOps ((100005 : Nat) : Int) ((14 : Nat) : Int) i)
        = ((2 ^ 3 : Nat) : Int) * ((100005 : Nat) : Int) := by
  have hlog : Nat.log2 100005 = 16 := by
    have h1 : 16 ≤ Nat.log2 100005 := (Nat.le_log2 (by decide)).mpr (by decide)
    have h2 : Nat.log2 100005 < 17 := (Nat.log2_lt (by decide)).mpr (by decide)
    omega
  have hup := (C16_stochastic_rounding coarseFloatOps 100005 14 3 2 (by decide) (by decide)
    (coarse_log2_floor 100005) (by rw [hlog])).1 (by rw [hlog]; decide)
  have hdown := (C16_stochastic_rounding coarseFloatOps 100005 14 3 6 (by decide) (by decide)
    (coarse_log2_floor 100005) (by rw [hlog])).1 (by rw [hlog]; decide)
  exact ⟨hup.1, hup.2.1.trans (by decide), hdown.2.1.trans (by decide),
    hup.2.2.1.trans (by decide), hup.2.2.2.1⟩

/-- The estimate of lines 305-352 written with the calls of `log2apprx` in full: their
first arguments are the entries of `pintLogArgs`, under the same tests. -/
theorem pintNewU_calls {σ : Type} (F : FloatOps) (s : SwitchState σ) (env : DequeueEnv)
    (ifIndex : Nat) :
    pintNewU F s env ifIndex
      = (if u32 env.queueBytes >>> 8 > 0 then
            F.pow 2 ((log2apprx F (toInt32 (pintDt s env ifIndex)) 20 16 20 (env.rand 0)
              + log2apprx F (toInt32 (u32 env.queueBytes >>> 8)) 20 16 20 (env.rand 1)
              + F.log2 1000000000 * 2 ^ (logres_shift 20 20).toNat
              - F.log2 (env.bitRate / 8 : Nat) * 2 ^ (logres_shift 20 20).toNat
              - 2 * (F.log2 s.m_maxRtt * 2 ^ (logres_shift 20 20).toNat))
              / 2 ^ (logres_shift 20 20).toNat) * 256
          else 0)
        + (if s.m_lastPktSize ifIndex > 0 then
            F.pow 2 ((log2apprx F (toInt32 (s.m_lastPktSize ifIndex)) 20 16 20 (env.rand 2)
              + F.log2 1000000000 * 2 ^ (logres_shift 20 20).toNat
              - F.log2 (env.bitRate / 8 : Nat) * 2 ^ (logres_shift 20 20).toNat
              - F.log2 s.m_maxRtt * 2 ^ (logres_shift 20 20).toNat)
              / 2 ^ (logres_shift 20 20).toNat)
          else 0)
        + (if s.m_maxRtt > pintDt s env ifIndex ∧ s.m_u ifIndex > 0 then
            F.pow 2 ((log2apprx F (toInt32 (s.m_maxRtt - pintDt s env ifIndex)) 20 16 20
                (env.rand 3)
              + log2apprx F (roundHalfAway (s.m_u ifIndex * 8192)) 20 16 20 (env.rand 4)
              - F.log2 s.m_maxRtt * 2 ^ (logres_shift 20 20).toNat)
              / 2 ^ (logres_shift 20 20).toNat) / 8192
          else 0) := rfl

theorem pintLogArgs_head {σ : Type} (s : SwitchState σ) (env : DequeueEnv) (ifIndex : Nat)
    (hq : u32 env.queueBytes >>> 8 > 0) :
    (pintLogArgs s env ifIndex).head? = some (toInt32 (pintDt s env ifIndex)) := by
  unfold pintLogArgs
  rw [if_pos hq]
  rfl

/-- C20, evaluated on the code. In scalar-utilisation mode, on the new example switch
(last timestamp 0) a departure at time step 0 with 256 bytes queued passes `dt = 0` to
`log2apprx` (the arguments are 0 and 1); and after a departure from port 5 at time step
1000 (a reachable state: last timestamp 1000), a second departure from port 5 at the same
time step with 256 bytes queued passes `dt = 0` again. The current time is not earlier
than the last timestamp in either case. -/
theorem C20_log2apprx_receives_zero :
    exampleScalarSwitch.m_ccMode = 10 ∧
    exampleScalarSwitch.m_lastPktTs 5 ≤ exampleStartEnv.nowTimeStep ∧
    pintLogArgs exampleScalarSwitch exampleStartEnv 5 = [0, 1] ∧
    (SwitchNotifyDequeue exampleMmu coarseFloatOps exampleEnv exampleScalarSwitch 5 3
      examplePacket).1.m_lastPktTs 5 = 1000 ∧
    exampleBusyEnv.nowTimeStep = 1000 ∧
    (pintLogArgs (SwitchNotifyDequeue exampleMmu coarseFloatOps exampleEnv exampleScalarSwitch
      5 3 examplePacket).1 exampleBusyEnv 5).head? = some 0 := by
  refine ⟨rfl, by decide, ?_, rfl, rfl, ?_⟩
  · have h3 : ¬ (exampleScalarSwitch.m_maxRtt > pintDt exampleScalarSwitch exampleStartEnv 5 ∧
        exampleScalarSwitch.m_u 5 > 0) := by
      rintro ⟨-, h⟩
      exact lt_irrefl (0 : ℚ) h
    unfold pintLogArgs
    rw [if_neg h3]
    decide
  · rw [pintLogArgs_head _ _ _ (by decide)]
    decide

/-- The arguments of `log2apprx` that the code guards are at least 1: `qlen >> 8` under
the test of line 325, the last packet size under the test of line 334 and `m_maxRtt - dt`
under the test of line 343, for sizes and round-trip bounds below `2 ^ 31`. -/
theorem guarded_log_arguments_positive {σ : Type} (s : SwitchState σ) (env : DequeueEnv)
    (ifIndex : Nat) (hsize : s.m_lastPktSize ifIndex < 2147483648)
    (hrtt : s.m_maxRtt < 2147483648) :
    (u32 env.queueBytes >>> 8 > 0 → 1 ≤ toInt32 (u32 env.queueBytes >>> 8)) ∧
    (s.m_lastPktSize ifIndex > 0 → 1 ≤ toInt32 (s.m_lastPktSize ifIndex)) ∧
    (s.m_maxRtt > pintDt s env ifIndex → 1 ≤ toInt32 (s.m_maxRtt - pintDt s env ifIndex)) := by
  refine ⟨?_, ?_, ?_⟩
  · intro h
    have hlt : u32 env.queueBytes >>> 8 < 2147483648 := by
      have := u32_lt env.queueBytes
      rw [Nat.shiftRight_eq_div_pow]
      omega
    rw [toInt32_of_lt _ hlt]
    omega
  · intro h
    rw [toInt32_of_lt _ hsize]
    omega
  · intro h
    rw [toInt32_of_lt _ (by omega)]
    omega

/-- On the example switch after a departure, with 256 bytes queued, the guarded
arguments are positive. -/
theorem guarded_log_arguments_witness :
    1 ≤ toInt32 (u32 exampleBusyEnv.queueBytes >>> 8) :=
  (guarded_log_arguments_positive exampleScalarSwitch exampleBusyEnv 5 (by decide)
    (by decide)).1 (by decide)


/-! ## The scalar mode evaluated -/

theorem log2_of_bounds (x n : Nat) (hx : x ≠ 0) (h1 : 2 ^ n ≤ x) (h2 : x < 2 ^ (n + 1)) :
    Nat.log2 x = n := by
  have a : n ≤ Nat.log2 x := (Nat.le_log2 hx).mpr h1
  have b : Nat.log2 x < n + 1 := (Nat.log2_lt hx).mpr h2
  omega

theorem coarse_log2_natCast (x : Nat) : coarseFloatOps.log2 (x : ℚ) = ((Nat.log2 x : Nat) : ℚ) := by
  show ((Nat.log2 ⌊(x : ℚ)⌋.toNat : Nat) : ℚ) = _
  rw [Int.floor_natCast, Int.toNat_ofNat]

theorem coarse_log2_intCast (x : Nat) :
    coarseFloatOps.log2 (((x : Nat) : Int) : ℚ) = ((Nat.log2 x : Nat) : ℚ) := by
  show ((Nat.log2 ⌊((x : Int) : ℚ)⌋.toNat : Nat) : ℚ) = _
  rw [Int.floor_intCast, Int.toNat_ofNat]

/-- With the coarse logarithm, `log2apprx (x, 20, 16, 20)` of a value of at most 16 bits
is its integer logarithm times `2 ^ 15`, whatever the draw. -/
theorem log2apprx_coarse_small (x n r : Nat) (hx : x < 2147483648) (hn : Nat.log2 x = n)
    (hsmall : n + 1 ≤ 16) :
    log2apprx coarseFloatOps (toInt32 x) 20 16 20 r = ((n * 32768 : Nat) : Int) := by
  have harg : log2apprxArg coarseFloatOps ((x : Nat) : Int) ((16 : Nat) : Int) r = (x : Int) := by
    rw [log2apprxArg_eq coarseFloatOps x 16 r (coarse_log2_floor x), if_neg (by omega)]
  have hs : (logres_shift 20 20).toNat = 15 := by decide
  unfold log2apprx
  rw [toInt32_of_lt x hx, hs]
  have harg2 : log2apprxArg coarseFloatOps ((x : Nat) : Int) 16 r = (x : Int) := harg
  rw [harg2, coarse_log2_intCast, hn]
  have e : ((n : Nat) : ℚ) * 2 ^ 15 = ((n * 32768 : Nat) : ℚ) := by push_cast; norm_num
  rw [e]
  unfold truncToInt
  rw [if_pos (Nat.cast_nonneg _), Int.floor_natCast]

/-- The estimate on a 1 Gb/s port with an empty queue, a last packet of 1500 bytes sent
at least `m_maxRtt = 9000` time steps ago: only the byte term is left, and the coarse
logarithms give `2 ^ (10 + 29 - 26 - 13) = 1`. -/
theorem pintNewU_coarse_gig {σ : Type} (s : SwitchState σ) (env : DequeueEnv) (ifIndex : Nat)
    (hq : ¬ (u32 env.queueBytes >>> 8 > 0)) (hsize : s.m_lastPktSize ifIndex = 1500)
    (hrtt : s.m_maxRtt = 9000) (hdt : pintDt s env ifIndex = 9000)
    (hrate : env.bitRate = 1000000000) :
    pintNewU coarseFloatOps s env ifIndex = 1 := by
  rw [pintNewU_calls, if_neg hq, hsize, if_pos (by decide), hdt, hrtt,
    if_neg (by rintro ⟨h, -⟩; exact absurd h (by decide)), hrate]
  have l1 : Nat.log2 1500 = 10 := log2_of_bounds 1500 10 (by decide) (by decide) (by decide)
  have l2 : Nat.log2 1000000000 = 29 :=
    log2_of_bounds 1000000000 29 (by decide) (by decide) (by decide)
  have l3 : Nat.log2 125000000 = 26 :=
    log2_of_bounds 125000000 26 (by decide) (by decide) (by decide)
  have l4 : Nat.log2 9000 = 13 := log2_of_bounds 9000 13 (by decide) (by decide) (by decide)
  have hs : (logres_shift 20 20).toNat = 15 := by decide
  have c1 : coarseFloatOps.log2 1000000000 = 29 := by
    have := coarse_log2_natCast 1000000000
    rw [l2] at this
    exact_mod_cast this
  have c2 : coarseFloatOps.log2 ((1000000000 / 8 : Nat) : ℚ) = 26 := by
    have e : (1000000000 / 8 : Nat) = 125000000 := by decide
    rw [e, coarse_log2_natCast, l3]
    norm_num
  have c3 : coarseFloatOps.log2 ((9000 : Nat) : ℚ) = 13 := by
    rw [coarse_log2_natCast, l4]
    norm_num
  rw [log2apprx_coarse_small 1500 10 _ (by decide) l1 (by decide), hs, c1, c2, c3]
  show (0 : ℚ) + (2 : ℚ) ^ ⌊_⌋.toNat + 0 = 1
  have e : ((((10 * 32768 : Nat) : Int) : ℚ) + 29 * 2 ^ 15 - 26 * 2 ^ 15 - 13 * 2 ^ 15) / 2 ^ 15
      = ((0 : Int) : ℚ) := by
    push_cast
    norm_num
  rw [e, Int.floor_intCast]
  norm_num

theorem coarse_encode_one : coarseFloatOps.encode_u 1 = 8192 := by
  show ⌊(1 : ℚ) * 8192⌋.toNat = 8192
  have e : (1 : ℚ) * 8192 = ((8192 : Int) : ℚ) := by norm_num
  rw [e, Int.floor_intCast]
  rfl

theorem SwitchNotifyDequeue_config {σ : Type} (M : Mmu σ) (F : FloatOps) (env : DequeueEnv)
    (s : SwitchState σ) (ifIndex qIndex : Nat) (p : Packet) :
    (SwitchNotifyDequeue M F env s ifIndex qIndex p).1.m_ccMode = s.m_ccMode ∧
    (SwitchNotifyDequeue M F env s ifIndex qIndex p).1.m_maxRtt = s.m_maxRtt := by
  have hf := dequeueAccounting_telemetry_fields M s ifIndex qIndex p
  have ha : ∀ (t : SwitchState σ) (q : Packet),
      (annotateTelemetry F t env ifIndex q).1.m_ccMode = t.m_ccMode ∧
      (annotateTelemetry F t env ifIndex q).1.m_maxRtt = t.m_maxRtt := by
    intro t q
    unfold annotateTelemetry
    split
    · split
      · exact ⟨rfl, rfl⟩
      · split <;> exact ⟨rfl, rfl⟩
    · split <;> exact ⟨rfl, rfl⟩
  have h := ha (dequeueAccounting M s ifIndex qIndex p).1 (dequeueAccounting M s ifIndex qIndex p).2.1
  unfold SwitchNotifyDequeue noteTransmission
  exact ⟨h.1.trans hf.1, h.2.trans hf.2.2.2.2.2.1⟩

/-- The scalar-mode scenario evaluated: the state is in mode 10 and, when the probe
departs at time step 11000, the new estimate is 1, encoded as 8192. -/
theorem scalar_scenario_estimate (probe : Packet)
    (hmode : (run exampleMmu coarseFloatOps exampleScalarSwitch
      [.arrival examplePacket exampleHeader 0, .arrival probe exampleHeader 0]).1.m_ccMode = 10)
    (hrtt : (run exampleMmu coarseFloatOps exampleScalarSwitch
      [.arrival examplePacket exampleHeader 0, .arrival probe exampleHeader 0]).1.m_maxRtt
        = 9000) :
    (exampleScalarState probe).m_ccMode = 10 ∧
    u16 (coarseFloatOps.encode_u
      (pintNewU coarseFloatOps (exampleScalarState probe) exampleGigLaterEnv 5)) = 8192 := by
  have hc := SwitchNotifyDequeue_config exampleMmu coarseFloatOps exampleGigEnv
    (run exampleMmu coarseFloatOps exampleScalarSwitch
      [.arrival examplePacket exampleHeader 0, .arrival probe exampleHeader 0]).1 5 3
    examplePacket
  have hp := SwitchNotifyDequeue_port_state exampleMmu coarseFloatOps exampleGigEnv
    (run exampleMmu coarseFloatOps exampleScalarSwitch
      [.arrival examplePacket exampleHeader 0, .arrival probe exampleHeader 0]).1 5 3
    examplePacket
  have h1 : (exampleScalarState probe).m_maxRtt = 9000 := hc.2.trans hrtt
  have h2 : (exampleScalarState probe).m_lastPktSize 5 = 1500 := hp.1
  have h3 : (exampleScalarState probe).m_lastPktTs 5 = 1000 := hp.2.1
  have hdt : pintDt (exampleScalarState probe) exampleGigLaterEnv 5 = 9000 := by
    unfold pintDt
    rw [h1, h3]
    decide
  refine ⟨hc.1.trans hmode, ?_⟩
  rw [pintNewU_coarse_gig (exampleScalarState probe) exampleGigLaterEnv 5 (by decide) h2 h1 hdt
    rfl, coarse_encode_one]
  decide

/-- Witness of C11: scalar mode on a 1 Gb/s port. The example packet and a probe arrive,
the example packet departs at time step 1000, and the probe departs at time step 11000,
when the new estimate is 1, encoded 8192. A probe carrying 100 leaves with 8192; a probe
carrying 9000 leaves with 9000. -/
theorem C11_witness :
    exampleProbe.power = 100 ∧
    (SwitchNotifyDequeue exampleMmu coarseFloatOps exampleGigLaterEnv
      (exampleScalarState exampleProbe) 5 3 exampleProbe).2.1.power = 8192 ∧
    exampleLoudProbe.power = 9000 ∧
    (SwitchNotifyDequeue exampleMmu coarseFloatOps exampleGigLaterEnv
      (exampleScalarState exampleLoudProbe) 5 3 exampleLoudProbe).2.1.power = 9000 :=
  ⟨rfl,
   (((C11_power_is_running_max exampleMmu coarseFloatOps exampleProbe rfl).1
      exampleGigLaterEnv (exampleScalarState exampleProbe) 5 3
      (scalar_scenario_estimate exampleProbe (by decide) (by decide)).1).1).trans
    (by rw [(scalar_scenario_estimate exampleProbe (by decide) (by decide)).2]; decide),
   rfl,
   (((C11_power_is_running_max exampleMmu coarseFloatOps exampleLoudProbe rfl).1
      exampleGigLaterEnv (exampleScalarState exampleLoudProbe) 5 3
      (scalar_scenario_estimate exampleLoudProbe (by decide) (by decide)).1).1).trans
    (by rw [(scalar_scenario_estimate exampleLoudProbe (by decide) (by decide)).2]; decide)⟩


/-! ## Load spreading: the hash is a bijection in the third key word -/

theorem mul_mod_cancel_odd (c x y : Nat) (hc : Nat.gcd 4294967296 c = 1)
    (hx : x < 4294967296) (hy : y < 4294967296)
    (h : (c * x) % 2 ^ 32 = (c * y) % 2 ^ 32) : x = y := by
  have h1 : c * x ≡ c * y [MOD 4294967296] := h
  have h2 : x ≡ y [MOD 4294967296] := Nat.ModEq.cancel_left_of_coprime hc h1
  have h3 : x % 4294967296 = y % 4294967296 := h2
  rwa [Nat.mod_eq_of_lt hx, Nat.mod_eq_of_lt hy] at h3

theorem rotl32_15_inj (x y : Nat) (hx : x < 4294967296) (hy : y < 4294967296)
    (h : rotl32 x 15 = rotl32 y 15) : x = y := by
  unfold rotl32 at h
  have ex : (x * 2 ^ 15 + x / 2 ^ (32 - 15)) % 2 ^ 32 = 32768 * (x % 131072) + x / 131072 := by
    omega
  have ey : (y * 2 ^ 15 + y / 2 ^ (32 - 15)) % 2 ^ 32 = 32768 * (y % 131072) + y / 131072 := by
    omega
  rw [ex, ey] at h
  have bx : x / 131072 < 32768 := by omega
  have b_y : y / 131072 < 32768 := by omega
  have dx := Nat.div_add_mod x 131072
  have dy := Nat.div_add_mod y 131072
  have mx := Nat.mod_lt x (show 0 < 131072 by decide)
  have my := Nat.mod_lt y (show 0 < 131072 by decide)
  generalize x / 131072 = p at *
  generalize x % 131072 = q at *
  generalize y / 131072 = p2 at *
  generalize y % 131072 = q2 at *
  omega

theorem rotl32_13_inj (x y : Nat) (hx : x < 4294967296) (hy : y < 4294967296)
    (h : rotl32 x 13 = rotl32 y 13) : x = y := by
  unfold rotl32 at h
  have ex : (x * 2 ^ 13 + x / 2 ^ (32 - 13)) % 2 ^ 32 = 8192 * (x % 524288) + x / 524288 := by
    omega
  have ey : (y * 2 ^ 13 + y / 2 ^ (32 - 13)) % 2 ^ 32 = 8192 * (y % 524288) + y / 524288 := by
    omega
  rw [ex, ey] at h
  have bx : x / 524288 < 8192 := by omega
  have b_y : y / 524288 < 8192 := by omega
  have dx := Nat.div_add_mod x 524288
  have dy := Nat.div_add_mod y 524288
  have mx := Nat.mod_lt x (show 0 < 524288 by decide)
  have my := Nat.mod_lt y (show 0 < 524288 by decide)
  generalize x / 524288 = p at *
  generalize x % 524288 = q at *
  generalize y / 524288 = p2 at *
  generalize y % 524288 = q2 at *
  omega

theorem xorshift_bits (s n x y : Nat) (hs : 0 < s) (hx : x < 2 ^ n) (hy : y < 2 ^ n)
    (h : x ^^^ (x / 2 ^ s) = y ^^^ (y / 2 ^ s)) :
    ∀ d i : Nat, n ≤ i + d → x.testBit i = y.testBit i := by
  intro d
  induction d with
  | zero =>
    intro i hi
    have h1 : x < 2 ^ i := Nat.lt_of_lt_of_le hx (Nat.pow_le_pow_right (by decide) (by omega))
    have h2 : y < 2 ^ i := Nat.lt_of_lt_of_le hy (Nat.pow_le_pow_right (by decide) (by omega))
    rw [Nat.testBit_lt_two_pow h1, Nat.testBit_lt_two_pow h2]
  | succ d ih =>
    intro i hi
    have hb := congrArg (fun z => Nat.testBit z i) h
    simp only [Nat.testBit_xor, ← Nat.shiftRight_eq_div_pow, Nat.testBit_shiftRight] at hb
    have hhi := ih (s + i) (by omega)
    rw [hhi] at hb
    cases hxb : x.testBit i <;> cases hyb : y.testBit i <;> cases hzb : y.testBit (s + i)
      <;> simp_all

theorem xorshift_inj (s x y : Nat) (hs : 0 < s) (hx : x < 4294967296) (hy : y < 4294967296)
    (h : x ^^^ (x / 2 ^ s) = y ^^^ (y / 2 ^ s)) : x = y :=
  Nat.eq_of_testBit_eq (fun i =>
    xorshift_bits s 32 x y hs hx hy h 32 i (by omega))

theorem xorshift_lt (s x : Nat) (hx : x < 4294967296) : x ^^^ (x / 2 ^ s) < 4294967296 :=
  xor_lt_u32 _ _ hx (Nat.lt_of_le_of_lt (Nat.div_le_self _ _) hx)

theorem mod32_lt (x : Nat) : x % 2 ^ 32 < 4294967296 := Nat.mod_lt _ (by decide)

theorem refFinal_inj (x y : Nat) (hx : x < 4294967296) (hy : y < 4294967296)
    (h : refFinal x = refFinal y) : x = y := by
  unfold refFinal at h
  simp only at h
  have h1 := xorshift_inj 16 _ _ (by decide) (mod32_lt _) (mod32_lt _) h
  have h2 := mul_mod_cancel_odd 0xc2b2ae35 _ _ (by decide)
    (xorshift_lt 13 _ (mod32_lt _)) (xorshift_lt 13 _ (mod32_lt _)) h1
  have h3 := xorshift_inj 13 _ _ (by decide) (mod32_lt _) (mod32_lt _) h2
  have h4 := mul_mod_cancel_odd 0x85ebca6b _ _ (by decide)
    (xorshift_lt 16 _ hx) (xorshift_lt 16 _ hy) h3
  exact xorshift_inj 16 _ _ (by decide) hx hy h4

theorem refScramble_lt (k : Nat) : refScramble k < 4294967296 := by
  unfold refScramble; exact mod32_lt _

theorem refScramble_inj (x y : Nat) (hx : x < 4294967296) (hy : y < 4294967296)
    (h : refScramble x = refScramble y) : x = y := by
  unfold refScramble at h
  have h1 := mul_mod_cancel_odd 0x1b873593 _ _ (by decide) (rotl32_lt _ _) (rotl32_lt _ _) h
  have h2 := rotl32_15_inj _ _ (mod32_lt _) (mod32_lt _) h1
  exact mul_mod_cancel_odd 0xcc9e2d51 _ _ (by decide) hx hy h2

theorem refBlock_inj (g x y : Nat) (hg : g < 4294967296) (hx : x < 4294967296)
    (hy : y < 4294967296) (h : refBlock g x = refBlock g y) : x = y := by
  unfold refBlock at h
  have h1 : 0xe6546b64 + 5 * rotl32 (g ^^^ refScramble x) 13
      ≡ 0xe6546b64 + 5 * rotl32 (g ^^^ refScramble y) 13 [MOD 4294967296] := h
  have h2 := Nat.ModEq.add_left_cancel' _ h1
  have h3 : (5 * rotl32 (g ^^^ refScramble x) 13) % 2 ^ 32
      = (5 * rotl32 (g ^^^ refScramble y) 13) % 2 ^ 32 := h2
  have h4 := mul_mod_cancel_odd 5 _ _ (by decide) (rotl32_lt _ _) (rotl32_lt _ _) h3
  have h5 := rotl32_13_inj _ _ (xor_lt_u32 _ _ hg (refScramble_lt _))
    (xor_lt_u32 _ _ hg (refScramble_lt _)) h4
  have h6 := Nat.xor_right_injective h5
  exact refScramble_inj _ _ hx hy h6

theorem leWord_u32Bytes (w : Nat) : leWord (u32Bytes w) = u32 w := by
  have hw := u32_lt w
  unfold u32Bytes
  simp only [leWord]
  generalize u32 w = x at *
  omega

/-- The hash of a 12-byte key in closed form: three blocks, no tail, the length mixed in
and the final avalanche. -/
theorem EcmpHash_three_words (seed a b w : Nat) :
    EcmpHash (u32Bytes a ++ u32Bytes b ++ u32Bytes w) 12 seed
      = refFinal ((refBlock (refBlock (refBlock (seed % 2 ^ 32) (u32 a)) (u32 b)) (u32 w)
          ^^^ 12) % 2 ^ 32) := by
  have h := EcmpHash_eq_refHash (u32Bytes a ++ u32Bytes b ++ u32Bytes w) seed
  have hlen : (u32Bytes a ++ u32Bytes b ++ u32Bytes w).length = 12 := rfl
  rw [hlen] at h
  rw [h]
  unfold refHash refTail refBlocks
  rw [hlen]
  have w0 : refBlockWord (u32Bytes a ++ u32Bytes b ++ u32Bytes w) 0 = u32 a :=
    leWord_u32Bytes a
  have w1 : refBlockWord (u32Bytes a ++ u32Bytes b ++ u32Bytes w) 1 = u32 b :=
    leWord_u32Bytes b
  have w2 : refBlockWord (u32Bytes a ++ u32Bytes b ++ u32Bytes w) 2 = u32 w :=
    leWord_u32Bytes w
  have hr : List.range (12 / 4) = [0, 1, 2] := by decide
  rw [hr]
  simp only [List.foldl, w0, w1, w2]
  rfl

theorem EcmpHash_third_word_inj (seed a b x y : Nat) (hx : x < 4294967296)
    (hy : y < 4294967296)
    (h : EcmpHash (u32Bytes a ++ u32Bytes b ++ u32Bytes x) 12 seed
       = EcmpHash (u32Bytes a ++ u32Bytes b ++ u32Bytes y) 12 seed) : x = y := by
  rw [EcmpHash_three_words, EcmpHash_three_words] at h
  have h1 := refFinal_inj _ _ (mod32_lt _) (mod32_lt _) h
  have hb : ∀ z, (refBlock (refBlock (refBlock (seed % 2 ^ 32) (u32 a)) (u32 b)) (u32 z)
      ^^^ 12) % 2 ^ 32
      = refBlock (refBlock (refBlock (seed % 2 ^ 32) (u32 a)) (u32 b)) (u32 z) ^^^ 12 :=
    fun z => Nat.mod_eq_of_lt (xor_lt_u32 _ _ (refBlock_lt _ _) (by decide))
  rw [hb, hb] at h1
  have h2 := Nat.xor_left_injective h1
  have h3 := refBlock_inj _ _ _ (refBlock_lt _ _) (u32_lt _) (u32_lt _) h2
  unfold u32 at h3
  rwa [Nat.mod_eq_of_lt hx, Nat.mod_eq_of_lt hy] at h3

theorem thirdWordHash_lt (seed a b w : Nat) : thirdWordHash seed a b w < 4294967296 :=
  EcmpHash_lt _ _ _

theorem thirdWordHash_inj (seed a b x y : Nat) (hx : x < 4294967296) (hy : y < 4294967296)
    (h : thirdWordHash seed a b x = thirdWordHash seed a b y) : x = y :=
  EcmpHash_third_word_inj seed a b x y hx hy h

theorem thirdWordHashFin_val (seed a b : Nat) (w : Fin 4294967296) :
    (thirdWordHashFin seed a b w).val = thirdWordHash seed a b w.val :=
  Nat.mod_eq_of_lt (thirdWordHash_lt seed a b w.val)

theorem thirdWordHashFin_bijective (seed a b : Nat) :
    Function.Bijective (thirdWordHashFin seed a b) := by
  apply Finite.injective_iff_bijective.mp
  intro x y h
  have h1 := congrArg Fin.val h
  rw [thirdWordHashFin_val, thirdWordHashFin_val] at h1
  exact Fin.ext (thirdWordHash_inj seed a b x.val y.val x.isLt y.isLt h1)

theorem thirdWordHash_surj (seed a b v : Nat) (hv : v < 4294967296) :
    ∃ w, w < 4294967296 ∧ thirdWordHash seed a b w = v := by
  obtain ⟨w, hw⟩ := (thirdWordHashFin_bijective seed a b).2 ⟨v, hv⟩
  refine ⟨w.val, w.isLt, ?_⟩
  rw [← thirdWordHashFin_val, hw]

theorem packPorts_inj (s d s2 d2 : Nat) (hs : s < 65536) (hd : d < 65536) (hs2 : s2 < 65536)
    (hd2 : d2 < 65536) (h : packPorts s d = packPorts s2 d2) : s = s2 ∧ d = d2 := by
  unfold packPorts at h
  have e1 : ∀ x, u32 (u16 x <<< 16) = u16 x <<< 16 := by
    intro x
    unfold u32 u16
    rw [Nat.shiftLeft_eq]
    omega
  rw [e1, e1, or_shift_eq_add _ _ 16 (by unfold u16; omega),
    or_shift_eq_add _ _ 16 (by unfold u16; omega)] at h
  unfold u16 at h
  omega

theorem packPorts_lt (s d : Nat) : packPorts s d < 4294967296 := by
  unfold packPorts
  have e1 : u32 (u16 d <<< 16) = u16 d <<< 16 := by
    unfold u32 u16
    rw [Nat.shiftLeft_eq]
    omega
  rw [e1, or_shift_eq_add _ _ 16 (by unfold u16; omega)]
  unfold u16
  omega

theorem image_thirdWordHash (seed a b : Nat) :
    (Finset.range 4294967296).image (thirdWordHash seed a b) = Finset.range 4294967296 := by
  apply Finset.eq_of_subset_of_card_le
  · intro v hv
    obtain ⟨w, _, rfl⟩ := Finset.mem_image.mp hv
    exact Finset.mem_range.mpr (thirdWordHash_lt seed a b w)
  · rw [Finset.card_image_of_injOn]
    intro x hx y hy h
    exact thirdWordHash_inj seed a b x y (Finset.mem_range.mp hx) (Finset.mem_range.mp hy) h

theorem selectionCount_eq_count (seed a b N i : Nat) (hi : i < N) :
    selectionCount seed a b N i = Nat.count (fun v => v ≡ i [MOD N]) 4294967296 := by
  unfold selectionCount selectedIndex
  rw [Nat.count_eq_card_filter_range]
  have hinj : Set.InjOn (thirdWordHash seed a b)
      ((Finset.range 4294967296).filter
        (fun w => u32 (thirdWordHash seed a b w % N) = i) : Finset Nat) := by
    intro x hx y hy h
    exact thirdWordHash_inj seed a b x y
      (Finset.mem_range.mp (Finset.mem_filter.mp hx).1)
      (Finset.mem_range.mp (Finset.mem_filter.mp hy).1) h
  rw [← Finset.card_image_of_injOn hinj]
  have hf : ((Finset.range 4294967296).filter
        (fun w => u32 (thirdWordHash seed a b w % N) = i)).image (thirdWordHash seed a b)
      = ((Finset.range 4294967296).image (thirdWordHash seed a b)).filter
        (fun v => u32 (v % N) = i) := by
    rw [Finset.filter_image]
  rw [hf, image_thirdWordHash]
  refine congrArg Finset.card ?_
  apply Finset.filter_congr
  intro v hv
  have hv1 : v < 4294967296 := Finset.mem_range.mp hv
  have hle : v % N ≤ v := Nat.mod_le _ _
  have hu : u32 (v % N) = v % N := Nat.mod_eq_of_lt (by omega)
  rw [hu]
  unfold Nat.ModEq
  rw [Nat.mod_eq_of_lt hi]

theorem selectionCount_eq (seed a b N i : Nat) (hN : 1 ≤ N) (hi : i < N) :
    selectionCount seed a b N i
      = 4294967296 / N + if i < 4294967296 % N then 1 else 0 := by
  rw [selectionCount_eq_count seed a b N i hi, Nat.count_modEq_card _ hN,
    Nat.mod_eq_of_lt hi]

theorem ceil_div_of_rem (M N : Nat) (hN : 1 ≤ N) (hr : 0 < M % N) :
    (M + N - 1) / N = M / N + 1 := by
  have hd := Nat.div_add_mod M N
  have hm := Nat.mod_lt M hN
  apply Nat.div_eq_of_lt_le
  · rw [Nat.add_mul, Nat.one_mul, Nat.mul_comm]
    omega
  · rw [Nat.succ_mul, Nat.add_mul, Nat.one_mul, Nat.mul_comm]
    omega

theorem selectionCount_floor_or_ceil (seed a b N i : Nat) (hN : 1 ≤ N) (hi : i < N) :
    selectionCount seed a b N i = 4294967296 / N ∨
    selectionCount seed a b N i = (4294967296 + N - 1) / N := by
  rw [selectionCount_eq seed a b N i hN hi]
  by_cases h : i < 4294967296 % N
  · right
    rw [if_pos h, ceil_div_of_rem _ _ hN (by omega)]
  · left
    rw [if_neg h, Nat.add_zero]

theorem selectionCount_of_dvd (seed a b N i : Nat) (hN : 1 ≤ N) (hi : i < N)
    (hd : N ∣ 4294967296) : selectionCount seed a b N i = 4294967296 / N := by
  rw [selectionCount_eq seed a b N i hN hi, Nat.mod_eq_zero_of_dvd hd, if_neg (by omega),
    Nat.add_zero]

theorem selectionCount_pow_two (seed a b j i : Nat) (hj : j ≤ 32) (hi : i < 2 ^ j) :
    selectionCount seed a b (2 ^ j) i = 2 ^ (32 - j) := by
  have h32 : (4294967296 : Nat) = 2 ^ 32 := by decide
  rw [selectionCount_of_dvd seed a b (2 ^ j) i (Nat.one_le_two_pow) hi
    (by rw [h32]; exact Nat.pow_dvd_pow 2 hj)]
  rw [h32, Nat.pow_div hj (by decide)]

/-- C13. Load spreading, exact form. For every seed and every pair of first two key words
`a`, `b`, the map from the third key word to `EcmpHash (key, 12, seed)` is a bijection on
32-bit values; it is the hash `GetOutDev` takes on line 125, so two flows that differ only
in their 16-bit ports, or in any way in the third word, never share a hash value. As the
third word ranges over all `2 ^ 32` values, a group of any size `N ≥ 1` selects each index
`i < N` exactly `2 ^ 32 / N` times (rounded down) plus once more when `i < 2 ^ 32 % N`:
that is the floor or the ceiling of `2 ^ 32 / N`, and for a power of two `N = 2 ^ j` up to
`2 ^ 32` exactly `2 ^ (32 - j)` times. -/
theorem C13_hash_spreads_third_word (seed a b : Nat) :
    Function.Bijective (thirdWordHashFin seed a b) ∧
    (∀ w : Fin 4294967296, (thirdWordHashFin seed a b w).val
        = EcmpHash (u32Bytes a ++ u32Bytes b ++ u32Bytes w.val) 12 seed) ∧
    (∀ (p : Packet) (ch : CustomHeader) (residue N : Nat),
        u32 (EcmpHash (flowKeyBytes p ch residue) 12 seed % N)
          = selectedIndex seed p.src p.dst N (flowWord p ch residue)) ∧
    (∀ x y : Nat, x < 4294967296 → y < 4294967296 → x ≠ y →
        EcmpHash (u32Bytes a ++ u32Bytes b ++ u32Bytes x) 12 seed
          ≠ EcmpHash (u32Bytes a ++ u32Bytes b ++ u32Bytes y) 12 seed) ∧
    (∀ v : Nat, v < 4294967296 → ∃ w, w < 4294967296 ∧
        EcmpHash (u32Bytes a ++ u32Bytes b ++ u32Bytes w) 12 seed = v) ∧
    (∀ s d s2 d2 : Nat, s < 65536 → d < 65536 → s2 < 65536 → d2 < 65536 →
        (s ≠ s2 ∨ d ≠ d2) →
        thirdWordHash seed a b (packPorts s d) ≠ thirdWordHash seed a b (packPorts s2 d2)) ∧
    (∀ N i : Nat, 1 ≤ N → i < N →
        selectionCount seed a b N i
          = 4294967296 / N + if i < 4294967296 % N then 1 else 0) ∧
    (∀ N i : Nat, 1 ≤ N → i < N →
        selectionCount seed a b N i = 4294967296 / N ∨
        selectionCount seed a b N i = (4294967296 + N - 1) / N) ∧
    (∀ j i : Nat, j ≤ 32 → i < 2 ^ j → selectionCount seed a b (2 ^ j) i = 2 ^ (32 - j)) :=
  ⟨thirdWordHashFin_bijective seed a b,
   fun w => thirdWordHashFin_val seed a b w,
   fun _ _ _ _ => rfl,
   fun x y hx hy hne h => hne (EcmpHash_third_word_inj seed a b x y hx hy h),
   fun v hv => thirdWordHash_surj seed a b v hv,
   fun s d s2 d2 hs hd hs2 hd2 hne h => by
     have h1 := thirdWordHash_inj seed a b _ _ (packPorts_lt s d) (packPorts_lt s2 d2) h
     have h2 := packPorts_inj s d s2 d2 hs hd hs2 hd2 h1
     cases hne with
     | inl h3 => exact h3 h2.1
     | inr h3 => exact h3 h2.2,
   fun N i hN hi => selectionCount_eq seed a b N i hN hi,
   fun N i hN hi => selectionCount_floor_or_ceil seed a b N i hN hi,
   fun j i hj hi => selectionCount_pow_two seed a b j i hj hi⟩

/-- With seed 7 and key words 1 and 2: a group of three selects index 0 for 1431655766
third words (the ceiling of `2 ^ 32 / 3`) and index 2 for 1431655765 (the floor), a group
of eight selects index 5 for `2 ^ 29` of them, and source ports 10004 and 10005 towards
port 4791 hash apart. -/
theorem C13_witness :
    selectionCount 7 1 2 3 0 = 1431655766 ∧ selectionCount 7 1 2 3 2 = 1431655765 ∧
    selectionCount 7 1 2 (2 ^ 3) 5 = 2 ^ 29 ∧
    thirdWordHash 7 1 2 (packPorts 10004 4791) ≠ thirdWordHash 7 1 2 (packPorts 10005 4791) :=
  ⟨((C13_hash_spreads_third_word 7 1 2).2.2.2.2.2.2.1 3 0 (by decide) (by decide)).trans
      (by decide),
   ((C13_hash_spreads_third_word 7 1 2).2.2.2.2.2.2.1 3 2 (by decide) (by decide)).trans
      (by decide),
   (C13_hash_spreads_third_word 7 1 2).2.2.2.2.2.2.2.2 3 5 (by decide) (by decide),
   (C13_hash_spreads_third_word 7 1 2).2.2.2.2.2.1 10004 4791 10005 4791 (by decide)
      (by decide) (by decide) (by decide) (Or.inl (by decide))⟩

end SwitchNode
